import Mathlib

/-! # neo-go: code generator and jump backpatching, binary reader, VM context

A shallow embedding of `pkg/compiler/codegen.go` (namespace `Compiler`), of
`ReadVarUint` of `pkg/io/binaryReader.go` (namespace `BinIo`) and of the
execution context of `pkg/vm/stack/context.go` (namespace `Stack`).

* The output buffer `c.prog` is kept as the sequence of emissions made through
  the emit helpers (`emitOpcode`, `emitInt`, ...), together with the sticky
  error `Err`.  The byte image of an emission is given by `Env.encode`.
* A run-time panic of the Go code (nil dereference, failed type assertion,
  index out of range) is the result `none`.
* The syntax tree carries, at each node, the entries of `typeInfo` that
  `Visit` reads when it handles that node.
* An error is kept as its message.  Where the Go format string ends in a
  printed syntax node, type-and-value or token, the message is kept without
  that operand.
-/

namespace Compiler

/-! ## Opcodes and emissions -/

/-- Opcodes of package `opcode` that the code generator refers to. -/
inductive Opcode where
  | NOP | JMP | JMPIF | JMPIFNOT | CALL | RET | SYSCALL
  | DUPFROMALTSTACK | TOALTSTACK | FROMALTSTACK
  | XSWAP | DROP | DUP | ROLL | ROT | SWAP | PUSH2
  | CAT | SIZE | INVERT | AND | OR | XOR | EQUAL
  | INC | DEC | NEGATE | NOT | ADD | SUB | MUL | DIV | MOD | SHL | SHR
  | NUMEQUAL | NUMNOTEQUAL | LT | GT | LTE | GTE
  | SHA1 | SHA256 | HASH160 | HASH256 | VERIFY
  | ARRAYSIZE | PACK | PICKITEM | SETITEM | NEWARRAY | NEWSTRUCT | APPEND
  deriving DecidableEq, Repr

/-- One call of an emit helper on the output buffer, with its arguments. -/
inductive Emitted where
  | opcode (op : Opcode)
  | int (v : Int)
  | string (s : String)
  | bool (b : Bool)
  | bytes (bs : List Nat)
  | jmp (op : Opcode) (label : Int)
  | call (op : Opcode) (label : Int)
  | syscall (api : String)
  deriving DecidableEq, Repr

/-! ## Static type information -/

/-- Kinds of `types.Basic` that `emitLoadConst` distinguishes; `Other` is any further kind. -/
inductive BasicKind where
  | Int | UntypedInt | Uint | String | UntypedString | Bool | UntypedBool | Byte | Other
  deriving DecidableEq, Repr

/-- Underlying types, as returned by `Type().Underlying()`. -/
inductive GoType where
  | basic (k : BasicKind)
  | struct (fields : List (String × GoType))
  | other
  deriving Repr

/-- Values of package `constant`. -/
inductive ConstVal where
  | int (v : Int)
  | str (s : String)
  | bool (b : Bool)
  | other
  deriving DecidableEq, Repr

/-- The record `types.TypeAndValue`; `Value` is `none` for a non-constant expression. -/
structure TypeAndValue where
  Typ : GoType
  Value : Option ConstVal
  deriving Repr

/-- The function `constant.Int64Val`: it panics on a value that is not an integer. -/
def Int64Val : Option ConstVal → Option Int
  | some (.int v) => some v
  | _ => none

/-- The function `constant.StringVal`: it panics on a value that is not a string. -/
def StringVal : Option ConstVal → Option String
  | some (.str s) => some s
  | _ => none

/-- The function `constant.BoolVal`: it panics on a value that is not a boolean. -/
def BoolVal : Option ConstVal → Option Bool
  | some (.bool b) => some b
  | _ => none

/-! ## The parts of the package that `codegen.go` uses but does not define -/

/-- Helpers and tables of the compiler package that are declared outside `codegen.go`. -/
structure Env where
  /-- Byte image that the emit helper writes for an emission. -/
  encode : Emitted → List Nat
  /-- Names accepted by `isBuiltin`. -/
  builtinFuncs : List String
  /-- The table `syscalls[api][name]`. -/
  syscalls : String → String → Option String
  /-- The test `isStringType`. -/
  isStringType : GoType → Bool
  /-- The test `isByteArrayType`. -/
  isByteArrayType : GoType → Bool
  /-- The test `isIdentBool` on an identifier name. -/
  isIdentBool : String → Bool
  /-- The helper `makeBoolFromIdent`. -/
  makeBoolFromIdent : String → GoType → Except String TypeAndValue
  /-- The helper `typeAndValueForField` on a field name and type. -/
  typeAndValueForField : String → GoType → Except String TypeAndValue
  /-- The decoder `address.StringToUint160` followed by `BytesBE`. -/
  stringToUint160 : String → Except String (List Nat)

/-! ## Code generator state -/

/-- The writer `io.BufBinWriter`: what has been written, and the sticky error. -/
structure BufBinWriter where
  written : List Emitted
  Err : Option String
  deriving DecidableEq, Repr

/-- Modelled from the spec: the function scope (type `funcScope`, declared outside
`codegen.go`) owns its entry label, the insertion-ordered locals (the slot of a name is
its position) and the optional selector. -/
structure funcScope where
  name : String
  label : Int
  locals : List String
  selector : Option String
  deriving DecidableEq, Repr

/-- The struct `codegen`.  `scope` is the key in `funcs` of the scope being converted
(the Go field is a pointer to that same object). -/
structure codegen where
  prog : BufBinWriter
  funcs : List (String × funcScope)
  scope : Option String
  l : List Int
  deriving DecidableEq, Repr

/-- Bytes held by the buffer. -/
def BufBinWriter.Bytes (env : Env) (w : BufBinWriter) : List Nat :=
  w.written.flatMap env.encode

/-- Number of bytes held by the buffer. -/
def BufBinWriter.Len (env : Env) (w : BufBinWriter) : Nat :=
  (w.Bytes env).length

/-- Assignment `c.prog.Err = e`. -/
def setErr (e : String) (c : codegen) : codegen :=
  { c with prog := { c.prog with Err := some e } }

/-- Modelled from the spec: the emit helpers (declared outside `codegen.go`) append to
the buffer unless a prior operation already set the sticky error, in which case they
are no-ops. -/
def emit (e : Emitted) (c : codegen) : codegen :=
  if c.prog.Err.isSome then c
  else { c with prog := { c.prog with written := c.prog.written ++ [e] } }

def emitOpcode (op : Opcode) (c : codegen) : codegen := emit (.opcode op) c
def emitInt (v : Int) (c : codegen) : codegen := emit (.int v) c
def emitString (s : String) (c : codegen) : codegen := emit (.string s) c
def emitBool (b : Bool) (c : codegen) : codegen := emit (.bool b) c
def emitBytes (bs : List Nat) (c : codegen) : codegen := emit (.bytes bs) c
def emitJmp (op : Opcode) (label : Int) (c : codegen) : codegen := emit (.jmp op label) c
def emitCall (op : Opcode) (label : Int) (c : codegen) : codegen := emit (.call op label) c
def emitSyscall (api : String) (c : codegen) : codegen := emit (.syscall api) c

/-- Conversion of an integer to `int16`. -/
def int16 (x : Int) : Int := (x + 32768) % 65536 - 32768

/-- Conversion of an integer to `uint16`. -/
def uint16 (x : Int) : Nat := (x % 65536).toNat

/-! ## Label table -/

/-- The method `newLabel`: the new label and the state with the table extended. -/
def newLabel (c : codegen) : Int × codegen :=
  ((c.l.length : Int), { c with l := c.l ++ [-1] })

/-- The method `pc`: the program offset of the last instruction. -/
def pc (env : Env) (c : codegen) : Int := (c.prog.Len env : Int) - 1

/-- The method `setLabel`; indexing outside the table panics. -/
def setLabel (env : Env) (l : Int) (c : codegen) : Option codegen :=
  if 0 ≤ l ∧ l < c.l.length then
    some { c with l := c.l.set l.toNat (pc env c + 1) }
  else none

/-! ## Syntax tree -/

/-- Tokens of package `go/token` for operators and assignments. -/
inductive Token where
  | ADD | SUB | MUL | QUO | REM | AND | OR | XOR | SHL | SHR | AND_NOT
  | ADD_ASSIGN | SUB_ASSIGN | MUL_ASSIGN | QUO_ASSIGN | REM_ASSIGN
  | AND_ASSIGN | OR_ASSIGN | XOR_ASSIGN | SHL_ASSIGN | SHR_ASSIGN | AND_NOT_ASSIGN
  | LAND | LOR | ARROW | INC | DEC | EQL | LSS | GTR | ASSIGN | NOT
  | NEQ | LEQ | GEQ | DEFINE
  deriving DecidableEq, Repr

/-- Nodes of package `go/ast` together with the `typeInfo` entries read at each node.

* `BasicLit`: `tinfo` is `typeInfo.Types[n]`.
* `Ident`: `typ` is `typeInfo.ObjectOf(n).Type().Underlying()`.
* `CompositeLit`: `objType` is the underlying type of the object of `n.Type` when that is
  an identifier or a selector (`none` otherwise), `litType` is
  `typeInfo.TypeOf(n).Underlying()`, `byteArray` is `isByteArray(n, typeInfo)` and
  `eltValues` lists `typeInfo.Types[e].Value` for the elements.
* `BinaryExpr`: `tinfo` is `typeInfo.Types[n]` and `xType` is `typeInfo.Types[n.X].Type`.
* `CallExpr`: `arg0Type` is `typeInfo.Types[n.Args[0]].Type`.
* `SelectorExpr`: `selection` says whether `typeInfo.Selections[n]` is present.
* `GenDecl`: one entry per `ValueSpec`, its names and its values.
* `other`: a node kind outside the switch of `Visit`, with the children `ast.Walk` visits. -/
inductive Node where
  | BasicLit (Value : String) (tinfo : TypeAndValue)
  | Ident (Name : String) (typ : GoType)
  | CompositeLit (objType : Option GoType) (litType : GoType) (byteArray : Bool)
      (eltValues : List (Option ConstVal)) (Elts : List Node)
  | KeyValueExpr (Key Value : Node)
  | BinaryExpr (X : Node) (Op : Token) (Y : Node) (tinfo : TypeAndValue) (xType : GoType)
  | CallExpr (Fun : Node) (Args : List Node) (arg0Type : GoType)
  | SelectorExpr (X : Node) (Sel : String) (selection : Bool)
  | ArrayType (Len : Option Node) (Elt : Node)
  | UnaryExpr (Op : Token) (X : Node)
  | IndexExpr (X Index : Node)
  | TypeAssertExpr (X : Node)
  | GenDecl (Specs : List (List String × List Node))
  | AssignStmt (Lhs : List Node) (Tok : Token) (Rhs : List Node)
  | ReturnStmt (Results : List Node)
  | IfStmt (Cond : Option Node) (Body : Node) (Else : Option Node)
  | IncDecStmt (X : Node) (Tok : Token)
  | ForStmt (Init : Option Node) (Cond : Option Node) (Post : Option Node) (Body : Node)
  | other (children : List Node)

/-- Effect of `ast.Walk(c, n)` for one node `n`, as a function of the state. -/
abbrev Walker := codegen → Option codegen

/-- Runs the walkers one after the other. -/
def walkAll (ws : List Walker) (c : codegen) : Option codegen :=
  ws.foldlM (fun c w => w c) c

/-! ## Scopes and locals -/

/-- The scope object that `c.scope` points to; `none` for a nil pointer. -/
def scopeOf (c : codegen) : Option funcScope :=
  c.scope.bind fun k => c.funcs.lookup k

/-- Replaces the scope object registered under `name`. -/
def updateFunc (name : String) (f : funcScope) (funcs : List (String × funcScope)) :
    List (String × funcScope) :=
  funcs.map fun p => if p.1 == name then (p.1, f) else p

/-- Modelled from the spec: `loadLocal` (declared outside `codegen.go`) fetches the slot of
a name; an unknown name has no slot, which the caller turns into a compilation error. -/
def funcScope.loadLocal (f : funcScope) (name : String) : Int :=
  if name ∈ f.locals then (f.locals.indexOf name : Int) else -1

/-- Modelled from the spec: `newLocal` (declared outside `codegen.go`) allocates the next
slot for a new name, and returns the same slot when the name is declared again. -/
def funcScope.newLocal (f : funcScope) (name : String) : Int × funcScope :=
  if name ∈ f.locals then ((f.locals.indexOf name : Int), f)
  else ((f.locals.length : Int), { f with locals := f.locals ++ [name] })

/-- The call `c.scope.loadLocal(name)`. -/
def loadLocal (name : String) (c : codegen) : Option Int :=
  (scopeOf c).map fun f => f.loadLocal name

/-- The call `c.scope.newLocal(name)`. -/
def newLocal (name : String) (c : codegen) : Option (Int × codegen) :=
  match c.scope, scopeOf c with
  | some k, some f =>
    let r := f.newLocal name
    some (r.1, { c with funcs := updateFunc k r.2 c.funcs })
  | _, _ => none

/-- Modelled from the spec: `indexOfStruct` (declared outside `codegen.go`) is the index of
the named field in declaration order, and -1 when there is no such field. -/
def indexOfStruct (fields : List (String × GoType)) (name : String) : Int :=
  if name ∈ fields.map Prod.fst then ((fields.map Prod.fst).indexOf name : Int) else -1

/-! ## Emission helpers of `codegen.go` -/

/-- The method `emitLoadConst`. -/
def emitLoadConst (t : TypeAndValue) (c : codegen) : Option codegen :=
  if c.prog.Err.isSome then some c
  else
    match t.Typ with
    | .basic k =>
      match k with
      | .Int | .UntypedInt | .Uint => (Int64Val t.Value).map fun v => emitInt v c
      | .String | .UntypedString => (StringVal t.Value).map fun v => emitString v c
      | .Bool | .UntypedBool => (BoolVal t.Value).map fun v => emitBool v c
      | .Byte => (Int64Val t.Value).map fun v => emitBytes [(v % 256).toNat] c
      | .Other => some (setErr "compiler doesn't know how to convert this basic type" c)
    | _ => some (setErr "compiler doesn't know how to convert this constant" c)

/-- The method `emitLoadLocalPos`. -/
def emitLoadLocalPos (pos : Int) (c : codegen) : codegen :=
  emitOpcode .PICKITEM (emitInt pos (emitOpcode .DUPFROMALTSTACK c))

/-- The method `emitLoadLocal`. -/
def emitLoadLocal (name : String) (c : codegen) : Option codegen :=
  (loadLocal name c).map fun pos =>
    if pos < 0 then setErr ("cannot load local variable with position: " ++ toString pos) c
    else emitLoadLocalPos pos c

/-- The method `emitStoreLocal`. -/
def emitStoreLocal (pos : Int) (c : codegen) : codegen :=
  let c1 := emitOpcode .DUPFROMALTSTACK c
  if pos < 0 then setErr ("invalid position to store local: " ++ toString pos) c1
  else emitOpcode .SETITEM (emitOpcode .ROLL (emitInt 2 (emitInt pos c1)))

/-- The method `emitLoadField`. -/
def emitLoadField (i : Int) (c : codegen) : codegen :=
  emitOpcode .PICKITEM (emitInt i c)

/-- The method `emitStoreStructField`. -/
def emitStoreStructField (i : Int) (c : codegen) : codegen :=
  emitOpcode .SETITEM (emitOpcode .ROT (emitInt i c))

/-- The method `convertToken`. -/
def convertToken (tok : Token) (c : codegen) : codegen :=
  match tok with
  | .ADD_ASSIGN => emitOpcode .ADD c
  | .SUB_ASSIGN => emitOpcode .SUB c
  | .MUL_ASSIGN => emitOpcode .MUL c
  | .QUO_ASSIGN => emitOpcode .DIV c
  | .REM_ASSIGN => emitOpcode .MOD c
  | .ADD => emitOpcode .ADD c
  | .SUB => emitOpcode .SUB c
  | .MUL => emitOpcode .MUL c
  | .QUO => emitOpcode .DIV c
  | .REM => emitOpcode .MOD c
  | .LSS => emitOpcode .LT c
  | .LEQ => emitOpcode .LTE c
  | .GTR => emitOpcode .GT c
  | .GEQ => emitOpcode .GTE c
  | .EQL => emitOpcode .NUMEQUAL c
  | .NEQ => emitOpcode .NUMNOTEQUAL c
  | .DEC => emitOpcode .DEC c
  | .INC => emitOpcode .INC c
  | .NOT => emitOpcode .NOT c
  | .AND => emitOpcode .AND c
  | .OR => emitOpcode .OR c
  | .SHL => emitOpcode .SHL c
  | .SHR => emitOpcode .SHR c
  | .XOR => emitOpcode .XOR c
  | _ => setErr "compiler could not convert token" c

/-- The method `convertSyscall`. -/
def convertSyscall (env : Env) (api name : String) (c : codegen) : codegen :=
  match env.syscalls api name with
  | none => setErr ("unknown VM syscall api: " ++ name) c
  | some a => emitOpcode .NOP (emitSyscall a c)

/-! ## Builtins and syscalls -/

/-- Modelled from the spec: `isBuiltin` (declared outside `codegen.go`) recognises a closed
set of builtin function names; the name of the callee is taken as `convertBuiltin` takes it. -/
def isBuiltin (env : Env) : Node → Bool
  | .Ident name _ => env.builtinFuncs.contains name
  | .SelectorExpr _ sel _ => env.builtinFuncs.contains sel
  | _ => false

/-- Modelled from the spec: `isSyscall` (declared outside `codegen.go`) recognises a scope
whose selector and name are in the syscall table; it dereferences the scope, so a nil
scope panics. -/
def isSyscall (env : Env) : Option funcScope → Option Bool
  | none => none
  | some f =>
    match f.selector with
    | none => some false
    | some sel => some (env.syscalls sel f.name).isSome

/-- The call `strings.Replace(s, "\"", "", n)` on the characters of `s`. -/
def removeQuotes : Nat → List Char → List Char
  | _, [] => []
  | 0, cs => cs
  | n + 1, ch :: cs => if ch == '"' then removeQuotes n cs else ch :: removeQuotes (n + 1) cs

/-- The method `convertBuiltin` for the call `fn(args...)`. -/
def convertBuiltin (env : Env) (fn : Node) (args : List Node) (arg0Type : GoType)
    (c : codegen) : Option codegen :=
  let name : String :=
    match fn with
    | .Ident n _ => n
    | .SelectorExpr _ sel _ => sel
    | _ => ""
  if name = "len" then
    match args with
    | [] => none
    | _ :: _ =>
      if env.isStringType arg0Type then some (emitOpcode .SIZE c)
      else some (emitOpcode .ARRAYSIZE c)
  else if name = "append" then
    match args with
    | [] => none
    | _ :: _ =>
      if env.isByteArrayType arg0Type then some (emitOpcode .CAT c)
      else
        some (emitOpcode .APPEND (emitOpcode .XSWAP (emitOpcode .PUSH2
          (emitOpcode .DUP (emitOpcode .SWAP c)))))
  else if name = "SHA256" then some (emitOpcode .SHA256 c)
  else if name = "SHA1" then some (emitOpcode .SHA1 c)
  else if name = "Hash256" then some (emitOpcode .HASH256 c)
  else if name = "Hash160" then some (emitOpcode .HASH160 c)
  else if name = "VerifySignature" then some (emitOpcode .VERIFY c)
  else if name = "Equals" then some (emitOpcode .EQUAL c)
  else if name = "FromAddress" then
    match args with
    | .BasicLit v _ :: _ =>
      match env.stringToUint160 (String.mk (removeQuotes 2 v.toList)) with
      | .error e => some (setErr e c)
      | .ok bytes => some (emitBytes bytes c)
    | _ => none
  else some c

/-! ## Struct literals -/

/-- Inner loop of `convertStruct` for the struct field named `sName`: the first element
of the literal whose key is `sName` is compiled and stored.  An element is `none` when it
is not a `KeyValueExpr` with an identifier key (the type assertion panics).  The result
holds `fieldAdded`. -/
def convertStructElts (fields : List (String × GoType)) (sName : String) :
    List (Option (String × Walker)) → codegen → Option (Bool × codegen)
  | [], c => some (false, c)
  | none :: _, _ => none
  | some (fieldName, w) :: rest, c =>
    if sName = fieldName then
      (w c).map fun c1 => (true, emitStoreLocal (indexOfStruct fields fieldName) c1)
    else convertStructElts fields sName rest c

/-- Outer loop of `convertStruct` from field index `i` on, and the final `FROMALTSTACK`. -/
def convertStructFields (env : Env) (fields : List (String × GoType))
    (elts : List (Option (String × Walker))) :
    List (String × GoType) → Int → codegen → Option codegen
  | [], _, c => some (emitOpcode .FROMALTSTACK c)
  | (sName, sType) :: rest, i, c =>
    match convertStructElts fields sName elts c with
    | none => none
    | some (true, c1) => convertStructFields env fields elts rest (i + 1) c1
    | some (false, c1) =>
      match env.typeAndValueForField sName sType with
      | .error e => some (setErr e c1)
      | .ok typeAndVal =>
        match emitLoadConst typeAndVal c1 with
        | none => none
        | some c2 => convertStructFields env fields elts rest (i + 1) (emitStoreLocal i c2)

/-- The method `convertStruct`, for a literal of type `litType` with elements `elts`. -/
def convertStruct (env : Env) (litType : GoType) (elts : List (Option (String × Walker)))
    (c : codegen) : Option codegen :=
  match litType with
  | .struct fields =>
    convertStructFields env fields elts fields 0
      (emitOpcode .TOALTSTACK (emitOpcode .NEWSTRUCT
        (emitInt (fields.length : Int) (emitOpcode .NOP c))))
  | _ => some (setErr "the given literal is not of type struct" c)

/-- The method `convertByteArray`. -/
def convertByteArray (eltValues : List (Option ConstVal)) (c : codegen) : Option codegen :=
  (eltValues.mapM fun v => (Int64Val v).map fun x => (x % 256).toNat).map fun buf =>
    emitBytes buf c

/-! ## Statements -/

/-- Loop over the values of one `ValueSpec` in the `GenDecl` case of `Visit`. -/
def genDeclValues (names : List String) : Nat → List Walker → codegen → Option codegen
  | _, [], c => some c
  | i, w :: ws, c =>
    match w c with
    | none => none
    | some c1 =>
      match names.get? i with
      | none => none
      | some name =>
        match newLocal name c1 with
        | none => none
        | some (l, c2) => genDeclValues names (i + 1) ws (emitStoreLocal l c2)

/-- Tokens of the first case list in the `AssignStmt` case of `Visit`. -/
def isArithAssign (tok : Token) : Bool :=
  tok == .ADD_ASSIGN || tok == .SUB_ASSIGN || tok == .MUL_ASSIGN || tok == .QUO_ASSIGN
    || tok == .REM_ASSIGN

/-- Loop `for i := 0; i < len(n.Lhs); i++` of the `AssignStmt` case of `Visit`, from
index `i` on; `rhs` holds the walkers of `n.Rhs`. -/
def assignLoop (tok : Token) (multiRet : Bool) (rhs : List Walker) :
    List Node → Nat → codegen → Option codegen
  | [], _, c => some c
  | t :: rest, i, c =>
    match t with
    | .Ident name _ =>
      if isArithAssign tok then do
        let c1 ← emitLoadLocal name c
        let w ← rhs.get? 0
        let c2 ← w c1
        let c3 := convertToken tok c2
        let l ← loadLocal name c3
        assignLoop tok multiRet rhs rest (i + 1) (emitStoreLocal l c3)
      else do
        let c1 ← if i == 0 || !multiRet then (rhs.get? i).bind fun w => w c else some c
        let l ← loadLocal name c1
        assignLoop tok multiRet rhs rest (i + 1) (emitStoreLocal l c1)
    | .SelectorExpr x sel _ =>
      match x with
      | .Ident xname xtyp => do
        let w ← rhs.get? i
        let c1 ← w c
        match xtyp with
        | .struct fields => do
          let c2 ← emitLoadLocal xname c1
          assignLoop tok multiRet rhs rest (i + 1)
            (emitStoreStructField (indexOfStruct fields sel) c2)
        | _ => assignLoop tok multiRet rhs rest (i + 1) c1
      | _ => some (setErr "nested selector assigns not supported yet" c)
    | .IndexExpr x index => do
      let w ← rhs.get? i
      let c1 ← w c
      match x with
      | .Ident name _ => do
        let c2 ← emitLoadLocal name c1
        match index with
        | .BasicLit v _ =>
          match v.toInt? with
          | none => some (setErr "failed to convert slice index to integer" c2)
          | some idx => assignLoop tok multiRet rhs rest (i + 1) (emitStoreStructField idx c2)
        | .Ident iname _ => do
          let c3 ← emitLoadLocal iname c2
          assignLoop tok multiRet rhs rest (i + 1) (emitOpcode .SETITEM (emitOpcode .ROT c3))
        | _ => some (setErr "unsupported index expression" c2)
      | _ => none
    | _ => assignLoop tok multiRet rhs rest (i + 1) c

/-! ## Calls -/

/-- The reordering block of the `CallExpr` case of `Visit` (taken when the callee is not
a builtin). -/
def emitReorder (numArgs : Nat) (c : codegen) : codegen :=
  if numArgs = 2 then emitOpcode .SWAP c
  else if numArgs = 3 then emitOpcode .XSWAP (emitInt 2 c)
  else
    (List.range' 1 (numArgs - 1)).foldl
      (fun (c : codegen) (i : Nat) => emitOpcode .ROLL (emitInt (i : Int) c)) c

/-- The final switch of the `CallExpr` case of `Visit`; `f` is the key of the scope object
that the local variable `f` points to (`none` for nil). -/
def callTarget (env : Env) (fn : Node) (args : List Node) (arg0Type : GoType)
    (f : Option String) (c : codegen) : Option codegen :=
  if isBuiltin env fn then convertBuiltin env fn args arg0Type c
  else
    match f.bind fun k => c.funcs.lookup k with
    | none => none
    | some fs =>
      match isSyscall env (some fs) with
      | none => none
      | some true =>
        match fs.selector with
        | none => none
        | some sel => some (convertSyscall env sel fs.name c)
      | some false => some (emitCall .CALL (int16 fs.label) c)

/-- The `CallExpr` case of `Visit` after the callee has been resolved: the arguments,
the reordering, and the call target. -/
def callArgs (env : Env) (fn : Node) (args : List Node) (argWalkers : List Walker)
    (arg0Type : GoType) (numArgs : Nat) (f : Option String) (c : codegen) : Option codegen :=
  match walkAll argWalkers c with
  | none => none
  | some c1 =>
    callTarget env fn args arg0Type f (if isBuiltin env fn then c1 else emitReorder numArgs c1)

/-! ## The visitor -/

/-- Name of an identifier node: the assertion `x.(*ast.Ident)`, which panics otherwise. -/
def identName : Node → Option String
  | .Ident name _ => some name
  | _ => none

/-- Assignment `f.selector = x` on the scope object registered under `name`. -/
def setSelector (name sel : String) (c : codegen) : codegen :=
  match c.funcs.lookup name with
  | none => c
  | some f => { c with funcs := updateFunc name { f with selector := some sel } c.funcs }

/-- Outcome of the switch on `n.Fun` in the `CallExpr` case of `Visit`. -/
inductive Callee where
  /-- The error was set and `Visit` returned. -/
  | failed (c : codegen)
  /-- A conversion `[]byte("...")` was compiled and `Visit` returned. -/
  | converted (c : codegen)
  /-- The switch fell through to the argument loop with this state, `numArgs` and `f`
  (the key of the scope object `f` points to, `none` for nil). -/
  | resolved (c : codegen) (numArgs : Nat) (f : Option String)
  deriving DecidableEq

/-- The switch on `n.Fun` in the `CallExpr` case of `Visit`; `recv` is the walk of `fun.X`
for a selector callee. -/
def resolveCallee (env : Env) (fn : Node) (args : List Node) (recv : Walker) (c : codegen) :
    Option Callee :=
  match fn with
  | .Ident name _ =>
    if (c.funcs.lookup name).isNone && !isBuiltin env fn then
      some (.failed (setErr ("could not resolve function " ++ name) c))
    else some (.resolved c args.length ((c.funcs.lookup name).map fun _ => name))
  | .SelectorExpr x sel selection =>
    match (if selection then recv c else some c) with
    | none => none
    | some c1 =>
      match c1.funcs.lookup sel, identName x with
      | some _, some xname =>
        some (.resolved (setSelector sel xname c1)
          (if selection then args.length + 1 else args.length) (some sel))
      | _, _ => none
  | .ArrayType _ _ =>
    match args with
    | .BasicLit _ tinfo :: _ => (emitLoadConst tinfo c).map .converted
    | _ => none
  | _ => some (.resolved c args.length none)

/-- The test `if c.prog.Err != nil { return nil }` at the head of `Visit`. -/
def guardErr (k : Walker) : Walker := fun c =>
  if c.prog.Err.isSome then some c else k c

/-- The `GenDecl` case of `Visit`; `specs` holds the names and the value walkers of each
`ValueSpec`. -/
def visitGenDecl (specs : List (List String × List Walker)) (c : codegen) : Option codegen :=
  specs.foldlM (fun c sp => genDeclValues sp.1 0 sp.2 c) c

/-- The `ReturnStmt` case of `Visit`; `results` holds the walkers of `n.Results`. -/
def visitReturnStmt (env : Env) (results : List Walker) (c : codegen) : Option codegen :=
  match setLabel env (newLabel c).1 (newLabel c).2 with
  | none => none
  | some c1 =>
    match walkAll results.reverse c1 with
    | none => none
    | some c2 => some (emitOpcode .RET (emitOpcode .DROP (emitOpcode .FROMALTSTACK c2)))

/-- The `IfStmt` case of `Visit`; `cond`, `body` and `els` are the walkers of `n.Cond`,
`n.Body` and `n.Else` (`none` for nil). -/
def visitIfStmt (env : Env) (cond : Option Walker) (body : Walker) (els : Option Walker)
    (c : codegen) : Option codegen :=
  let lIf := (newLabel c).1
  let c0 := (newLabel c).2
  let lElse := (newLabel c0).1
  let c00 := (newLabel c0).2
  let lElseEnd := (newLabel c00).1
  let c000 := (newLabel c00).2
  let afterCond : Option codegen :=
    match cond with
    | none => some c000
    | some cd => (cd c000).map fun c1 => emitJmp .JMPIFNOT (int16 lElse) c1
  match afterCond with
  | none => none
  | some c1 =>
    match setLabel env lIf c1 with
    | none => none
    | some c2 =>
      match body c2 with
      | none => none
      | some c3 =>
        match els with
        | none =>
          (setLabel env lElse c3).bind fun c4 => setLabel env lElseEnd c4
        | some e =>
          match setLabel env lElse (emitJmp .JMP (int16 lElseEnd) c3) with
          | none => none
          | some c4 => (e c4).bind fun c5 => setLabel env lElseEnd c5

/-- The `Ident` case of `Visit`. -/
def visitIdent (env : Env) (name : String) (typ : GoType) (c : codegen) : Option codegen :=
  if env.isIdentBool name then
    match env.makeBoolFromIdent name typ with
    | .error e => some (setErr e c)
    | .ok value => emitLoadConst value c
  else emitLoadLocal name c

/-- The `CompositeLit` case of `Visit`; `elts` holds the walkers of `n.Elts` and
`structElts` the elements as `convertStruct` reads them. -/
def visitCompositeLit (env : Env) (objType : Option GoType) (litType : GoType)
    (byteArray : Bool) (eltValues : List (Option ConstVal)) (elts : List Walker)
    (structElts : List (Option (String × Walker))) (c : codegen) : Option codegen :=
  match objType with
  | none =>
    if byteArray then convertByteArray eltValues c
    else
      (walkAll elts.reverse c).map fun c1 =>
        emitOpcode .PACK (emitInt (elts.length : Int) c1)
  | some (.struct _) => convertStruct env litType structElts c
  | some _ => some c

/-- The `BinaryExpr` case of `Visit`; `x` and `y` are the walkers of `n.X` and `n.Y`. -/
def visitBinaryExpr (env : Env) (op : Token) (tinfo : TypeAndValue) (xType : GoType)
    (x y : Walker) (c : codegen) : Option codegen :=
  match op with
  | .LAND =>
    match x c with
    | none => none
    | some c1 => y (emitJmp .JMPIFNOT (int16 ((c1.l.length : Int) - 1)) c1)
  | .LOR =>
    match x c with
    | none => none
    | some c1 => y (emitJmp .JMPIF (int16 ((c1.l.length : Int) - 3)) c1)
  | _ =>
    if tinfo.Value.isSome then emitLoadConst tinfo c
    else
      match x c with
      | none => none
      | some c1 =>
        match y c1 with
        | none => none
        | some c2 =>
          if op = .ADD then
            if env.isStringType tinfo.Typ then some (emitOpcode .CAT c2)
            else some (emitOpcode .ADD c2)
          else if op = .EQL then
            if env.isStringType xType then some (emitOpcode .EQUAL c2)
            else some (emitOpcode .NUMEQUAL c2)
          else if op = .NEQ then
            if env.isStringType xType then some (emitOpcode .NOT (emitOpcode .EQUAL c2))
            else some (emitOpcode .NUMNOTEQUAL c2)
          else some (convertToken op c2)

/-- The `CallExpr` case of `Visit`; `recv` is the walker of `fun.X` for a selector callee
and `args` holds the walkers of `n.Args`. -/
def visitCallExpr (env : Env) (fn : Node) (argNodes : List Node) (arg0Type : GoType)
    (recv : Walker) (args : List Walker) (c : codegen) : Option codegen :=
  match resolveCallee env fn argNodes recv c with
  | none => none
  | some (.failed c1) => some c1
  | some (.converted c1) => some c1
  | some (.resolved c1 numArgs f) => callArgs env fn argNodes args arg0Type numArgs f c1

/-- The `SelectorExpr` case of `Visit`. -/
def visitSelectorExpr (x : Node) (sel : String) (c : codegen) : Option codegen :=
  match x with
  | .Ident name (.struct fields) =>
    (emitLoadLocal name c).map fun c1 => emitLoadField (indexOfStruct fields sel) c1
  | .Ident _ _ => some c
  | _ => some (setErr "nested selectors not supported yet" c)

/-- The `UnaryExpr` case of `Visit`; `x` is the walker of `n.X`. -/
def visitUnaryExpr (op : Token) (x : Walker) (c : codegen) : Option codegen :=
  match x c with
  | none => none
  | some c1 =>
    match op with
    | .ADD => some c1
    | .SUB => some (emitOpcode .NEGATE c1)
    | .NOT => some (emitOpcode .NOT c1)
    | .XOR => some (emitOpcode .INVERT c1)
    | _ => some (setErr "invalid unary operator" c1)

/-- The `IncDecStmt` case of `Visit`; `xw` is the walker of `n.X`. -/
def visitIncDecStmt (x : Node) (tok : Token) (xw : Walker) (c : codegen) : Option codegen :=
  match xw c with
  | none => none
  | some c1 =>
    match x with
    | .Ident name _ =>
      (loadLocal name (convertToken tok c1)).map fun pos =>
        emitStoreLocal pos (convertToken tok c1)
    | _ => some (convertToken tok c1)

/-- The `IndexExpr` case of `Visit`; `xw` and `iw` are the walkers of `n.X` and `n.Index`. -/
def visitIndexExpr (index : Node) (xw iw : Walker) (c : codegen) : Option codegen :=
  match xw c with
  | none => none
  | some c1 =>
    match index with
    | .BasicLit _ t => (Int64Val t.Value).map fun val => emitLoadField val c1
    | _ => (iw c1).map fun c2 => emitOpcode .PICKITEM c2

/-- The `ForStmt` case of `Visit`; the walkers of `n.Init`, `n.Cond`, `n.Post` (`none` for
nil) and `n.Body`.  `ast.Walk` of a nil condition panics unless the error is set. -/
def visitForStmt (env : Env) (init cond post : Option Walker) (body : Walker)
    (c : codegen) : Option codegen :=
  let fstart := (newLabel c).1
  let c0 := (newLabel c).2
  let fend := (newLabel c0).1
  let c00 := (newLabel c0).2
  let afterInit : Option codegen :=
    match init with
    | none => some c00
    | some i => i c00
  match afterInit with
  | none => none
  | some c1 =>
    match setLabel env fstart c1 with
    | none => none
    | some c2 =>
      let afterCond : Option codegen :=
        match cond with
        | none => if c2.prog.Err.isSome then some c2 else none
        | some cd => cd c2
      match afterCond with
      | none => none
      | some c3 =>
        match body (emitJmp .JMPIFNOT (int16 fend) c3) with
        | none => none
        | some c4 =>
          let afterPost : Option codegen :=
            match post with
            | none => some c4
            | some p => p c4
          match afterPost with
          | none => none
          | some c5 => setLabel env fend (emitJmp .JMP (int16 fstart) c5)

mutual

/-- The method `Visit` as driven by `ast.Walk(c, node)`: for every node kind of its switch
`Visit` returns nil, so the walk is `Visit` alone; for any other kind it returns `c` and
the walk goes on through the children. -/
def Visit (env : Env) : Node → Walker
  | .GenDecl specs => guardErr (visitGenDecl (VisitSpecs env specs))
  | .AssignStmt lhs tok rhs =>
    guardErr (assignLoop tok (rhs.length != lhs.length) (VisitList env rhs) lhs 0)
  | .ReturnStmt results => guardErr (visitReturnStmt env (VisitList env results))
  | .IfStmt cond body els =>
    guardErr (visitIfStmt env (VisitOpt env cond) (Visit env body) (VisitOpt env els))
  | .BasicLit _ tinfo => guardErr (emitLoadConst tinfo)
  | .Ident name typ => guardErr (visitIdent env name typ)
  | .CompositeLit objType litType byteArray eltValues elts =>
    guardErr (visitCompositeLit env objType litType byteArray eltValues (VisitList env elts)
      (VisitElts env elts))
  | .KeyValueExpr key value =>
    guardErr fun c => (Visit env key c).bind fun c1 => Visit env value c1
  | .BinaryExpr x op y tinfo xType =>
    guardErr (visitBinaryExpr env op tinfo xType (Visit env x) (Visit env y))
  | .CallExpr fn args arg0Type =>
    guardErr (visitCallExpr env fn args arg0Type
      (match fn with
        | .SelectorExpr x _ _ => Visit env x
        | _ => fun c => some c)
      (VisitList env args))
  | .SelectorExpr x sel _ => guardErr (visitSelectorExpr x sel)
  | .ArrayType len elt =>
    guardErr fun c =>
      match VisitOpt env len with
      | none => Visit env elt c
      | some n => (n c).bind fun c1 => Visit env elt c1
  | .UnaryExpr op x => guardErr (visitUnaryExpr op (Visit env x))
  | .IncDecStmt x tok => guardErr (visitIncDecStmt x tok (Visit env x))
  | .IndexExpr x index => guardErr (visitIndexExpr index (Visit env x) (Visit env index))
  | .ForStmt init cond post body =>
    guardErr (visitForStmt env (VisitOpt env init) (VisitOpt env cond) (VisitOpt env post)
      (Visit env body))
  | .TypeAssertExpr x => guardErr (Visit env x)
  | .other children => guardErr (walkAll (VisitList env children))

/-- Walker of an optional node. -/
def VisitOpt (env : Env) : Option Node → Option Walker
  | none => none
  | some n => some (Visit env n)

/-- Walkers of the nodes of a list. -/
def VisitList (env : Env) : List Node → List Walker
  | [] => []
  | n :: ns => Visit env n :: VisitList env ns

/-- Names and value walkers of the `ValueSpec`s of a `GenDecl`. -/
def VisitSpecs (env : Env) : List (List String × List Node) → List (List String × List Walker)
  | [] => []
  | (names, values) :: rest => (names, VisitList env values) :: VisitSpecs env rest

/-- Elements of a struct literal as `convertStruct` reads them: the key name and the
walker of the value, or `none` for an element that is not a `KeyValueExpr` with an
identifier key. -/
def VisitElts (env : Env) : List Node → List (Option (String × Walker))
  | [] => []
  | .KeyValueExpr (.Ident name _) value :: rest => some (name, Visit env value) :: VisitElts env rest
  | _ :: rest => none :: VisitElts env rest

end

/-! ## Backpatching -/

/-- The case list `opcode.JMP, opcode.JMPIFNOT, opcode.JMPIF, opcode.CALL` of
`writeJumps`, for the byte numbering `opByte` of package `opcode`. -/
def isJumpByte (opByte : Opcode → Nat) (op : Nat) : Bool :=
  op == opByte .JMP || op == opByte .JMPIFNOT || op == opByte .JMPIF || op == opByte .CALL

/-- The read `binary.LittleEndian.Uint16(b[j : j+2])`.  The slice is taken without spare
capacity, so that slicing past its end panics. -/
def Uint16 (b : List Nat) (j : Nat) : Option Nat :=
  if j + 2 ≤ b.length then some (b.getD j 0 + 256 * b.getD (j + 1) 0) else none

/-- The write `binary.LittleEndian.PutUint16(b[j : j+2], v)`. -/
def PutUint16 (b : List Nat) (j : Nat) (v : Nat) : List Nat :=
  (b.set j (v % 256)).set (j + 1) (v / 256 % 256)

/-- Body of the loop of `writeJumps` at offset `i`. -/
def writeJumpsStep (opByte : Opcode → Nat) (l : List Int) (b : List Nat) (i : Nat) :
    Option (List Nat) :=
  if isJumpByte opByte (b.getD i 0) then
    match Uint16 b (i + 1) with
    | none => none
    | some u =>
      let index := int16 u
      if index > l.length ∨ index < 0 then some b
      else
        match l.get? index.toNat with
        | none => none
        | some target => some (PutUint16 b (i + 1) (uint16 (target - i)))
  else some b

/-- The buffer after the loop of `writeJumps` has handled the offsets below `n`. -/
def writeJumpsUpTo (opByte : Opcode → Nat) (l : List Int) (b : List Nat) (n : Nat) :
    Option (List Nat) :=
  (List.range n).foldlM (writeJumpsStep opByte l) b

/-- The method `writeJumps`: `for i, op := range b`, reading each byte when its turn comes. -/
def writeJumps (opByte : Opcode → Nat) (l : List Int) (b : List Nat) : Option (List Nat) :=
  writeJumpsUpTo opByte l b b.length

/-- Byte values of the opcodes in the NeoVM opcode table. -/
def neoOpByte : Opcode → Nat
  | .NOP => 0x61
  | .JMP => 0x62
  | .JMPIF => 0x63
  | .JMPIFNOT => 0x64
  | .CALL => 0x65
  | .RET => 0x66
  | .SYSCALL => 0x68
  | .DUPFROMALTSTACK => 0x6a
  | .TOALTSTACK => 0x6b
  | .FROMALTSTACK => 0x6c
  | .XSWAP => 0x72
  | .DROP => 0x75
  | .DUP => 0x76
  | .ROLL => 0x7a
  | .ROT => 0x7b
  | .SWAP => 0x7c
  | .PUSH2 => 0x52
  | .CAT => 0x7e
  | .SIZE => 0x82
  | .INVERT => 0x83
  | .AND => 0x84
  | .OR => 0x85
  | .XOR => 0x86
  | .EQUAL => 0x87
  | .INC => 0x8b
  | .DEC => 0x8c
  | .NEGATE => 0x8f
  | .NOT => 0x91
  | .ADD => 0x93
  | .SUB => 0x94
  | .MUL => 0x95
  | .DIV => 0x96
  | .MOD => 0x97
  | .SHL => 0x98
  | .SHR => 0x99
  | .NUMEQUAL => 0x9c
  | .NUMNOTEQUAL => 0x9e
  | .LT => 0x9f
  | .GT => 0xa0
  | .LTE => 0xa1
  | .GTE => 0xa2
  | .SHA1 => 0xa7
  | .SHA256 => 0xa8
  | .HASH160 => 0xa9
  | .HASH256 => 0xaa
  | .VERIFY => 0xad
  | .ARRAYSIZE => 0xc0
  | .PACK => 0xc1
  | .PICKITEM => 0xc3
  | .SETITEM => 0xc4
  | .NEWARRAY => 0xc5
  | .NEWSTRUCT => 0xc6
  | .APPEND => 0xc8

/-! ## Function declarations and the driver -/

/-- The constant `mainIdent`: the identifier of the entry function. -/
def mainIdent : String := "Main"

/-- One field of `decl.Recv.List`: its names, and `typ`, which is
`typeInfo.Defs[Names[0]].Type().Underlying()`. -/
structure RecvField where
  Names : List String
  typ : GoType

/-- The node `ast.FuncDecl`, as `convertFuncDecl` reads it: the name, the receiver list
(`none` for `decl.Recv == nil`), the names of each field of `decl.Type.Params.List`, the
body, and the value of `hasReturnStmt(decl)`. -/
structure FuncDecl where
  Name : String
  Recv : Option (List RecvField)
  Params : List (List String)
  Body : Node
  hasReturnStmt : Bool

/-- The node `ast.File`, as the driver reads it: the function declarations among
`f.Decls`, in order; the `GenDecl` nodes that `convertGlobals` walks (those that
`ast.Inspect` reaches outside function declarations), in order; and the value of
`countGlobals(f)`. -/
structure File where
  Decls : List FuncDecl
  globals : List Node
  countGlobals : Int

/-- A package of the program: its path and its files. -/
structure Package where
  Path : String
  Files : List File

/-- Results of the analyses declared outside `codegen.go`: the oracle
`analyzeFuncUsage(...).funcUsed(name)`, and the value of `f.stackSize()` for the scope
registered under a name. -/
structure Analysis where
  funcUsed : String → Bool
  stackSize : String → Int

/-- The map assignment `c.funcs[name] = f`. -/
def insertFunc (name : String) (f : funcScope) (funcs : List (String × funcScope)) :
    List (String × funcScope) :=
  if (funcs.lookup name).isSome then updateFunc name f funcs else funcs ++ [(name, f)]

/-- The method `newFunc`.  Modelled from the spec: `newFuncScope` (declared outside
`codegen.go`) makes a scope with the name of the declaration and the given label, without
locals and without selector. -/
def newFunc (decl : FuncDecl) (c : codegen) : codegen :=
  { (newLabel c).2 with
    funcs := insertFunc decl.Name ⟨decl.Name, (newLabel c).1, [], none⟩ c.funcs }

/-- The method `resolveFuncDecls`. -/
def resolveFuncDecls (f : File) (c : codegen) : codegen :=
  f.Decls.foldl (fun c n => if n.Name != mainIdent then newFunc n c else c) c

/-- The method `convertGlobals`: every global declaration of the file is walked. -/
def convertGlobals (env : Env) (f : File) (c : codegen) : Option codegen :=
  walkAll (VisitList env f.globals) c

/-- The receiver loop of `convertFuncDecl`; the flag says that the loop returned from
`convertFuncDecl` after setting the error.  An empty `Names` makes `arg.Names[0]` panic. -/
def storeReceivers : List RecvField → codegen → Option (Bool × codegen)
  | [], c => some (false, c)
  | arg :: rest, c =>
    match arg.Names.head? with
    | none => none
    | some ident =>
      match arg.typ with
      | .struct _ =>
        match newLocal ident c with
        | none => none
        | some (l, c1) => storeReceivers rest (emitStoreLocal l c1)
      | _ =>
        some (true, setErr "method receives for non-struct types is not yet supported" c)

/-- The parameter loop of `convertFuncDecl`, over the fields of `decl.Type.Params.List`:
`name := arg.Names[0].Name`, which panics on a field without names. -/
def storeParams : List (List String) → codegen → Option codegen
  | [], c => some c
  | names :: rest, c =>
    match names.head? with
    | none => none
    | some name =>
      match newLocal name c with
      | none => none
      | some (l, c1) => storeParams rest (emitStoreLocal l c1)

/-- The method `convertFuncDecl` from `c.scope = f` on, where `f` is the scope registered
under the name of the declaration.  (`analyzeVoidCalls` has no effect on what this file
reads.) -/
def convertFuncBody (env : Env) (an : Analysis) (file : File) (decl : FuncDecl)
    (c : codegen) : Option codegen :=
  let c1 : codegen := { c with scope := some decl.Name }
  let c2 := emitOpcode .TOALTSTACK (emitOpcode .NEWARRAY
    (emitInt (an.stackSize decl.Name + file.countGlobals) c1))
  let afterRecv : Option (Bool × codegen) :=
    match decl.Recv with
    | none => some (false, c2)
    | some l => storeReceivers l c2
  match afterRecv with
  | none => none
  | some (true, c3) => some c3
  | some (false, c3) =>
    match storeParams decl.Params c3 with
    | none => none
    | some c4 =>
      match isSyscall env (c4.funcs.lookup decl.Name) with
      | none => none
      | some sys =>
        match (if sys then some c4 else convertGlobals env file c4) with
        | none => none
        | some c5 =>
          match Visit env decl.Body c5 with
          | none => none
          | some c6 =>
            if decl.hasReturnStmt then some c6
            else some (emitOpcode .RET (emitOpcode .DROP (emitOpcode .FROMALTSTACK c6)))

/-- The method `convertFuncDecl`. -/
def convertFuncDecl (env : Env) (an : Analysis) (file : File) (decl : FuncDecl)
    (c : codegen) : Option codegen :=
  match c.funcs.lookup decl.Name with
  | some f =>
    match isSyscall env (some f) with
    | none => none
    | some true => some c
    | some false =>
      match setLabel env f.label c with
      | none => none
      | some c1 => convertFuncBody env an file decl c1
  | none => convertFuncBody env an file decl (newFunc decl c)

/-- Modelled from the spec: `resolveEntryPoint` (declared outside `codegen.go`) locates the
entry function in the files of the initial package, and returns it with its file. -/
def resolveEntryPoint (entry : String) (pkg : Package) : Option (FuncDecl × File) :=
  pkg.Files.findSome? fun f => (f.Decls.find? fun d => d.Name == entry).map fun d => (d, f)

/-- The comparison `<` of two strings: lexicographic, character by character. -/
def stringLess (a b : String) : Bool :=
  decide (a.toList < b.toList)

/-- Insertion of a package in a list in ascending order of path. -/
def insertByPath (p : Package) : List Package → List Package
  | [] => [p]
  | q :: qs => if stringLess p.Path q.Path then p :: q :: qs else q :: insertByPath p qs

/-- The keys after `sort.Slice(keys, ...)`: the packages in ascending order of path (the
paths of the packages of a program are distinct). -/
def sortByPath (ps : List Package) : List Package :=
  ps.foldr insertByPath []

/-- Body of the innermost loop of `CodeGen` for one function declaration. -/
def genDecl (env : Env) (an : Analysis) (f : File) (n : FuncDecl) (c : codegen) :
    Option codegen :=
  if n.Name != mainIdent && an.funcUsed n.Name then convertFuncDecl env an f n c else some c

/-- The loop `for _, k := range keys` of `CodeGen`. -/
def genPackages (env : Env) (an : Analysis) (keys : List Package) (c : codegen) :
    Option codegen :=
  keys.foldlM (fun c pkg =>
    pkg.Files.foldlM (fun c f => f.Decls.foldlM (fun c n => genDecl env an f n c) c) c) c

/-- The function `CodeGen` for the program with the initial package `initialPackage` and
the packages `packages`, listed in the order in which `range` enumerates the map
`AllPackages`.  The result is the byte slice (nil is the empty list) and the error. -/
def CodeGen (env : Env) (an : Analysis) (opByte : Opcode → Nat) (initialPackage : String)
    (packages : List Package) : Option (List Nat × Option String) :=
  match packages.find? fun p => p.Path == initialPackage with
  | none => none
  | some pkg =>
    let c : codegen := ⟨⟨[], none⟩, [], none, []⟩
    match resolveEntryPoint mainIdent pkg with
    | none => some ([], some "could not find func main. Did you forget to declare it? ")
    | some (main, mainFile) =>
      let c1 := packages.foldl (fun c p => p.Files.foldl (fun c f => resolveFuncDecls f c) c) c
      match convertFuncDecl env an mainFile main c1 with
      | none => none
      | some c2 =>
        match genPackages env an (sortByPath packages) c2 with
        | none => none
        | some c3 =>
          match c3.prog.Err with
          | some e => some ([], some e)
          | none => (writeJumps opByte c3.l (c3.prog.Bytes env)).map fun buf => (buf, none)

/-! ## Operations named by the properties -/

/-- The walk of `fun.X` that the `CallExpr` case hands to the callee switch. -/
def recvWalker (env : Env) : Node → Walker
  | .SelectorExpr x _ _ => Visit env x
  | _ => fun c => some c

/-- Whether a callee is a bound method: a selector with an entry in `typeInfo.Selections`. -/
def boundMethod : Node → Bool
  | .SelectorExpr _ _ selection => selection
  | _ => false

/-- Emits the given emissions one after the other. -/
def emitAll (es : List Emitted) (c : codegen) : codegen :=
  es.foldl (fun c e => emit e c) c

/-- The reordering emissions as the argument-reordering property words them: none for a
builtin; otherwise none for 0 or 1 arguments, one SWAP for 2, one (push 2, XSWAP) for 3,
and the pairs (push i, ROLL) for i = 1, ..., N-1 for N arguments, N at least 4. -/
def reorderByArity (builtin : Bool) (n : Nat) : List Emitted :=
  if builtin then []
  else
    match n with
    | 0 => []
    | 1 => []
    | 2 => [.opcode .SWAP]
    | 3 => [.int 2, .opcode .XSWAP]
    | n + 4 => (List.range' 1 (n + 3)).flatMap fun (i : Nat) => [.int (i : Int), .opcode .ROLL]

/-- Key and value of an element `key: value` of a keyed literal with an identifier key. -/
def keyValue : Node → Option (String × Node)
  | .KeyValueExpr (.Ident k _) v => some (k, v)
  | _ => none

/-- A keyed literal: every element has the form `key: value` with an identifier key. -/
def isKeyed (elts : List Node) : Bool :=
  elts.all fun e => (keyValue e).isSome

/-- The expression that a keyed literal gives for the field `name`, if it names the field. -/
def literalValue (name : String) (elts : List Node) : Option Node :=
  (elts.filterMap keyValue).lookup name

/-- The value-and-store groups of the struct-literal completeness property, for the
fields `fs` with indices `i`, `i + 1`, ...: for each field, the code of the expression the
literal gives for it, or else the load of the zero value of the field type, and then the
store at the index of the field.  It is not defined when an unnamed field has no zero value. -/
def structGroups (env : Env) (elts : List Node) :
    List (String × GoType) → Nat → codegen → Option codegen
  | [], _, c => some c
  | (name, typ) :: rest, i, c =>
    let value : Option codegen :=
      match literalValue name elts with
      | some v => Visit env v c
      | none =>
        match env.typeAndValueForField name typ with
        | .ok zero => emitLoadConst zero c
        | .error _ => none
    value.bind fun c1 => structGroups env elts rest (i + 1) (emitStoreLocal (i : Int) c1)

/-- The opcode of the operator of a compound assignment, as the compound-assignment
property names it. -/
def compoundOpcode : Token → Option Opcode
  | .ADD_ASSIGN => some .ADD
  | .SUB_ASSIGN => some .SUB
  | .MUL_ASSIGN => some .MUL
  | .QUO_ASSIGN => some .DIV
  | .REM_ASSIGN => some .MOD
  | .AND_ASSIGN => some .AND
  | .OR_ASSIGN => some .OR
  | .XOR_ASSIGN => some .XOR
  | .SHL_ASSIGN => some .SHL
  | .SHR_ASSIGN => some .SHR
  | _ => none

/-- Load-modify-store as the compound-assignment property words it: the load of `x`, the
code of `e`, the opcode of the operator, the store into the slot of `x`. -/
def loadModifyStore (env : Env) (x : String) (op : Opcode) (e : Node) (c : codegen) :
    Option codegen := do
  let c1 ← emitLoadLocal x c
  let c2 ← Visit env e c1
  let l ← loadLocal x (emitOpcode op c2)
  some (emitStoreLocal l (emitOpcode op c2))

/-- The plain store of the code of `e` into the slot of `x`. -/
def plainStore (env : Env) (x : String) (e : Node) (c : codegen) : Option codegen := do
  let c1 ← Visit env e c
  let l ← loadLocal x c1
  some (emitStoreLocal l c1)

/-- The code of an optional part of a statement: nothing when the part is absent. -/
def walkOpt (o : Option Walker) (c : codegen) : Option codegen :=
  match o with
  | none => some c
  | some w => w c

/-- Every RET among the emissions is immediately preceded by FROMALTSTACK and then DROP. -/
def retsCleaned (ws : List Emitted) : Prop :=
  ∀ i, i < ws.length → ws[i]? = some (.opcode .RET) →
    2 ≤ i ∧ ws[i - 2]? = some (.opcode .FROMALTSTACK) ∧ ws[i - 1]? = some (.opcode .DROP)

instance retsCleaned.decidable (ws : List Emitted) : Decidable (retsCleaned ws) := by
  unfold retsCleaned
  infer_instance

/-- The state `c1` comes from the state `c` by emissions in which every RET is cleaned,
and by extending the label table without touching the entries already there. -/
structure Steps (c c1 : codegen) : Prop where
  written : ∃ ws, c1.prog.written = c.prog.written ++ ws ∧ retsCleaned ws
  grows : c.l.length ≤ c1.l.length
  frame : ∀ i, i < c.l.length → c1.l[i]? = c.l[i]?

/-- Every result of the walker comes from its start state by `Steps`. -/
def WalkerOk (w : Walker) : Prop :=
  ∀ c c1, w c = some c1 → Steps c c1

/-- The walks that the generator makes at a node are `WalkerOk`: the walk of the node, the
walk of the receiver when the node is a callee, and the walk of the value when the node
is an element `key: value` of a literal. -/
def NodeOk (env : Env) (n : Node) : Prop :=
  WalkerOk (Visit env n) ∧ WalkerOk (recvWalker env n) ∧
    ∀ k v, keyValue n = some (k, v) → WalkerOk (Visit env v)

/-- An item of the evaluation stack while the reordering runs: an argument of the call,
or an integer that the reordering pushed. -/
inductive StackItem (α : Type) where
  | arg (a : α)
  | num (n : Int)
  deriving DecidableEq, Repr

/-- Modelled from the spec: the VM instruction XSWAP n, implemented outside the files
embedded here, exchanges the top item with the item `n` below it; the stack is given top
first. -/
def xswap {β : Type} (n : Nat) (s : List β) : Option (List β) :=
  match s.get? 0, s.get? n with
  | some top, some x => some ((s.set n top).set 0 x)
  | _, _ => none

/-- Modelled from the spec: the VM instruction ROLL n, implemented outside the files
embedded here, moves the item `n` below the top to the top; the stack is given top first. -/
def roll {β : Type} (n : Nat) (s : List β) : Option (List β) :=
  (s.get? n).map fun x => x :: s.eraseIdx n

/-- Modelled from the spec: the VM, implemented outside the files embedded here.  The
effect on the evaluation stack (top first) of one emission of the reordering sequence,
under the stack semantics that the reordering property names: a pushed integer goes on top, SWAP exchanges the top two items, XSWAP and ROLL take
their operand `n` from the top of the stack.  No other emission belongs to the
reordering. -/
def stackStep {α : Type} : Emitted → List (StackItem α) → Option (List (StackItem α))
  | .int v, s => some (.num v :: s)
  | .opcode .SWAP, x :: y :: s => some (y :: x :: s)
  | .opcode .XSWAP, .num n :: s => if 0 ≤ n then xswap n.toNat s else none
  | .opcode .ROLL, .num n :: s => if 0 ≤ n then roll n.toNat s else none
  | _, _ => none

/-- Runs the emissions one after the other on the evaluation stack. -/
def stackRun {α : Type} (es : List Emitted) (s : List (StackItem α)) :
    Option (List (StackItem α)) :=
  es.foldlM (fun s e => stackStep e s) s

/-- The frame allocation at function entry: the push of the frame size, NEWARRAY,
TOALTSTACK. -/
def frameCode (size : Int) : List Emitted :=
  [.int size, .opcode .NEWARRAY, .opcode .TOALTSTACK]

/-- The return sequence. -/
def returnSeq : List Emitted := [.opcode .FROMALTSTACK, .opcode .DROP, .opcode .RET]

/-- The emissions hold no TOALTSTACK, and each FROMALTSTACK among them is the head of a
return sequence FROMALTSTACK, DROP, RET. -/
inductive AltQuiet : List Emitted → Prop where
  | nil : AltQuiet []
  | emit (e : Emitted) (ws : List Emitted) : e ≠ .opcode .TOALTSTACK →
      e ≠ .opcode .FROMALTSTACK → AltQuiet ws → AltQuiet (e :: ws)
  | ret (ws : List Emitted) : AltQuiet ws → AltQuiet (returnSeq ++ ws)

/-- The state `c1` comes from the state `c` by emissions that are `AltQuiet`. -/
def Quiet (c c1 : codegen) : Prop :=
  ∃ ws, c1.prog.written = c.prog.written ++ ws ∧ AltQuiet ws

/-- Every result of the walker comes from its start state by `Quiet`. -/
def QuietOk (w : Walker) : Prop :=
  ∀ c c1, w c = some c1 → Quiet c c1

mutual

/-- No struct literal occurs in the node. -/
def noStructLit : Node → Bool
  | .BasicLit _ _ => true
  | .Ident _ _ => true
  | .CompositeLit objType _ _ _ elts =>
    (match objType with
      | some (.struct _) => false
      | _ => true) && noStructLitList elts
  | .KeyValueExpr key value => noStructLit key && noStructLit value
  | .BinaryExpr x _ y _ _ => noStructLit x && noStructLit y
  | .CallExpr fn args _ => noStructLit fn && noStructLitList args
  | .SelectorExpr x _ _ => noStructLit x
  | .ArrayType len elt => noStructLitOpt len && noStructLit elt
  | .UnaryExpr _ x => noStructLit x
  | .IndexExpr x index => noStructLit x && noStructLit index
  | .TypeAssertExpr x => noStructLit x
  | .GenDecl specs => noStructLitSpecs specs
  | .AssignStmt lhs _ rhs => noStructLitList lhs && noStructLitList rhs
  | .ReturnStmt results => noStructLitList results
  | .IfStmt cond body els => noStructLitOpt cond && noStructLit body && noStructLitOpt els
  | .IncDecStmt x _ => noStructLit x
  | .ForStmt init cond post body =>
    noStructLitOpt init && noStructLitOpt cond && noStructLitOpt post && noStructLit body
  | .other children => noStructLitList children

/-- No struct literal occurs in the optional node. -/
def noStructLitOpt : Option Node → Bool
  | none => true
  | some n => noStructLit n

/-- No struct literal occurs in the nodes of the list. -/
def noStructLitList : List Node → Bool
  | [] => true
  | n :: ns => noStructLit n && noStructLitList ns

/-- No struct literal occurs in the values of the specs. -/
def noStructLitSpecs : List (List String × List Node) → Bool
  | [] => true
  | (_, values) :: rest => noStructLitList values && noStructLitSpecs rest

end

/-- The walks that the generator makes at a node are `QuietOk`: the walk of the node, and
the walk of the receiver when the node is a callee. -/
def NodeQuiet (env : Env) (n : Node) : Prop :=
  QuietOk (Visit env n) ∧ QuietOk (recvWalker env n)

/-- The emissions hold, at index `i`, a load of a local variable: DUPFROMALTSTACK, the push
of the slot, PICKITEM. -/
def isLoadAt (ws : List Emitted) (i : Nat) : Bool :=
  ws.get? i == some (.opcode .DUPFROMALTSTACK) &&
    (match ws.get? (i + 1) with
      | some (.int _) => true
      | _ => false) &&
    ws.get? (i + 2) == some (.opcode .PICKITEM)

/-- The number of TOALTSTACK minus the number of FROMALTSTACK among the emissions. -/
def altBalance (ws : List Emitted) : Int :=
  (ws.count (.opcode .TOALTSTACK) : Int) - (ws.count (.opcode .FROMALTSTACK) : Int)

/-! ## Sample inputs -/

/-- A sample instance of the tables and helpers outside `codegen.go`: every emission takes
one byte; `len`, `append` and `SHA256` are builtins; `storage.Get` is a syscall. -/
def sampleEnv : Env where
  encode := fun _ => [0]
  builtinFuncs := ["len", "append", "SHA256"]
  syscalls := fun api name =>
    if api = "storage" ∧ name = "Get" then some "Neo.Storage.Get" else none
  isStringType := fun t => match t with
    | .basic .String => true
    | _ => false
  isByteArrayType := fun _ => false
  isIdentBool := fun n => n = "true" || n = "false"
  makeBoolFromIdent := fun n _ => .ok ⟨.basic .Bool, some (.bool (n = "true"))⟩
  typeAndValueForField := fun _ t => match t with
    | .basic .Int => .ok ⟨t, some (.int 0)⟩
    | .basic .String => .ok ⟨t, some (.str "")⟩
    | .basic .Bool => .ok ⟨t, some (.bool false)⟩
    | _ => .error "could not initialize struct field to zero"
  stringToUint160 := fun _ => .error "wrong address"

/-- A sample state: `Main` is being converted, has the locals `x` and `y`, and the
functions `f` and `Get` are registered. -/
def sampleState : codegen where
  prog := ⟨[], none⟩
  funcs := [("Main", ⟨"Main", 0, ["x", "y"], none⟩), ("f", ⟨"f", 1, [], none⟩),
    ("Get", ⟨"Get", 2, [], none⟩)]
  scope := some "Main"
  l := [-1, -1, -1]

/-- The constant expression `1 < 2`, folded to `true` by the type checker. -/
def sampleLess : Node :=
  .BinaryExpr (.BasicLit "1" ⟨.basic .UntypedInt, some (.int 1)⟩) .LSS
    (.BasicLit "2" ⟨.basic .UntypedInt, some (.int 2)⟩)
    ⟨.basic .UntypedBool, some (.bool true)⟩ (.basic .UntypedInt)

/-- The constant expression `1 < 2 && 1 < 2`, folded to `true` by the type checker. -/
def sampleAnd : Node :=
  .BinaryExpr sampleLess .LAND sampleLess ⟨.basic .UntypedBool, some (.bool true)⟩
    (.basic .UntypedBool)

/-- A sample instance of the tables in which the name `SHA256` is both a builtin and,
under the selector `crypto`, a syscall. -/
def overlapEnv : Env :=
  { sampleEnv with
    builtinFuncs := ["SHA256"]
    syscalls := fun api name =>
      if api = "crypto" ∧ name = "SHA256" then some "Neo.Crypto.SHA256" else none }

/-- The sample state with the function `SHA256` registered as well. -/
def overlapState : codegen :=
  { sampleState with funcs := ("SHA256", ⟨"SHA256", 3, [], none⟩) :: sampleState.funcs }

/-- The call `crypto.SHA256(x)`. -/
def sampleHashCall : Node :=
  .CallExpr (.SelectorExpr (.Ident "crypto" .other) "SHA256" false)
    [.Ident "x" (.basic .String)] (.basic .String)

/-- The call `f(x, 1)` of a declared function. -/
def sampleCall : Node :=
  .CallExpr (.Ident "f" .other)
    [.Ident "x" (.basic .Int), .BasicLit "1" ⟨.basic .Int, some (.int 1)⟩] (.basic .Int)

/-- The call `append(x, y)` of the builtin `append`. -/
def sampleAppend : Node :=
  .CallExpr (.Ident "append" .other) [.Ident "x" .other, .Ident "y" .other] .other

/-- The struct type `struct { A int; B string }`. -/
def sampleStruct : List (String × GoType) := [("A", .basic .Int), ("B", .basic .String)]

/-- The literal `T{B: x}` of the sample struct type. -/
def sampleLiteral : Node :=
  .CompositeLit (some (.struct sampleStruct)) (.struct sampleStruct) false [none]
    [.KeyValueExpr (.Ident "B" (.basic .String)) (.Ident "x" (.basic .String))]

/-- Sample results of the analyses: every function except those named in `unused` is
used. -/
def sampleAnalysis (unused : List String) (stackSize : String → Int) : Analysis where
  funcUsed := fun n => !unused.contains n
  stackSize := stackSize

/-- The identifier `x` of the sample struct type. -/
def sampleX : Node := .Ident "x" (.struct sampleStruct)

/-- The call `f()` of a declared function. -/
def sampleCall0 : Node := .CallExpr (.Ident "f" .other) [] .other

/-- The nested selector `a.b.c`. -/
def sampleNested : Node :=
  .SelectorExpr (.SelectorExpr (.Ident "a" .other) "b" false) "c" false

/-- A file without declarations. -/
def emptyFile : File := ⟨[], [], 0⟩

/-- The declaration `func f(a, b int) {}`: one parameter field with two names. -/
def sampleTwoParams : FuncDecl := ⟨"f", none, [["a", "b"]], .other [], false⟩

/-- The condition `x < y`. -/
def sampleCond : Node :=
  .BinaryExpr (.Ident "x" (.basic .Int)) .LSS (.Ident "y" (.basic .Int))
    ⟨.basic .Bool, none⟩ (.basic .Int)

/-- The statement `x++`. -/
def samplePost : Node := .IncDecStmt (.Ident "x" (.basic .Int)) .INC

/-- The loop `for ; x < y; x++ {}`. -/
def sampleLoop : Node := .ForStmt none (some sampleCond) (some samplePost) (.other [])

/-- The sample state with the two labels of the sample loop created. -/
def sampleLoopStart : codegen := (newLabel (newLabel sampleState).2).2

/-- The state after the condition of the sample loop. -/
def sampleAfterCond : codegen :=
  (Visit sampleEnv sampleCond
    { sampleLoopStart with l := sampleLoopStart.l.set 3 0 }).getD sampleState

/-- The state after the (empty) body of the sample loop. -/
def sampleAfterBody : codegen := emitJmp .JMPIFNOT 4 sampleAfterCond

/-- The state after the post statement of the sample loop. -/
def sampleAfterPost : codegen :=
  (Visit sampleEnv samplePost sampleAfterBody).getD sampleState

/-- The declaration `func f() { return }`. -/
def sampleReturn : FuncDecl := ⟨"f", none, [], .other [.ReturnStmt []], true⟩

/-- Byte images of the emissions in the NeoVM encoding, for the emissions of the sample
programs: an opcode is its byte, the integers -1 to 15 and the booleans are one push
opcode, a jump or call is the opcode byte and the operand as 2 bytes, little-endian.  The
sample programs emit no other integer, no string, no byte slice and no syscall; their
images are given as a length byte and the data. -/
def neoEncode : Emitted → List Nat
  | .opcode op => [neoOpByte op]
  | .int v =>
    if v = -1 then [0x4f] else if v = 0 then [0x00]
    else if 0 < v ∧ v < 16 then [0x50 + v.toNat] else [0x01, (v % 256).toNat]
  | .bool b => [if b then 0x51 else 0x00]
  | .string str => str.length :: str.toList.map fun ch => ch.toNat
  | .bytes bs => bs.length :: bs
  | .jmp op label => [neoOpByte op, uint16 label % 256, uint16 label / 256]
  | .call op label => [neoOpByte op, uint16 label % 256, uint16 label / 256]
  | .syscall api => 0x68 :: api.length :: api.toList.map fun ch => ch.toNat

/-- The sample tables with the NeoVM encoding. -/
def neoEnv : Env := { sampleEnv with encode := neoEncode }

/-- The function body `{ var x = true || false }`. -/
def sampleOrBody : Node :=
  .other [.other [.GenDecl [(["x"], [.BinaryExpr (.Ident "true" (.basic .Bool)) .LOR
    (.Ident "false" (.basic .Bool)) ⟨.basic .Bool, some (.bool true)⟩ (.basic .Bool)])]]]

/-- The declaration `func Main() { var x = true || false }`. -/
def sampleMain : FuncDecl := ⟨"Main", none, [], sampleOrBody, false⟩

/-- The declaration `func name() {}`. -/
def emptyFunc (name : String) : FuncDecl := ⟨name, none, [], .other [], false⟩

/-- The stack sizes of the sample programs: one local in `Main`, none elsewhere. -/
def sampleSizes : String → Int := fun n => if n = "Main" then 1 else 0

/-- The package `a` with the one file `func Main() { var x = true || false }; func f() {}`. -/
def packageA : Package := ⟨"a", [⟨[sampleMain, emptyFunc "f"], [], 0⟩]⟩

/-- The package `b` with the one file `func g() {}`. -/
def packageB : Package := ⟨"b", [⟨[emptyFunc "g"], [], 0⟩]⟩

/-- The package `a` with the function `Main` alone. -/
def packageMainOnly : Package := ⟨"a", [⟨[sampleMain], [], 0⟩]⟩

/-- The function body `{ var x = true || false; f(); b.g() }`. -/
def sampleCallsBody : Node :=
  .other [.other [.GenDecl [(["x"], [.BinaryExpr (.Ident "true" (.basic .Bool)) .LOR
    (.Ident "false" (.basic .Bool)) ⟨.basic .Bool, some (.bool true)⟩ (.basic .Bool)])]],
    .other [.CallExpr (.Ident "f" .other) [] .other],
    .other [.CallExpr (.SelectorExpr (.Ident "b" .other) "g" false) [] .other]]

/-- The package `a` with the one file
`func Main() { var x = true || false; f(); b.g() }; func f() {}`. -/
def packageACalls : Package :=
  ⟨"a", [⟨[⟨"Main", none, [], sampleCallsBody, false⟩, emptyFunc "f"], [], 0⟩]⟩

/-- The package `a` that declares `Main` as `func Main() { var z = a.b.c &^ y }`. -/
def packageTwoErrors : Package :=
  ⟨"a", [⟨[⟨"Main", none, [], .other [.other [.GenDecl [(["z"],
    [.BinaryExpr sampleNested .AND_NOT (.Ident "y" (.basic .Int)) ⟨.basic .Int, none⟩
      .other])]]], false⟩], [], 0⟩]⟩

/-- The declaration `func Main() { if x < y { return }; x++ }`. -/
def sampleEarlyReturn : FuncDecl :=
  ⟨"Main", none, [],
    .other [.IfStmt (some sampleCond) (.other [.ReturnStmt []]) none, samplePost], true⟩

/-- The declaration `func Main() { var x = 1; var y = 2; if x < y { return }; x++ }`. -/
def sampleFallThrough : FuncDecl :=
  ⟨"Main", none, [],
    .other [.other [.GenDecl [(["x"], [.BasicLit "1" ⟨.basic .Int, some (.int 1)⟩])]],
      .other [.GenDecl [(["y"], [.BasicLit "2" ⟨.basic .Int, some (.int 2)⟩])]],
      .IfStmt (some sampleCond) (.other [.ReturnStmt []]) none, samplePost], true⟩

/-- The declaration `func Main() { var x = 1; x++ }`. -/
def sampleNoReturn : FuncDecl :=
  ⟨"Main", none, [],
    .other [.other [.GenDecl [(["x"], [.BasicLit "1" ⟨.basic .Int, some (.int 1)⟩])]],
      samplePost], false⟩

/-- The declaration `func Main() { var z = T{B: x} }`. -/
def sampleStructDecl : FuncDecl :=
  ⟨"Main", none, [], .other [.other [.GenDecl [(["z"], [sampleLiteral])]]], false⟩

/-- The condition `x || y`. -/
def sampleOrXY : Node :=
  .BinaryExpr (.Ident "x" (.basic .Bool)) .LOR (.Ident "y" (.basic .Bool))
    ⟨.basic .Bool, none⟩ (.basic .Bool)

/-- The condition `x && y`. -/
def sampleAndXY : Node :=
  .BinaryExpr (.Ident "x" (.basic .Bool)) .LAND (.Ident "y" (.basic .Bool))
    ⟨.basic .Bool, none⟩ (.basic .Bool)

/-- The loop `for x || y {}`. -/
def sampleForOr : Node := .ForStmt none (some sampleOrXY) none (.other [])

/-- The loop `for x && y {}`. -/
def sampleForAnd : Node := .ForStmt none (some sampleAndXY) none (.other [])

/-- The statement `if x || y {} else { x++ }`. -/
def sampleIfOr : Node := .IfStmt (some sampleOrXY) (.other []) (some (.other [samplePost]))

/-- The statement `if x && y {} else { x++ }`. -/
def sampleIfAnd : Node := .IfStmt (some sampleAndXY) (.other []) (some (.other [samplePost]))

end Compiler

/-! ## Package `io`: the binary reader -/

namespace BinIo

/-- A byte. -/
abbrev Byte := Fin 256

/-- The struct `BinReader` over a byte stream: `r` holds the bytes of the underlying reader
that are not yet read, `Err` the error. -/
structure BinReader where
  r : List Byte
  Err : Option String
  deriving DecidableEq, Repr

/-- The function `NewBinReaderFromBuf`. -/
def NewBinReaderFromBuf (b : List Byte) : BinReader := ⟨b, none⟩

/-- The value of a byte sequence read as a little-endian unsigned integer. -/
def littleEndian : List Byte → Nat
  | [] => 0
  | b :: bs => b.val + 256 * littleEndian bs

/-- The call `binary.Read(r.r, binary.LittleEndian, &v)` of package `encoding/binary` for
an unsigned integer `v` of `n` bytes (`n` at least 1) on a byte stream: the value read
(`none` when `v` is left as it was), the bytes left, and the error.  The bytes are read
with `io.ReadFull`: a stream that holds fewer than `n` bytes is consumed to its end, and
the error is `EOF` when it held none and `unexpected EOF` otherwise. -/
def binaryRead (n : Nat) (s : List Byte) : Option Nat × List Byte × Option String :=
  if n ≤ s.length then (some (littleEndian (s.take n)), s.drop n, none)
  else if s.isEmpty then (none, [], some "EOF")
  else (none, [], some "unexpected EOF")

/-- The method `ReadVarUint`: the result and the reader after the call. -/
def BinReader.ReadVarUint (r : BinReader) : Nat × BinReader :=
  if r.Err.isSome then (0, r)
  else
    let first := binaryRead 1 r.r
    let b : Nat := first.1.getD 0
    let r1 : BinReader := ⟨first.2.1, first.2.2⟩
    if b = 0xfd then
      let next := binaryRead 2 r1.r
      (next.1.getD 0, ⟨next.2.1, next.2.2⟩)
    else if b = 0xfe then
      let next := binaryRead 4 r1.r
      (next.1.getD 0, ⟨next.2.1, next.2.2⟩)
    else if b = 0xff then
      let next := binaryRead 8 r1.r
      (next.1.getD 0, ⟨next.2.1, next.2.2⟩)
    else (b, r1)

end BinIo

/-! ## Package `stack`: the execution context -/

namespace Stack

/-- The struct `Context`.  `R` is the type `RandomAccess` of the evaluation stack, declared
outside `context.go`; `abstractItem` says whether the embedded pointer is set.  The field
`ip` is a Go `int`: a signed integer of `w` bits (32 or 64, by the platform), kept as an
integer that every operation wraps with `wrapInt w`. -/
structure Context (R : Type) where
  abstractItem : Bool
  ip : Int
  prog : List Nat
  breakPoints : List Int
  Estack : R
  deriving DecidableEq, Repr

/-- The value of a Go `int` of `w` bits after an arithmetic operation whose mathematical
result is `x`: the result wraps around in two's complement, into the range from
`-2^(w-1)` to `2^(w-1) - 1`. -/
def wrapInt (w : Nat) (x : Int) : Int :=
  (x + 2 ^ (w - 1)) % (2 * 2 ^ (w - 1)) - 2 ^ (w - 1)

/-- The function `NewContext`; `zero` is the zero value of `RandomAccess`. -/
def NewContext {R : Type} (zero : R) (b : List Nat) : Context R :=
  ⟨true, -1, b, [], zero⟩

/-- The method `Next`: the instruction returned and the context after the call; `w` is the
size of `int` in bits and `RET` is the constant of that name, declared outside `context.go`.
The increment `c.ip++` wraps; indexing the program at a negative `ip` panics. -/
def Context.Next {R : Type} (w : Nat) (RET : Nat) (c : Context R) : Option (Nat × Context R) :=
  let c1 : Context R := { c with ip := wrapInt w (c.ip + 1) }
  if c1.ip ≥ (c1.prog.length : Int) then some (RET, c1)
  else if c1.ip < 0 then none
  else (c1.prog.get? c1.ip.toNat).map fun i => (i, c1)

/-- The method `IP`; `w` is the size of `int` in bits, and the sum `c.ip + 1` wraps. -/
def Context.IP {R : Type} (w : Nat) (c : Context R) : Int := wrapInt w (c.ip + 1)

/-- The method `Copy`; `zero` is the zero value of `RandomAccess`. -/
def Context.Copy {R : Type} (zero : R) (c : Context R) : Context R :=
  ⟨false, c.ip, c.prog, c.breakPoints, zero⟩

/-- The context after `k` calls of `Next`, when none of them panics. -/
def Context.nextN {R : Type} (w : Nat) (RET : Nat) : Nat → Context R → Option (Context R)
  | 0, c => some c
  | k + 1, c => (c.Next w RET).bind fun r => Context.nextN w RET k r.2

end Stack

/-! # Theorems -/

namespace Compiler

/-! ## Label table -/

/-- C6. A label returned by `newLabel` is the previous table length and its entry is -1;
in any state whose table holds that label, `setLabel` succeeds, sets the entry of the label
to the current length of the output buffer (the offset of the next byte to be emitted),
leaves every other entry as it was and leaves the buffer as it was. -/
theorem setLabel_newLabel_offset (env : Env) (c c2 : codegen)
    (h : (newLabel c).1 < (c2.l.length : Int)) :
    (newLabel c).1 = (c.l.length : Int) ∧ (newLabel c).2.l = c.l ++ [-1] ∧
    (newLabel c).2.prog = c.prog ∧
    ∃ c3, setLabel env (newLabel c).1 c2 = some c3 ∧
      c3.l[c.l.length]? = some (c2.prog.Len env : Int) ∧
      (∀ k, k ≠ c.l.length → c3.l[k]? = c2.l[k]?) ∧
      c3.l.length = c2.l.length ∧ c3.prog = c2.prog := by
  have hl : c.l.length < c2.l.length := by
    simpa [newLabel] using h
  refine ⟨rfl, rfl, rfl, ?_⟩
  refine ⟨{ c2 with l := c2.l.set c.l.length (pc env c2 + 1) }, ?_, ?_, ?_, ?_, rfl⟩
  · simp [setLabel, newLabel, hl]
  · simp [List.getElem?_set, hl, pc]
  · intro k hk
    simp [List.getElem?_set, Ne.symm hk]
  · simp

/-- A label created in the sample state is resolved to the buffer length 0 there. -/
theorem setLabel_newLabel_offset_witness :
    (newLabel sampleState).1 < ((newLabel sampleState).2.l.length : Int) ∧
    ∃ c3, setLabel sampleEnv (newLabel sampleState).1 (newLabel sampleState).2 = some c3 ∧
      c3.l[sampleState.l.length]? = some (((newLabel sampleState).2.prog.Len sampleEnv : Nat) : Int) :=
  ⟨by decide,
    let ⟨c3, h1, h2, _⟩ :=
      (setLabel_newLabel_offset sampleEnv sampleState (newLabel sampleState).2 (by decide)).2.2.2
    ⟨c3, h1, h2⟩⟩

/-! ## Backpatching -/

theorem writeJumpsUpTo_succ (opByte : Opcode → Nat) (l : List Int) (b : List Nat) (n : Nat) :
    writeJumpsUpTo opByte l b (n + 1) =
      (writeJumpsUpTo opByte l b n).bind fun b1 => writeJumpsStep opByte l b1 n := by
  simp [writeJumpsUpTo, List.range_succ, List.foldlM_append]

theorem PutUint16_length (b : List Nat) (j v : Nat) : (PutUint16 b j v).length = b.length := by
  simp [PutUint16]

theorem PutUint16_getD_of_ne (b : List Nat) (j v k : Nat) (h1 : k ≠ j) (h2 : k ≠ j + 1) :
    (PutUint16 b j v).getD k 0 = b.getD k 0 := by
  simp [PutUint16, List.getD_eq_getElem?_getD, List.getElem?_set, Ne.symm h1, Ne.symm h2]

theorem uint16_lt (x : Int) : uint16 x < 65536 := by
  unfold uint16; omega

theorem int16_uint16 (x : Int) (h1 : -32768 ≤ x) (h2 : x < 32768) : int16 (uint16 x) = x := by
  unfold uint16 int16; omega

/-- Reading back what `PutUint16` wrote. -/
theorem Uint16_PutUint16 (b : List Nat) (j v : Nat) (hj : j + 2 ≤ b.length) (hv : v < 65536) :
    Uint16 (PutUint16 b j v) j = some v := by
  have h1 : j < b.length := by omega
  have h2 : j + 1 < b.length := by omega
  simp [Uint16, PutUint16, List.getD_eq_getElem?_getD, List.getElem?_set, hj, h1, h2]
  omega

/-- One iteration of the loop keeps the length of the buffer. -/
theorem writeJumpsStep_length (opByte : Opcode → Nat) (l : List Int) (b b1 : List Nat) (i : Nat)
    (h : writeJumpsStep opByte l b i = some b1) : b1.length = b.length := by
  unfold writeJumpsStep at h
  split at h
  · split at h
    · simp at h
    · dsimp only at h
      split at h
      · simp at h; rw [← h]
      · split at h
        · simp at h
        · simp at h; rw [← h, PutUint16_length]
  · simp at h; rw [← h]

/-- The iteration at offset `i` writes at most the offsets `i + 1` and `i + 2`. -/
theorem writeJumpsStep_getD (opByte : Opcode → Nat) (l : List Int) (b b1 : List Nat) (i k : Nat)
    (h : writeJumpsStep opByte l b i = some b1) (h1 : k ≠ i + 1) (h2 : k ≠ i + 2) :
    b1.getD k 0 = b.getD k 0 := by
  unfold writeJumpsStep at h
  split at h
  · split at h
    · simp at h
    · dsimp only at h
      split at h
      · simp at h; rw [← h]
      · split at h
        · simp at h
        · simp at h; rw [← h, PutUint16_getD_of_ne _ _ _ _ h1 h2]
  · simp at h; rw [← h]

/-- Once the scan has passed offset `m`, the bytes at offsets up to `m` are final. -/
theorem writeJumpsUpTo_stable (opByte : Opcode → Nat) (l : List Int) (b : List Nat) (m : Nat) :
    ∀ n bn, m ≤ n → writeJumpsUpTo opByte l b n = some bn →
      ∃ bm, writeJumpsUpTo opByte l b m = some bm ∧ bn.length = bm.length ∧
        ∀ k, k ≤ m → bn.getD k 0 = bm.getD k 0 := by
  intro n
  induction n with
  | zero =>
    intro bn hm h
    have : m = 0 := by omega
    subst this
    exact ⟨bn, h, rfl, fun _ _ => rfl⟩
  | succ n ih =>
    intro bn hm h
    by_cases hmn : m = n + 1
    · subst hmn
      exact ⟨bn, h, rfl, fun _ _ => rfl⟩
    · rw [writeJumpsUpTo_succ] at h
      cases hn : writeJumpsUpTo opByte l b n with
      | none => simp [hn] at h
      | some b1 =>
        simp [hn] at h
        obtain ⟨bm, hbm, hlen, hget⟩ := ih b1 (by omega) hn
        refine ⟨bm, hbm, ?_, ?_⟩
        · rw [writeJumpsStep_length _ _ _ _ _ h, hlen]
        · intro k hk
          rw [writeJumpsStep_getD _ _ _ _ _ _ h (by omega) (by omega)]
          exact hget k hk

/-- The scan keeps the length of the buffer. -/
theorem writeJumpsUpTo_length (opByte : Opcode → Nat) (l : List Int) (b : List Nat) :
    ∀ n bn, writeJumpsUpTo opByte l b n = some bn → bn.length = b.length := by
  intro n bn h
  obtain ⟨b0, h0, hlen, _⟩ := writeJumpsUpTo_stable opByte l b 0 n bn (Nat.zero_le n) h
  simp [writeJumpsUpTo] at h0
  rw [hlen, ← h0]

/-- The operand written for a jump byte met by the scan, when the low byte written is not
itself a jump byte: the scan goes on past the operand, and the operand is final. -/
theorem writeJumps_operand (opByte : Opcode → Nat) (l : List Int) (b bi : List Nat)
    (i u : Nat) (target : Int)
    (hscan : writeJumpsUpTo opByte l b i = some bi)
    (hlen : i + 2 < b.length)
    (hop : isJumpByte opByte (bi.getD i 0) = true)
    (hu : Uint16 bi (i + 1) = some u)
    (h0 : 0 ≤ int16 u)
    (ht : l.get? (int16 u).toNat = some target)
    (hlo : isJumpByte opByte (uint16 (target - i) % 256) = false) :
    writeJumpsUpTo opByte l b (i + 2) = some (PutUint16 bi (i + 1) (uint16 (target - i))) ∧
    ∀ bf, writeJumps opByte l b = some bf → Uint16 bf (i + 1) = some (uint16 (target - i)) := by
  have hbi : bi.length = b.length := writeJumpsUpTo_length opByte l b i bi hscan
  have hidx : (int16 u).toNat < l.length := by
    have := List.get?_eq_some.mp ht
    exact this.1
  have hstep : writeJumpsStep opByte l bi i =
      some (PutUint16 bi (i + 1) (uint16 (target - i))) := by
    unfold writeJumpsStep
    have hcond : ¬ (int16 u > (l.length : Int) ∨ int16 u < 0) := by omega
    simp only [hop, hu, if_true]
    simp only [hcond, if_false, ht]
  have hstep2 : writeJumpsStep opByte l (PutUint16 bi (i + 1) (uint16 (target - i))) (i + 1) =
      some (PutUint16 bi (i + 1) (uint16 (target - i))) := by
    have hb : (PutUint16 bi (i + 1) (uint16 (target - i))).getD (i + 1) 0 =
        uint16 (target - i) % 256 := by
      have h1 : i + 1 < bi.length := by omega
      simp [PutUint16, List.getD_eq_getElem?_getD, List.getElem?_set, h1]
    unfold writeJumpsStep
    rw [hb, hlo]
    rfl
  have hupto : writeJumpsUpTo opByte l b (i + 2) =
      some (PutUint16 bi (i + 1) (uint16 (target - i))) := by
    rw [writeJumpsUpTo_succ, writeJumpsUpTo_succ, hscan]
    simp [hstep, hstep2]
  refine ⟨hupto, ?_⟩
  intro bf hbf
  obtain ⟨bm, hbm, hl, hget⟩ :=
    writeJumpsUpTo_stable opByte l b (i + 2) b.length bf (by omega) hbf
  rw [hupto] at hbm
  have hbm2 : bm = PutUint16 bi (i + 1) (uint16 (target - i)) := by
    simpa using hbm.symm
  have hr := Uint16_PutUint16 bi (i + 1) (uint16 (target - i)) (by omega) (uint16_lt _)
  rw [← hbm2] at hr
  have hl2 : bm.length = b.length := by rw [hbm2, PutUint16_length, hbi]
  unfold Uint16 at hr ⊢
  have e1 := hget (i + 1) (by omega)
  have e2 := hget (i + 1 + 1) (by omega)
  have c1 : i + 1 + 2 ≤ bf.length := by omega
  have c2 : i + 1 + 2 ≤ bm.length := by omega
  simp only [c1, c2, if_true] at hr ⊢
  rw [e1, e2]
  exact hr

/-- C1, as stated, fails: for the one-instruction buffer `JMP 0` and the label table
`[40000]`, the operand held the index 0 of a resolved label, and after `writeJumps` it
holds, read as a signed 16-bit value, -25536, so offset plus displacement is not 40000. -/
theorem writeJumps_displacement_wraps :
    writeJumps neoOpByte [40000] [0x62, 0, 0] = some [0x62, 0x40, 0x9c] ∧
    Uint16 [0x62, 0, 0] 1 = some 0 ∧ ([40000] : List Int).get? 0 = some 40000 ∧
    Uint16 [0x62, 0x40, 0x9c] 1 = some 40000 ∧ int16 40000 = -25536 ∧
    (0 : Int) + int16 40000 ≠ 40000 := by
  decide

/-- C1, amended. When the scan of `writeJumps` arrives at offset `i` (with the buffer `bi`)
and finds there a JMP, JMPIFNOT, JMPIF or CALL byte whose operand is the index of a
resolved label with offset `target`, and the low byte of `target - i` is not itself one of
these four opcode bytes, then the scan goes on past the operand, and after `writeJumps` the
operand holds, as a signed 16-bit little-endian value, a displacement `d` congruent to
`target - i` modulo 2^16; `i + d = target` holds exactly when `target - i` fits in a signed
16-bit value. -/
theorem writeJumps_displacement (opByte : Opcode → Nat) (l : List Int) (b bi : List Nat)
    (i u : Nat) (target : Int)
    (hscan : writeJumpsUpTo opByte l b i = some bi)
    (hlen : i + 2 < b.length)
    (hop : isJumpByte opByte (bi.getD i 0) = true)
    (hu : Uint16 bi (i + 1) = some u)
    (h0 : 0 ≤ int16 u)
    (ht : l.get? (int16 u).toNat = some target)
    (_hres : 0 ≤ target)
    (hlo : isJumpByte opByte (uint16 (target - i) % 256) = false) :
    writeJumpsUpTo opByte l b (i + 2) = some (PutUint16 bi (i + 1) (uint16 (target - i))) ∧
    ∀ bf, writeJumps opByte l b = some bf →
      ∃ d : Nat, Uint16 bf (i + 1) = some d ∧
        (int16 d - (target - i)) % 65536 = 0 ∧
        ((i : Int) + int16 d = target ↔ (-32768 ≤ target - i ∧ target - i < 32768)) := by
  obtain ⟨h1, h2⟩ := writeJumps_operand opByte l b bi i u target hscan hlen hop hu h0 ht hlo
  refine ⟨h1, fun bf hbf => ⟨uint16 (target - i), h2 bf hbf, ?_, ?_⟩⟩
  · unfold uint16 int16; omega
  · unfold uint16 int16; omega

/-- A forward jump over three bytes: the operand 0 becomes the displacement 5. -/
theorem writeJumps_displacement_witness :
    writeJumpsUpTo neoOpByte [5] [0x62, 0, 0, 0x61, 0x61, 0x66] 2 =
      some (PutUint16 [0x62, 0, 0, 0x61, 0x61, 0x66] 1 (uint16 (5 - (0 : Nat)))) ∧
    ∃ d : Nat, Uint16 [0x62, 5, 0, 0x61, 0x61, 0x66] 1 = some d ∧
      (int16 d - (5 - (0 : Nat))) % 65536 = 0 ∧
      (((0 : Nat) : Int) + int16 d = 5 ↔ (-32768 ≤ (5 : Int) - (0 : Nat) ∧ (5 : Int) - (0 : Nat) < 32768)) :=
  have h := writeJumps_displacement neoOpByte [5] [0x62, 0, 0, 0x61, 0x61, 0x66]
    [0x62, 0, 0, 0x61, 0x61, 0x66] 0 0 5 (by decide) (by decide) (by decide) (by decide)
    (by decide) (by decide) (by decide) (by decide)
  ⟨h.1, h.2 [0x62, 5, 0, 0x61, 0x61, 0x66] (by decide)⟩

/-- C7, the failing inputs. The operand of the jump byte is 1 and the table has one label:
the guard `int(index) > len(c.l)` lets the index through and `c.l[index]` is out of
range.  In the second buffer the jump byte and its operand are the three data bytes
`62 01 00` of a pushed string, in a function whose only label is the unresolved one of the
entry function. -/
theorem writeJumps_index_eq_len_panics :
    writeJumps neoOpByte [0] [0x62, 1, 0] = none ∧
    Uint16 [0x62, 1, 0] 1 = some 1 ∧ int16 1 = (([0] : List Int).length : Int) ∧
    writeJumps neoOpByte [-1]
      [0x51, 0xc5, 0x6b, 0x03, 0x62, 0x01, 0x00, 0x6a, 0x00, 0x52, 0x7a, 0xc4,
        0x6c, 0x75, 0x66] = none := by
  decide

set_option maxRecDepth 100000 in
/-- The slip that the amended C1 and C8 leave out: the loop reads every byte, operands
included.  A jump over 98 bytes gets the displacement `62 00`, whose low byte is the JMP
opcode; the next iteration takes it for a jump with the operand `00 00` and overwrites the
high byte of the displacement and the opcode that follows. -/
theorem writeJumps_rescans_operand :
    writeJumps neoOpByte [98] ([0x62, 0, 0, 0] ++ List.replicate 94 0x61 ++ [0x66]) =
      some ([0x62, 0x62, 0x61, 0] ++ List.replicate 94 0x61 ++ [0x66]) ∧
    (0 : Int) + int16 (0x62 + 256 * 0x61) ≠ 98 := by
  decide

/-- C8, as stated, fails: the label 0 is unresolved (its entry is -1) and the operand of
the jump that refers to it is rewritten from `00 00` to `ff ff`. -/
theorem writeJumps_rewrites_unresolved :
    writeJumps neoOpByte [-1] [0x62, 0, 0] = some [0x62, 0xff, 0xff] ∧
    Uint16 [0x62, 0, 0] 1 = some 0 ∧ ([-1] : List Int).get? 0 = some (-1) := by
  decide

/-- C8, amended. When the scan of `writeJumps` arrives at offset `i` (with the buffer `bi`)
and finds there a JMP, JMPIFNOT, JMPIF or CALL byte whose operand is the index of a label
whose entry is still -1, the operand is rewritten like any other: provided the low byte
written is not itself one of these four opcode bytes, the scan goes on past the operand and
after `writeJumps` the operand holds `uint16(-1 - i)`, that is 65535 - i mod 65536. -/
theorem writeJumps_unresolved_operand (opByte : Opcode → Nat) (l : List Int) (b bi : List Nat)
    (i u : Nat)
    (hscan : writeJumpsUpTo opByte l b i = some bi)
    (hlen : i + 2 < b.length)
    (hop : isJumpByte opByte (bi.getD i 0) = true)
    (hu : Uint16 bi (i + 1) = some u)
    (h0 : 0 ≤ int16 u)
    (ht : l.get? (int16 u).toNat = some (-1))
    (hlo : isJumpByte opByte ((65535 - i % 65536) % 256) = false) :
    writeJumpsUpTo opByte l b (i + 2) = some (PutUint16 bi (i + 1) (65535 - i % 65536)) ∧
    ∀ bf, writeJumps opByte l b = some bf → Uint16 bf (i + 1) = some (65535 - i % 65536) := by
  have hv : uint16 (-1 - (i : Int)) = 65535 - i % 65536 := by
    unfold uint16; omega
  have := writeJumps_operand opByte l b bi i u (-1) hscan hlen hop hu h0 ht (by rw [hv]; exact hlo)
  rw [hv] at this
  exact this

/-- A call of the unresolved label 0 at offset 1: the operand becomes `fe ff`. -/
theorem writeJumps_unresolved_operand_witness :
    writeJumpsUpTo neoOpByte [-1] [0x61, 0x65, 0, 0, 0x66] 3 =
      some (PutUint16 [0x61, 0x65, 0, 0, 0x66] 2 (65535 - 1 % 65536)) ∧
    Uint16 [0x61, 0x65, 0xfe, 0xff, 0x66] 2 = some (65535 - 1 % 65536) :=
  have h := writeJumps_unresolved_operand neoOpByte [-1] [0x61, 0x65, 0, 0, 0x66]
    [0x61, 0x65, 0, 0, 0x66] 1 0 (by decide) (by decide) (by decide) (by decide)
    (by decide) (by decide) (by decide)
  ⟨h.1, h.2 [0x61, 0x65, 0xfe, 0xff, 0x66] (by decide)⟩

/-! ## The visitor: unfolding and the sticky error -/

theorem Visit_BinaryExpr (env : Env) (x y : Node) (op : Token) (ti : TypeAndValue)
    (xt : GoType) (c : codegen) :
    Visit env (.BinaryExpr x op y ti xt) c =
      guardErr (visitBinaryExpr env op ti xt (Visit env x) (Visit env y)) c := rfl

theorem Visit_CallExpr (env : Env) (fn : Node) (args : List Node) (a0 : GoType)
    (c : codegen) :
    Visit env (.CallExpr fn args a0) c =
      guardErr (visitCallExpr env fn args a0 (recvWalker env fn) (VisitList env args)) c := by
  cases fn <;> rfl

theorem Visit_CompositeLit (env : Env) (objType : Option GoType) (litType : GoType)
    (byteArray : Bool) (eltValues : List (Option ConstVal)) (elts : List Node) (c : codegen) :
    Visit env (.CompositeLit objType litType byteArray eltValues elts) c =
      guardErr (visitCompositeLit env objType litType byteArray eltValues (VisitList env elts)
        (VisitElts env elts)) c := rfl

theorem guardErr_of_err (k : Walker) (c : codegen) (h : c.prog.Err.isSome = true) :
    guardErr k c = some c := by
  simp [guardErr, h]

theorem guardErr_of_ok (k : Walker) (c : codegen) (h : c.prog.Err = none) :
    guardErr k c = k c := by
  simp [guardErr, h]

/-- With the sticky error set, `Visit` returns at once and changes nothing. -/
theorem Visit_of_err (env : Env) (n : Node) (c : codegen) (h : c.prog.Err.isSome = true) :
    Visit env n c = some c := by
  cases n
  case CallExpr fn args a0 => rw [Visit_CallExpr, guardErr_of_err _ _ h]
  all_goals exact guardErr_of_err _ c h

/-- With the sticky error set, an emission changes nothing. -/
theorem emit_of_err (e : Emitted) (c : codegen) (h : c.prog.Err.isSome = true) :
    emit e c = c := by
  simp [emit, h]

/-! ## Binary expressions -/

/-- C4. For a binary expression `X op Y` without a folded value, the generator emits the
code of `X`, the code of `Y` and then: for `+`, CAT when the expression is string-typed and
ADD otherwise; for `==`, EQUAL when `X` is string-typed and NUMEQUAL otherwise; for `!=`,
EQUAL then NOT when `X` is string-typed and NUMNOTEQUAL otherwise. -/
theorem binary_string_numeric_dispatch (env : Env) (x y : Node) (ti : TypeAndValue)
    (xt : GoType) (c : codegen) (hv : ti.Value = none) :
    Visit env (.BinaryExpr x .ADD y ti xt) c =
        ((Visit env x c).bind fun c1 => (Visit env y c1).map fun c2 =>
          if env.isStringType ti.Typ then emitOpcode .CAT c2 else emitOpcode .ADD c2) ∧
    Visit env (.BinaryExpr x .EQL y ti xt) c =
        ((Visit env x c).bind fun c1 => (Visit env y c1).map fun c2 =>
          if env.isStringType xt then emitOpcode .EQUAL c2 else emitOpcode .NUMEQUAL c2) ∧
    Visit env (.BinaryExpr x .NEQ y ti xt) c =
        ((Visit env x c).bind fun c1 => (Visit env y c1).map fun c2 =>
          if env.isStringType xt then emitOpcode .NOT (emitOpcode .EQUAL c2)
          else emitOpcode .NUMNOTEQUAL c2) := by
  by_cases hE : c.prog.Err.isSome = true
  · have hx := Visit_of_err env x c hE
    have hy := Visit_of_err env y c hE
    simp [Visit_of_err env _ c hE, hx, hy, emitOpcode, emit_of_err _ c hE]
  · have hE2 : c.prog.Err = none := by simpa using hE
    simp only [Visit_BinaryExpr, guardErr_of_ok _ _ hE2, visitBinaryExpr, hv]
    refine ⟨?_, ?_, ?_⟩ <;>
    · cases hx : Visit env x c with
      | none => simp
      | some c1 =>
        cases hy : Visit env y c1 with
        | none => simp [hy]
        | some c2 => simp [hy]; split <;> rfl

/-- In the sample state, `x + y` on integers ends with ADD, and `x == y` on strings ends
with EQUAL. -/
theorem binary_string_numeric_dispatch_witness :
    (Visit sampleEnv (.BinaryExpr (.Ident "x" (.basic .Int)) .ADD (.Ident "y" (.basic .Int))
        ⟨.basic .Int, none⟩ (.basic .Int)) sampleState).map (fun c => c.prog.written) =
      some [.opcode .DUPFROMALTSTACK, .int 0, .opcode .PICKITEM,
        .opcode .DUPFROMALTSTACK, .int 1, .opcode .PICKITEM, .opcode .ADD] ∧
    (Visit sampleEnv (.BinaryExpr (.Ident "x" (.basic .String)) .EQL
        (.Ident "y" (.basic .String)) ⟨.basic .Bool, none⟩ (.basic .String))
        sampleState).map (fun c => c.prog.written) =
      some [.opcode .DUPFROMALTSTACK, .int 0, .opcode .PICKITEM,
        .opcode .DUPFROMALTSTACK, .int 1, .opcode .PICKITEM, .opcode .EQUAL] :=
  ⟨by
    rw [(binary_string_numeric_dispatch sampleEnv (.Ident "x" (.basic .Int))
      (.Ident "y" (.basic .Int)) ⟨.basic .Int, none⟩ (.basic .Int) sampleState rfl).1]
    decide,
   by
    rw [(binary_string_numeric_dispatch sampleEnv (.Ident "x" (.basic .String))
      (.Ident "y" (.basic .String)) ⟨.basic .Bool, none⟩ (.basic .String) sampleState rfl).2.1]
    decide⟩

/-- C5, as stated, fails: `1 < 2 && 1 < 2` carries the folded value `true`, and the
generator emits the code of both operands and a JMPIFNOT between them, not the single
load of `true`. -/
theorem folded_land_not_single_load :
    (Visit sampleEnv sampleAnd sampleState).map (fun c => c.prog.written) =
      some [.bool true, .jmp .JMPIFNOT 2, .bool true] ∧
    (emitLoadConst ⟨.basic .UntypedBool, some (.bool true)⟩ sampleState).map
      (fun c => c.prog.written) = some [.bool true] := by
  decide

/-- C5, amended. A binary expression whose operator is neither `&&` nor `||` and whose
type information carries a folded value is compiled to the single literal load of that
value: no operand code, no operator, no jump.  For `&&` and `||` the code of `X`, the
conditional jump and the code of `Y` are emitted whether or not a folded value is there. -/
theorem binary_constant_folding (env : Env) (x y : Node) (op : Token) (ti : TypeAndValue)
    (xt : GoType) (c : codegen) (hv : ti.Value.isSome = true) :
    (op ≠ .LAND → op ≠ .LOR → Visit env (.BinaryExpr x op y ti xt) c = emitLoadConst ti c) ∧
    Visit env (.BinaryExpr x .LAND y ti xt) c =
      ((Visit env x c).bind fun c1 =>
        Visit env y (emitJmp .JMPIFNOT (int16 ((c1.l.length : Int) - 1)) c1)) ∧
    Visit env (.BinaryExpr x .LOR y ti xt) c =
      ((Visit env x c).bind fun c1 =>
        Visit env y (emitJmp .JMPIF (int16 ((c1.l.length : Int) - 3)) c1)) := by
  by_cases hE : c.prog.Err.isSome = true
  · have hx := Visit_of_err env x c hE
    have hy := Visit_of_err env y c hE
    simp [Visit_of_err env _ c hE, hx, hy, emitJmp, emit_of_err _ c hE, emitLoadConst, hE]
  · have hE2 : c.prog.Err = none := by simpa using hE
    refine ⟨?_, ?_, ?_⟩
    · intro h1 h2
      rw [Visit_BinaryExpr, guardErr_of_ok _ _ hE2]
      cases op <;> simp_all [visitBinaryExpr]
    · rw [Visit_BinaryExpr, guardErr_of_ok _ _ hE2]
      cases hx : Visit env x c <;> simp [visitBinaryExpr, hx]
    · rw [Visit_BinaryExpr, guardErr_of_ok _ _ hE2]
      cases hx : Visit env x c <;> simp [visitBinaryExpr, hx]

/-- The folded sum `1 + 2` is compiled to the single load of 3. -/
theorem binary_constant_folding_witness :
    Visit sampleEnv (.BinaryExpr (.BasicLit "1" ⟨.basic .UntypedInt, some (.int 1)⟩) .ADD
      (.BasicLit "2" ⟨.basic .UntypedInt, some (.int 2)⟩)
      ⟨.basic .UntypedInt, some (.int 3)⟩ (.basic .UntypedInt)) sampleState =
    some (emitInt 3 sampleState) :=
  ((binary_constant_folding sampleEnv (.BasicLit "1" ⟨.basic .UntypedInt, some (.int 1)⟩)
    (.BasicLit "2" ⟨.basic .UntypedInt, some (.int 2)⟩) .ADD
    ⟨.basic .UntypedInt, some (.int 3)⟩ (.basic .UntypedInt) sampleState rfl).1
    (by decide) (by decide)).trans (by decide)


/-! ## Calls -/

theorem emit_funcs (e : Emitted) (c : codegen) : (emit e c).funcs = c.funcs := by
  unfold emit; split <;> rfl

theorem emitAll_funcs (es : List Emitted) (c : codegen) : (emitAll es c).funcs = c.funcs := by
  induction es generalizing c with
  | nil => rfl
  | cons e es ih => simp only [emitAll, List.foldl_cons] at ih ⊢; rw [ih, emit_funcs]

theorem emitAll_append (es fs : List Emitted) (c : codegen) :
    emitAll (es ++ fs) c = emitAll fs (emitAll es c) := by
  simp [emitAll, List.foldl_append]

/-- The loop of the reordering block, as a sequence of emissions. -/
theorem roll_loop_eq (is : List Nat) (c : codegen) :
    is.foldl (fun (c : codegen) (i : Nat) => emitOpcode .ROLL (emitInt (i : Int) c)) c =
      emitAll (is.flatMap fun (i : Nat) => [.int (i : Int), .opcode .ROLL]) c := by
  induction is generalizing c with
  | nil => rfl
  | cons i is ih =>
    simp only [List.foldl_cons, List.flatMap_cons, emitAll_append]
    rw [ih]
    rfl

/-- The reordering block emits what the property lists for each arity. -/
theorem emitReorder_eq (n : Nat) (c : codegen) :
    emitReorder n c = emitAll (reorderByArity false n) c := by
  match n with
  | 0 => rfl
  | 1 => rfl
  | 2 => rfl
  | 3 => rfl
  | n + 4 =>
    have h2 : ¬ (n + 4 = 2) := by omega
    have h3 : ¬ (n + 4 = 3) := by omega
    simp only [emitReorder, h2, h3, if_false, reorderByArity, Bool.false_eq_true]
    exact roll_loop_eq _ c

theorem emitReorder_funcs (n : Nat) (c : codegen) : (emitReorder n c).funcs = c.funcs := by
  rw [emitReorder_eq, emitAll_funcs]

/-- What the callee switch passes on as `numArgs`. -/
theorem resolveCallee_numArgs (env : Env) (fn : Node) (args : List Node) (recv : Walker)
    (c c1 : codegen) (n : Nat) (f : Option String)
    (hres : resolveCallee env fn args recv c = some (.resolved c1 n f)) :
    n = args.length + (if boundMethod fn then 1 else 0) := by
  cases fn
  case Ident name typ =>
    simp only [resolveCallee] at hres
    split at hres
    · simp at hres
    · simp only [Option.some.injEq, Callee.resolved.injEq] at hres
      simp [boundMethod, hres.2.1.symm]
  case SelectorExpr x sel selection =>
    simp only [resolveCallee] at hres
    split at hres
    · simp at hres
    · split at hres
      · simp only [Option.some.injEq, Callee.resolved.injEq] at hres
        rw [← hres.2.1]
        cases selection <;> simp [boundMethod]
      · simp at hres
  case ArrayType len elt =>
    simp only [resolveCallee] at hres
    split at hres
    · simp only [Option.map_eq_some'] at hres
      obtain ⟨_, _, h⟩ := hres
      cases h
    · simp at hres
  all_goals
    simp only [resolveCallee, Option.some.injEq, Callee.resolved.injEq] at hres
    simp [boundMethod, hres.2.1.symm]

/-- C3, as stated, fails: in `append(x, y)` the callee is a builtin, and right after the
code of the two arguments the generator emits SWAP, DUP, PUSH2, XSWAP, APPEND: the lowering
of the builtin itself exchanges its operands. -/
theorem builtin_append_emits_swap :
    isBuiltin sampleEnv (.Ident "append" .other) = true ∧
    (Visit sampleEnv sampleAppend sampleState).map (fun c => c.prog.written) =
      some [.opcode .DUPFROMALTSTACK, .int 0, .opcode .PICKITEM,
        .opcode .DUPFROMALTSTACK, .int 1, .opcode .PICKITEM,
        .opcode .SWAP, .opcode .DUP, .opcode .PUSH2, .opcode .XSWAP, .opcode .APPEND] := by
  decide

/-- C3, amended. For a call whose callee switch falls through to the argument loop (state
`c1`, arity `n`), the arity is the number of arguments, plus one for the receiver of a bound
method call.  When the callee is not a builtin the generator emits the code of the
arguments, then the reordering emissions, then the call target; the reordering emissions
are none for 0 or 1 arguments, one SWAP for 2, one (push 2, XSWAP) for 3, and the N-1 pairs
(push i, ROLL), i = 1, ..., N-1, for N at least 4.  When the callee is a builtin the
reordering step emits nothing, whatever the arity: the code of the arguments is followed
directly by the code of `convertBuiltin`, which for `append` of a value that is not a byte
array is SWAP, DUP, PUSH2, XSWAP, APPEND. -/
theorem call_argument_reordering (env : Env) (fn : Node) (args : List Node) (a0 : GoType)
    (c c1 : codegen) (n : Nat) (f : Option String)
    (hErr : c.prog.Err = none)
    (hres : resolveCallee env fn args (recvWalker env fn) c = some (.resolved c1 n f)) :
    n = args.length + (if boundMethod fn then 1 else 0) ∧
    (isBuiltin env fn = false →
      Visit env (.CallExpr fn args a0) c =
        ((walkAll (VisitList env args) c1).bind fun c2 =>
          callTarget env fn args a0 f (emitAll (reorderByArity false n) c2))) ∧
    (isBuiltin env fn = true →
      Visit env (.CallExpr fn args a0) c =
        ((walkAll (VisitList env args) c1).bind fun c2 => convertBuiltin env fn args a0 c2)) ∧
    (∀ (t : GoType) (x : Node) (xs : List Node) (c2 : codegen), env.isByteArrayType a0 = false →
      convertBuiltin env (.Ident "append" t) (x :: xs) a0 c2 =
        some (emitAll [.opcode .SWAP, .opcode .DUP, .opcode .PUSH2, .opcode .XSWAP,
          .opcode .APPEND] c2)) ∧
    reorderByArity false 0 = [] ∧ reorderByArity false 1 = [] ∧
    reorderByArity false 2 = [.opcode .SWAP] ∧
    reorderByArity false 3 = [.int 2, .opcode .XSWAP] ∧
    (∀ k, 4 ≤ k → reorderByArity false k =
      (List.range' 1 (k - 1)).flatMap fun (i : Nat) => [.int (i : Int), .opcode .ROLL]) := by
  have hv : Visit env (.CallExpr fn args a0) c =
      ((walkAll (VisitList env args) c1).bind fun c2 =>
        callTarget env fn args a0 f
          (if isBuiltin env fn then c2 else emitAll (reorderByArity false n) c2)) := by
    rw [Visit_CallExpr, guardErr_of_ok _ _ hErr]
    simp only [visitCallExpr, hres, callArgs]
    cases hw : walkAll (VisitList env args) c1 with
    | none => rfl
    | some c2 =>
      simp only [Option.some_bind]
      cases hb : isBuiltin env fn with
      | true => simp
      | false => simp [emitReorder_eq]
  refine ⟨resolveCallee_numArgs env fn args _ c c1 n f hres, ?_, ?_, ?_, rfl, rfl, rfl,
    rfl, ?_⟩
  · intro hb
    rw [hv]
    simp [hb]
  · intro hb
    rw [hv]
    simp [hb, callTarget]
  · intro t x xs c2 hba
    simp [convertBuiltin, hba, emitAll, emitOpcode]
  · intro k hk
    obtain ⟨m, rfl⟩ : ∃ m, k = m + 4 := ⟨k - 4, by omega⟩
    rfl

/-- The call `f(x, 1)` in the sample state: two arguments, one SWAP, then the CALL. -/
theorem call_argument_reordering_witness :
    (Visit sampleEnv sampleCall sampleState).map (fun c => c.prog.written) =
      some [.opcode .DUPFROMALTSTACK, .int 0, .opcode .PICKITEM, .int 1, .opcode .SWAP,
        .call .CALL 1] :=
  have h := (call_argument_reordering sampleEnv (.Ident "f" .other)
    [.Ident "x" (.basic .Int), .BasicLit "1" ⟨.basic .Int, some (.int 1)⟩] (.basic .Int)
    sampleState sampleState 2 (some "f") rfl (by decide)).2.1 (by decide)
  (congrArg (Option.map fun c => c.prog.written) h).trans (by decide)

/-- C9, as stated, fails: in `crypto.SHA256(x)` the callee is a builtin and its scope is
syscall-bound (after the call its selector is `crypto`, which the syscall table knows);
the generator emits the builtin opcode SHA256, not the syscall and its NOP. -/
theorem builtin_checked_before_syscall :
    (Visit overlapEnv sampleHashCall overlapState).map (fun c => c.prog.written) =
      some [.opcode .DUPFROMALTSTACK, .int 0, .opcode .PICKITEM, .opcode .SHA256] ∧
    isBuiltin overlapEnv (.SelectorExpr (.Ident "crypto" .other) "SHA256" false) = true ∧
    ((Visit overlapEnv sampleHashCall overlapState).bind fun c =>
      isSyscall overlapEnv (c.funcs.lookup "SHA256")) = some true ∧
    (convertSyscall overlapEnv "crypto" "SHA256" overlapState).prog.written =
      [.syscall "Neo.Crypto.SHA256", .opcode .NOP] := by
  decide

/-- C9, amended. For a call whose callee switch falls through to the argument loop, after
the arguments (state `c2`) the generator first checks whether the callee is a builtin and,
if so, dispatches to `convertBuiltin`, also when the scope is syscall-bound; otherwise, if
the scope of the callee is syscall-bound, it emits the external-call sequence (the syscall
and a NOP); otherwise it emits CALL with the label of the callee. -/
theorem call_target_order (env : Env) (fn : Node) (args : List Node) (a0 : GoType)
    (c c1 : codegen) (n : Nat) (f : Option String)
    (hErr : c.prog.Err = none)
    (hres : resolveCallee env fn args (recvWalker env fn) c = some (.resolved c1 n f)) :
    (isBuiltin env fn = true →
      Visit env (.CallExpr fn args a0) c =
        ((walkAll (VisitList env args) c1).bind fun c2 => convertBuiltin env fn args a0 c2)) ∧
    (isBuiltin env fn = false → ∀ c2 fs sel api,
      walkAll (VisitList env args) c1 = some c2 →
      (f.bind fun k => c2.funcs.lookup k) = some fs →
      fs.selector = some sel → env.syscalls sel fs.name = some api →
      Visit env (.CallExpr fn args a0) c =
        some (emitOpcode .NOP (emitSyscall api (emitReorder n c2)))) ∧
    (isBuiltin env fn = false → ∀ c2 fs,
      walkAll (VisitList env args) c1 = some c2 →
      (f.bind fun k => c2.funcs.lookup k) = some fs →
      isSyscall env (some fs) = some false →
      Visit env (.CallExpr fn args a0) c =
        some (emitCall .CALL (int16 fs.label) (emitReorder n c2))) := by
  have hV : Visit env (.CallExpr fn args a0) c =
      callArgs env fn args (VisitList env args) a0 n f c1 := by
    rw [Visit_CallExpr, guardErr_of_ok _ _ hErr]
    simp only [visitCallExpr, hres]
  refine ⟨?_, ?_, ?_⟩
  · intro hb
    rw [hV]
    simp only [callArgs, callTarget, hb, if_true]
    cases walkAll (VisitList env args) c1 <;> rfl
  · intro hb c2 fs sel api hw hf hsel hapi
    rw [hV]
    simp [callArgs, callTarget, hb, hw, emitReorder_funcs, hf, isSyscall, hsel, hapi,
      convertSyscall]
  · intro hb c2 fs hw hf hsys
    rw [hV]
    simp [callArgs, callTarget, hb, hw, emitReorder_funcs, hf, hsys]

/-- In the sample state, `f(x, 1)` ends with the CALL of the label of `f`, and
`storage.Get(x)` ends with the syscall and its NOP. -/
theorem call_target_order_witness :
    (Visit sampleEnv sampleCall sampleState).map (fun c => c.prog.written) =
      some [.opcode .DUPFROMALTSTACK, .int 0, .opcode .PICKITEM, .int 1, .opcode .SWAP,
        .call .CALL 1] ∧
    (Visit sampleEnv (.CallExpr (.SelectorExpr (.Ident "storage" .other) "Get" false)
        [.Ident "x" (.basic .String)] (.basic .String)) sampleState).map
        (fun c => c.prog.written) =
      some [.opcode .DUPFROMALTSTACK, .int 0, .opcode .PICKITEM,
        .syscall "Neo.Storage.Get", .opcode .NOP] :=
  ⟨(congrArg (Option.map fun c => c.prog.written)
      ((call_target_order sampleEnv (.Ident "f" .other)
        [.Ident "x" (.basic .Int), .BasicLit "1" ⟨.basic .Int, some (.int 1)⟩] (.basic .Int)
        sampleState sampleState 2 (some "f") rfl (by decide)).2.2 (by decide)
        (emitInt 1 (emitLoadLocalPos 0 sampleState)) ⟨"f", 1, [], none⟩ (by decide) (by decide)
        (by decide))).trans (by decide),
   (congrArg (Option.map fun c => c.prog.written)
      ((call_target_order sampleEnv (.SelectorExpr (.Ident "storage" .other) "Get" false)
        [.Ident "x" (.basic .String)] (.basic .String)
        sampleState (setSelector "Get" "storage" sampleState) 1 (some "Get") rfl
        (by decide)).2.1 (by decide)
        (emitLoadLocalPos 0 (setSelector "Get" "storage" sampleState))
        ⟨"Get", 2, [], some "storage"⟩ "storage" "Neo.Storage.Get" (by decide) (by decide)
        (by decide) (by decide))).trans (by decide)⟩

/-- C10, the failing input. The call `x.g()` of a function `g` that is not in the function
table crashes (the scope pointer is nil when its selector is assigned), while the call
`g()` sets the error `could not resolve function g` and emits nothing. -/
theorem call_undeclared_selector_panics :
    Visit sampleEnv (.CallExpr (.SelectorExpr (.Ident "x" .other) "g" false) [] .other)
      sampleState = none ∧
    Visit sampleEnv (.CallExpr (.Ident "g" .other) [] .other) sampleState =
      some (setErr "could not resolve function g" sampleState) ∧
    sampleState.funcs.lookup "g" = none ∧
    isBuiltin sampleEnv (.SelectorExpr (.Ident "x" .other) "g" false) = false := by
  decide


/-! ## Struct literals -/

theorem VisitElts_cons_keyed (env : Env) (e : Node) (rest : List Node) (k : String) (v : Node)
    (h : keyValue e = some (k, v)) :
    VisitElts env (e :: rest) = some (k, Visit env v) :: VisitElts env rest := by
  cases e
  case KeyValueExpr key value =>
    cases key
    case Ident name typ =>
      simp only [keyValue, Option.some.injEq, Prod.mk.injEq] at h
      obtain ⟨rfl, rfl⟩ := h
      rfl
    all_goals simp [keyValue] at h
  all_goals simp [keyValue] at h

/-- The inner loop of `convertStruct` compiles the expression the literal gives for the
field, if any. -/
theorem convertStructElts_eq (env : Env) (fields : List (String × GoType)) (sName : String)
    (elts : List Node) (c : codegen) (hk : isKeyed elts = true) :
    convertStructElts fields sName (VisitElts env elts) c =
      match literalValue sName elts with
      | some v => (Visit env v c).map fun c1 =>
          (true, emitStoreLocal (indexOfStruct fields sName) c1)
      | none => some (false, c) := by
  induction elts with
  | nil => rfl
  | cons e rest ih =>
    simp only [isKeyed, List.all_cons, Bool.and_eq_true] at hk
    obtain ⟨he, hrest⟩ := hk
    obtain ⟨⟨k, v⟩, hkv⟩ := Option.isSome_iff_exists.mp he
    rw [VisitElts_cons_keyed env e rest k v hkv]
    have ih2 := ih (by simpa [isKeyed] using hrest)
    by_cases hn : sName = k
    · subst hn
      simp [convertStructElts, literalValue, List.filterMap_cons, hkv]
    · have hne : (sName == k) = false := by simpa using hn
      simp only [convertStructElts, hn, if_false, literalValue, List.filterMap_cons, hkv,
        List.lookup_cons, hne]
      simpa [literalValue] using ih2

theorem indexOfStruct_append (done rest : List (String × GoType)) (name : String) (typ : GoType)
    (hc : ((done ++ (name, typ) :: rest).map Prod.fst).count name ≤ 1) :
    indexOfStruct (done ++ (name, typ) :: rest) name = (done.length : Int) := by
  have hnot : name ∉ done.map Prod.fst := by
    rw [List.map_append, List.count_append, List.map_cons, List.count_cons_self] at hc
    exact List.count_eq_zero.mp (by omega)
  have hmem : name ∈ (done ++ (name, typ) :: rest).map Prod.fst := by simp
  unfold indexOfStruct
  rw [if_pos hmem, List.map_append, List.indexOf_append_of_not_mem hnot]
  simp

/-- The outer loop of `convertStruct`, when it ends without an error: it has emitted the
groups of the property and FROMALTSTACK. -/
theorem convertStructFields_ok (env : Env) (fields : List (String × GoType)) (elts : List Node)
    (hk : isKeyed elts = true)
    (hnd : ∀ name, literalValue name elts ≠ none → (fields.map Prod.fst).count name ≤ 1) :
    ∀ (rest done : List (String × GoType)) (c cf : codegen), fields = done ++ rest →
      convertStructFields env fields (VisitElts env elts) rest (done.length : Int) c = some cf →
      cf.prog.Err = none →
      (structGroups env elts rest done.length c).map (emitOpcode .FROMALTSTACK) = some cf := by
  intro rest
  induction rest with
  | nil => intro done c cf _ h _; exact h
  | cons fld rest ih =>
    intro done c cf hf h hok
    obtain ⟨name, typ⟩ := fld
    have hnext := fun c1 => ih (done ++ [(name, typ)]) c1 cf (by simp [hf])
    have hlen : ((done ++ [(name, typ)]).length : Int) = (done.length : Int) + 1 := by simp
    have hlen2 : (done ++ [(name, typ)]).length = done.length + 1 := by simp
    rw [hlen, hlen2] at hnext
    simp only [convertStructFields, convertStructElts_eq env fields name elts c hk] at h
    simp only [structGroups]
    cases hv : literalValue name elts with
    | some v =>
      have hidx : indexOfStruct fields name = (done.length : Int) := by
        rw [hf]
        exact indexOfStruct_append done rest name typ (hf ▸ hnd name (by simp [hv]))
      simp only [hv, hidx] at h
      cases hw : Visit env v c with
      | none => simp [hw] at h
      | some c1 =>
        simp only [hw, Option.map_some'] at h
        have := hnext _ h hok
        simpa [hw] using this
    | none =>
      simp only [hv] at h
      cases hz : env.typeAndValueForField name typ with
      | error e =>
        simp only [hz, Option.some.injEq] at h
        rw [← h] at hok
        simp [setErr] at hok
      | ok z =>
        simp only [hz] at h
        cases hl : emitLoadConst z c with
        | none => simp [hl] at h
        | some c2 =>
          simp only [hl] at h
          have := hnext _ h hok
          simpa [hl] using this

/-- The outer loop of `convertStruct`, when every field that the literal does not name has
a zero value: it emits the groups of the property and FROMALTSTACK. -/
theorem convertStructFields_eq (env : Env) (fields : List (String × GoType)) (elts : List Node)
    (hk : isKeyed elts = true)
    (hnd : ∀ name, literalValue name elts ≠ none → (fields.map Prod.fst).count name ≤ 1)
    (hzero : ∀ name typ, (name, typ) ∈ fields → literalValue name elts = none →
      ∃ z, env.typeAndValueForField name typ = .ok z) :
    ∀ (rest done : List (String × GoType)) (c : codegen), fields = done ++ rest →
      convertStructFields env fields (VisitElts env elts) rest (done.length : Int) c =
        (structGroups env elts rest done.length c).map (emitOpcode .FROMALTSTACK) := by
  intro rest
  induction rest with
  | nil => intro done c _; rfl
  | cons fld rest ih =>
    intro done c hf
    obtain ⟨name, typ⟩ := fld
    have hnext := fun c1 => ih (done ++ [(name, typ)]) c1 (by simp [hf])
    have hlen : ((done ++ [(name, typ)]).length : Int) = (done.length : Int) + 1 := by simp
    have hlen2 : (done ++ [(name, typ)]).length = done.length + 1 := by simp
    rw [hlen, hlen2] at hnext
    simp only [convertStructFields, structGroups, convertStructElts_eq env fields name elts c hk]
    cases hv : literalValue name elts with
    | some v =>
      have hidx : indexOfStruct fields name = (done.length : Int) := by
        rw [hf]
        exact indexOfStruct_append done rest name typ (hf ▸ hnd name (by simp [hv]))
      simp only [hidx]
      cases hw : Visit env v c with
      | none => simp
      | some c1 => simp [hnext]
    | none =>
      obtain ⟨z, hz⟩ := hzero name typ (by simp [hf]) hv
      simp only [hz]
      cases hl : emitLoadConst z c with
      | none => simp
      | some c2 => simp [hnext]

/-- C2. For a struct type with the fields `fields` (N of them) and a keyed literal of that
type, `convertStruct` emits NOP, push N, NEWSTRUCT, TOALTSTACK, then for each field in
ascending index order 0, 1, ..., N-1 one group made of the code of the expression the
literal gives for the field, or the load of the zero value of the field type when the
literal does not name it, followed by the store at the index of the field, and finally
FROMALTSTACK.  This holds whenever every unnamed field has a zero value, and whenever the
literal is compiled without an error.  (A field name that the literal uses is the name of
one field only.) -/
theorem convertStruct_completeness (env : Env) (objFields fields : List (String × GoType))
    (byteArray : Bool) (eltValues : List (Option ConstVal)) (elts : List Node) (c : codegen)
    (hErr : c.prog.Err = none)
    (hk : isKeyed elts = true)
    (hnd : ∀ name, literalValue name elts ≠ none → (fields.map Prod.fst).count name ≤ 1) :
    ((∀ name typ, (name, typ) ∈ fields → literalValue name elts = none →
        ∃ z, env.typeAndValueForField name typ = .ok z) →
      Visit env (.CompositeLit (some (.struct objFields)) (.struct fields) byteArray
          eltValues elts) c =
        (structGroups env elts fields 0
          (emitOpcode .TOALTSTACK (emitOpcode .NEWSTRUCT
            (emitInt (fields.length : Int) (emitOpcode .NOP c))))).map
          (emitOpcode .FROMALTSTACK)) ∧
    (∀ cf, Visit env (.CompositeLit (some (.struct objFields)) (.struct fields) byteArray
          eltValues elts) c = some cf → cf.prog.Err = none →
      (structGroups env elts fields 0
        (emitOpcode .TOALTSTACK (emitOpcode .NEWSTRUCT
          (emitInt (fields.length : Int) (emitOpcode .NOP c))))).map
        (emitOpcode .FROMALTSTACK) = some cf) := by
  constructor
  · intro hzero
    rw [Visit_CompositeLit, guardErr_of_ok _ _ hErr]
    simp only [visitCompositeLit, convertStruct]
    exact convertStructFields_eq env fields elts hk hnd hzero fields [] _ rfl
  · intro cf hV hok
    rw [Visit_CompositeLit, guardErr_of_ok _ _ hErr] at hV
    simp only [visitCompositeLit, convertStruct] at hV
    exact convertStructFields_ok env fields elts hk hnd fields [] _ cf rfl hV hok

/-- The literal `T{B: x}` of `struct { A int; B string }` in the sample state: the zero
value 0 is stored at index 0, then the value of `x` at index 1. -/
theorem convertStruct_completeness_witness :
    ((structGroups sampleEnv
        [.KeyValueExpr (.Ident "B" (.basic .String)) (.Ident "x" (.basic .String))]
        sampleStruct 0
        (emitOpcode .TOALTSTACK (emitOpcode .NEWSTRUCT
          (emitInt (sampleStruct.length : Int) (emitOpcode .NOP sampleState))))).map
        (emitOpcode .FROMALTSTACK)).map (fun c => c.prog.written) =
      some [.opcode .NOP, .int 2, .opcode .NEWSTRUCT, .opcode .TOALTSTACK,
        .int 0,
        .opcode .DUPFROMALTSTACK, .int 0, .int 2, .opcode .ROLL, .opcode .SETITEM,
        .opcode .DUPFROMALTSTACK, .int 0, .opcode .PICKITEM,
        .opcode .DUPFROMALTSTACK, .int 1, .int 2, .opcode .ROLL, .opcode .SETITEM,
        .opcode .FROMALTSTACK] :=
  (congrArg (Option.map fun c => c.prog.written)
    ((convertStruct_completeness sampleEnv sampleStruct sampleStruct false [none]
      [.KeyValueExpr (.Ident "B" (.basic .String)) (.Ident "x" (.basic .String))] sampleState
      rfl (by decide)
      (by
        intro name _
        by_cases h1 : name = "A"
        · subst h1; decide
        · by_cases h2 : name = "B"
          · subst h2; decide
          · simp [sampleStruct, List.count_cons, h1, h2, Ne.symm h1, Ne.symm h2])).2
      ((Visit sampleEnv sampleLiteral sampleState).getD sampleState)
      (by decide) (by decide))).trans (by decide)

/-! ## Assignments -/

theorem Visit_AssignStmt (env : Env) (lhs rhs : List Node) (tok : Token) (c : codegen) :
    Visit env (.AssignStmt lhs tok rhs) c =
      guardErr (assignLoop tok (rhs.length != lhs.length) (VisitList env rhs) lhs 0) c := rfl

/-- C17, the failing input. The assignment `x &= y` is compiled, without error, as the plain
store of `y` into `x`: neither the load of `x` nor the opcode AND is emitted.  The second
part shows the load-modify-store code with the opcode AND, which the generator has
(`convertToken` maps the token `&` to it) and emits for the arithmetic operators. -/
theorem and_assign_is_plain_store :
    (Visit sampleEnv (.AssignStmt [.Ident "x" (.basic .Int)] .AND_ASSIGN
      [.Ident "y" (.basic .Int)]) sampleState).map (fun c => c.prog.written) =
      some [.opcode .DUPFROMALTSTACK, .int 1, .opcode .PICKITEM,
        .opcode .DUPFROMALTSTACK, .int 0, .int 2, .opcode .ROLL, .opcode .SETITEM] ∧
    (loadModifyStore sampleEnv "x" .AND (.Ident "y" (.basic .Int)) sampleState).map
      (fun c => c.prog.written) =
      some [.opcode .DUPFROMALTSTACK, .int 0, .opcode .PICKITEM,
        .opcode .DUPFROMALTSTACK, .int 1, .opcode .PICKITEM, .opcode .AND,
        .opcode .DUPFROMALTSTACK, .int 0, .int 2, .opcode .ROLL, .opcode .SETITEM] := by
  decide

/-- The extent to which the code meets C17. For an assignment `x op= e` to an identifier
with one of the operators `+=`, `-=`, `*=`, `/=`, `%=`, the generator emits the load of `x`,
then the code of `e`, then the opcode of the operator, then the store into the slot of `x`.
With any other assignment token (among them `&=`, `|=`, `^=`, `<<=`, `>>=`) it emits the
code of `e` and the store into the slot of `x` only. -/
theorem compound_assign_load_modify_store (env : Env) (x : String) (typ : GoType)
    (tok : Token) (e : Node) (c : codegen) (hok : c.prog.Err = none) :
    (isArithAssign tok = true →
      ∃ op, compoundOpcode tok = some op ∧
        Visit env (.AssignStmt [.Ident x typ] tok [e]) c = loadModifyStore env x op e c) ∧
    (isArithAssign tok = false →
      Visit env (.AssignStmt [.Ident x typ] tok [e]) c = plainStore env x e c) := by
  rw [Visit_AssignStmt, guardErr_of_ok _ _ hok]
  constructor
  · intro h
    have key : ∀ op, convertToken tok = emitOpcode op →
        assignLoop tok ([e].length != [Node.Ident x typ].length) (VisitList env [e])
          [.Ident x typ] 0 c = loadModifyStore env x op e c := by
      intro op hop
      simp only [assignLoop, h, if_true, loadModifyStore, VisitList, List.get?, hop]
      rfl
    cases tok <;> simp [isArithAssign] at h
    · exact ⟨.ADD, rfl, key _ rfl⟩
    · exact ⟨.SUB, rfl, key _ rfl⟩
    · exact ⟨.MUL, rfl, key _ rfl⟩
    · exact ⟨.DIV, rfl, key _ rfl⟩
    · exact ⟨.MOD, rfl, key _ rfl⟩
  · intro h
    simp only [assignLoop, h, plainStore, VisitList, List.get?]
    rfl

theorem compound_assign_load_modify_store_witness :
    (∃ op, compoundOpcode .ADD_ASSIGN = some op ∧
      Visit sampleEnv (.AssignStmt [.Ident "x" (.basic .Int)] .ADD_ASSIGN
        [.Ident "y" (.basic .Int)]) sampleState =
        loadModifyStore sampleEnv "x" op (.Ident "y" (.basic .Int)) sampleState) ∧
    Visit sampleEnv (.AssignStmt [.Ident "x" (.basic .Int)] .XOR_ASSIGN
      [.Ident "y" (.basic .Int)]) sampleState =
      plainStore sampleEnv "x" (.Ident "y" (.basic .Int)) sampleState :=
  ⟨(compound_assign_load_modify_store sampleEnv "x" (.basic .Int) .ADD_ASSIGN
      (.Ident "y" (.basic .Int)) sampleState rfl).1 (by decide),
    (compound_assign_load_modify_store sampleEnv "x" (.basic .Int) .XOR_ASSIGN
      (.Ident "y" (.basic .Int)) sampleState rfl).2 (by decide)⟩

/-- C18, the failing input. The assignments `x.A, x.B = f()` and `x[y], x[y] = f()` crash
at the second target, where `n.Rhs[1]` is indexed although there is one right-hand
expression; `x, y = f()` emits the call once and then the stores into `x` and `y`. -/
theorem multi_return_field_targets_panic :
    Visit sampleEnv (.AssignStmt [.SelectorExpr sampleX "A" false,
      .SelectorExpr sampleX "B" false] .ASSIGN [sampleCall0]) sampleState = none ∧
    Visit sampleEnv (.AssignStmt [.IndexExpr sampleX (.Ident "y" (.basic .Int)),
      .IndexExpr sampleX (.Ident "y" (.basic .Int))] .ASSIGN [sampleCall0])
      sampleState = none ∧
    (Visit sampleEnv (.AssignStmt [.Ident "x" (.basic .Int), .Ident "y" (.basic .Int)] .ASSIGN
      [sampleCall0]) sampleState).map (fun c => c.prog.written) =
      some [.call .CALL 1,
        .opcode .DUPFROMALTSTACK, .int 0, .int 2, .opcode .ROLL, .opcode .SETITEM,
        .opcode .DUPFROMALTSTACK, .int 1, .int 2, .opcode .ROLL, .opcode .SETITEM] := by
  decide

/-! ## Index expressions -/

/-- C19, the failing input. The index expression `x["key"]` crashes: every literal index
is read with `constant.Int64Val`, which panics on a string; `x[1]` emits the load of `x`,
push 1, PICKITEM and `x[y]` emits the load of `x`, the load of `y`, PICKITEM. -/
theorem index_string_literal_panics :
    Visit sampleEnv (.IndexExpr (.Ident "x" .other)
      (.BasicLit "\"key\"" ⟨.basic .UntypedString, some (.str "key")⟩)) sampleState = none ∧
    (Visit sampleEnv (.BasicLit "\"key\"" ⟨.basic .UntypedString, some (.str "key")⟩)
      sampleState).map (fun c => c.prog.written) = some [.string "key"] ∧
    (Visit sampleEnv (.IndexExpr (.Ident "x" .other)
      (.BasicLit "1" ⟨.basic .UntypedInt, some (.int 1)⟩)) sampleState).map
      (fun c => c.prog.written) =
      some [.opcode .DUPFROMALTSTACK, .int 0, .opcode .PICKITEM, .int 1, .opcode .PICKITEM] ∧
    (Visit sampleEnv (.IndexExpr (.Ident "x" .other) (.Ident "y" (.basic .Int)))
      sampleState).map (fun c => c.prog.written) =
      some [.opcode .DUPFROMALTSTACK, .int 0, .opcode .PICKITEM,
        .opcode .DUPFROMALTSTACK, .int 1, .opcode .PICKITEM, .opcode .PICKITEM] := by
  decide

/-! ## Function declarations -/

/-- C15, the failing input. For `func f(a, b int) {}` the parameter loop reads the first
name of each field only: one store is emitted, into the slot of `a`, and `b` gets no
slot. -/
theorem params_sharing_type_one_store :
    (convertFuncDecl sampleEnv (sampleAnalysis [] fun _ => 2) emptyFile sampleTwoParams
      sampleState).map
      (fun c => (c.prog.written, (c.funcs.lookup "f").map fun f => f.locals)) =
      some ([.int 2, .opcode .NEWARRAY, .opcode .TOALTSTACK,
        .opcode .DUPFROMALTSTACK, .int 0, .int 2, .opcode .ROLL, .opcode .SETITEM,
        .opcode .FROMALTSTACK, .opcode .DROP, .opcode .RET], some ["a"]) := by
  decide

/-! ## The sticky error -/

/-- C11, the failing input. In `a.b.c &^ y` the walk of `a.b.c` sets the error
`nested selectors not supported yet`, and `convertToken`, which assigns the error without
testing it, replaces it: `CodeGen` returns the second error.  In the same way
`emitStoreLocal`, `convertToken` and `convertSyscall` replace an error that is set. -/
theorem later_error_replaces_first :
    (Visit sampleEnv sampleNested sampleState).map (fun c => c.prog.Err) =
      some (some "nested selectors not supported yet") ∧
    (Visit sampleEnv (.BinaryExpr sampleNested .AND_NOT (.Ident "y" (.basic .Int))
      ⟨.basic .Int, none⟩ .other) sampleState).map (fun c => c.prog.Err) =
      some (some "compiler could not convert token") ∧
    CodeGen neoEnv (sampleAnalysis [] sampleSizes) neoOpByte "a" [packageTwoErrors] =
      some ([], some "compiler could not convert token") ∧
    (emitStoreLocal (-1) (setErr "first" sampleState)).prog.Err =
      some "invalid position to store local: -1" ∧
    (emitLoadLocal "z" (setErr "first" sampleState)).map (fun c => c.prog.Err) =
      some (some "cannot load local variable with position: -1") ∧
    (convertToken .AND_NOT (setErr "first" sampleState)).prog.Err =
      some "compiler could not convert token" ∧
    (convertSyscall sampleEnv "storage" "Put" (setErr "first" sampleState)).prog.Err =
      some "unknown VM syscall api: Put" := by
  decide

/-- With the sticky error set, `Visit` and `emitLoadConst` change nothing, and
`emitLoadLocal`, `emitStoreLocal`, `convertToken` and `convertSyscall` leave the buffer
unchanged. -/
theorem sticky_error_buffer_unchanged (env : Env) (c : codegen)
    (h : c.prog.Err.isSome = true) :
    (∀ n, Visit env n c = some c) ∧
    (∀ t, emitLoadConst t c = some c) ∧
    (∀ name c1, emitLoadLocal name c = some c1 → c1.prog.written = c.prog.written) ∧
    (∀ pos, (emitStoreLocal pos c).prog.written = c.prog.written) ∧
    (∀ tok, (convertToken tok c).prog.written = c.prog.written) ∧
    (∀ api name, (convertSyscall env api name c).prog.written = c.prog.written) := by
  refine ⟨fun n => Visit_of_err env n c h, fun t => by simp [emitLoadConst, h], ?_, ?_, ?_, ?_⟩
  · intro name c1 h1
    simp only [emitLoadLocal, Option.map_eq_some'] at h1
    obtain ⟨pos, _, rfl⟩ := h1
    split
    · rfl
    · simp [emitLoadLocalPos, emitOpcode, emitInt, emit_of_err _ _ h]
  · intro pos
    simp only [emitStoreLocal, emitOpcode, emitInt, emit_of_err _ _ h]
    split <;> rfl
  · intro tok
    cases tok <;> simp [convertToken, emitOpcode, emit_of_err _ _ h, setErr]
  · intro api name
    simp only [convertSyscall]
    split
    · rfl
    · simp [emitOpcode, emitSyscall, emit_of_err _ _ h]

/-! ## The driver -/

/-- C12. Whenever `CodeGen` returns an error, the byte slice it returns is empty; and for
a program whose initial package declares no function with the entry name, `CodeGen`
returns the error `could not find func main` and no bytes. -/
theorem CodeGen_error_no_bytes (env : Env) (an : Analysis) (opByte : Opcode → Nat)
    (initialPackage : String) (packages : List Package) :
    (∀ b e, CodeGen env an opByte initialPackage packages = some (b, some e) → b = []) ∧
    (∀ pkg, packages.find? (fun p => p.Path == initialPackage) = some pkg →
      (∀ f ∈ pkg.Files, ∀ d ∈ f.Decls, d.Name ≠ mainIdent) →
      CodeGen env an opByte initialPackage packages =
        some ([], some "could not find func main. Did you forget to declare it? ")) := by
  constructor
  · intro b e h
    unfold CodeGen at h
    split at h
    · cases h
    · dsimp only at h
      split at h
      · cases h; rfl
      · split at h
        · cases h
        · split at h
          · cases h
          · split at h
            · cases h; rfl
            · simp only [Option.map_eq_some'] at h
              obtain ⟨_, _, h⟩ := h
              cases h
  · intro pkg hpkg hno
    have hentry : resolveEntryPoint mainIdent pkg = none := by
      simp only [resolveEntryPoint, List.findSome?_eq_none_iff, Option.map_eq_none',
        List.find?_eq_none]
      intro f hf d hd
      simpa using hno f hf d hd
    unfold CodeGen
    rw [hpkg]
    dsimp only
    rw [hentry]

theorem CodeGen_error_no_bytes_witness :
    (∀ f ∈ packageB.Files, ∀ d ∈ f.Decls, d.Name ≠ mainIdent) ∧
    CodeGen neoEnv (sampleAnalysis [] sampleSizes) neoOpByte "b" [packageB] =
      some ([], some "could not find func main. Did you forget to declare it? ") :=
  ⟨by decide, (CodeGen_error_no_bytes neoEnv (sampleAnalysis [] sampleSizes) neoOpByte "b"
    [packageB]).2 packageB rfl (by decide)⟩

/-- C13, the failing input. With the function `f`, which nothing calls and which the usage
oracle reports as not used, declared next to `func Main() { var x = true || false }`, the
operand of the JMPIF is FF FF; with the declaration of `f` removed, and the same oracle, it
is FE FF: the two outputs differ in byte 5. -/
theorem unused_function_changes_output :
    CodeGen neoEnv (sampleAnalysis ["f"] sampleSizes) neoOpByte "a" [packageA] =
      some ([0x51, 0xc5, 0x6b, 0x51, 0x63, 0xff, 0xff, 0x00, 0x6a, 0x00, 0x52, 0x7a, 0xc4,
        0x6c, 0x75, 0x66], none) ∧
    CodeGen neoEnv (sampleAnalysis ["f"] sampleSizes) neoOpByte "a" [packageMainOnly] =
      some ([0x51, 0xc5, 0x6b, 0x51, 0x63, 0xfe, 0xff, 0x00, 0x6a, 0x00, 0x52, 0x7a, 0xc4,
        0x6c, 0x75, 0x66], none) := by
  decide

/-- The extent to which the code meets C13. A declared function other than the entry
function for which the usage oracle reports that it is not used is skipped by the
code-generation loop: the loop over
the declarations of its file gives, from any state, the same result as the loop over the
declarations without it, so it contributes no bytes.  The pre-registration loop does
register it: it takes one entry of the label table. -/
theorem unused_function_emits_nothing (env : Env) (an : Analysis) (f : File)
    (before after : List FuncDecl) (n : FuncDecl) (c : codegen)
    (hmain : n.Name ≠ mainIdent) (hunused : an.funcUsed n.Name = false) :
    genDecl env an f n c = some c ∧
    (before ++ n :: after).foldlM (fun c n => genDecl env an f n c) c =
      (before ++ after).foldlM (fun c n => genDecl env an f n c) c ∧
    (resolveFuncDecls ⟨[n], f.globals, f.countGlobals⟩ c).l = c.l ++ [-1] := by
  have hskip : ∀ c, genDecl env an f n c = some c := by
    intro c
    simp [genDecl, hunused]
  refine ⟨hskip c, ?_, ?_⟩
  · simp only [List.foldlM_append, List.foldlM_cons, hskip]
    congr 1
  · simp [resolveFuncDecls, hmain, newFunc, newLabel]

theorem unused_function_emits_nothing_witness :
    genDecl neoEnv (sampleAnalysis ["f"] sampleSizes) ⟨[sampleMain, emptyFunc "f"], [], 0⟩
      (emptyFunc "f") sampleState = some sampleState ∧
    [sampleMain, emptyFunc "f"].foldlM (fun c n => genDecl neoEnv
      (sampleAnalysis ["f"] sampleSizes) ⟨[sampleMain, emptyFunc "f"], [], 0⟩ n c) sampleState =
      [sampleMain].foldlM (fun c n => genDecl neoEnv
      (sampleAnalysis ["f"] sampleSizes) ⟨[sampleMain, emptyFunc "f"], [], 0⟩ n c) sampleState ∧
    (resolveFuncDecls ⟨[emptyFunc "f"], [], 0⟩ sampleState).l =
      sampleState.l ++ [-1] :=
  unused_function_emits_nothing neoEnv (sampleAnalysis ["f"] sampleSizes)
    ⟨[sampleMain, emptyFunc "f"], [], 0⟩ [sampleMain] [] (emptyFunc "f") sampleState
    (by decide) (by decide)

/-- C14, the failing input. For the program with the packages `a` (the functions `Main`,
whose body is `var x = true || false; f(); b.g()`, and `f`) and `b` (the function `g`), in
which every function is used, the output for the enumeration order a, b differs in byte 5
from the output for the order b, a: the labels are given out in enumeration order, and the
operand of the JMPIF names the label 0. -/
theorem enumeration_order_changes_output :
    CodeGen neoEnv (sampleAnalysis [] sampleSizes) neoOpByte "a" [packageACalls, packageB] =
      some ([0x51, 0xc5, 0x6b, 0x51, 0x63, 0x12, 0x00, 0x00, 0x6a, 0x00, 0x52, 0x7a, 0xc4,
        0x65, 0x09, 0x00, 0x65, 0x0c, 0x00, 0x6c, 0x75, 0x66,
        0x00, 0xc5, 0x6b, 0x6c, 0x75, 0x66, 0x00, 0xc5, 0x6b, 0x6c, 0x75, 0x66], none) ∧
    CodeGen neoEnv (sampleAnalysis [] sampleSizes) neoOpByte "a" [packageB, packageACalls] =
      some ([0x51, 0xc5, 0x6b, 0x51, 0x63, 0x18, 0x00, 0x00, 0x6a, 0x00, 0x52, 0x7a, 0xc4,
        0x65, 0x09, 0x00, 0x65, 0x0c, 0x00, 0x6c, 0x75, 0x66,
        0x00, 0xc5, 0x6b, 0x6c, 0x75, 0x66, 0x00, 0xc5, 0x6b, 0x6c, 0x75, 0x66], none) := by
  decide

/-! ## Emissions of a walk, and the frame of the label table -/

theorem retsCleaned_nil : retsCleaned [] := by
  intro i hi
  simp at hi

theorem retsCleaned_single (e : Emitted) (h : e ≠ .opcode .RET) : retsCleaned [e] := by
  intro i hi hr
  have : i = 0 := by simpa using hi
  subst this
  simp at hr
  exact absurd hr h

theorem retsCleaned_triple :
    retsCleaned [.opcode .FROMALTSTACK, .opcode .DROP, .opcode .RET] := by
  decide

theorem retsCleaned_append (a b : List Emitted) (ha : retsCleaned a) (hb : retsCleaned b) :
    retsCleaned (a ++ b) := by
  intro i hi hr
  by_cases h : i < a.length
  · rw [List.getElem?_append_left h] at hr
    obtain ⟨h2, h3, h4⟩ := ha i h hr
    refine ⟨h2, ?_, ?_⟩
    · rw [List.getElem?_append_left (by omega)]
      exact h3
    · rw [List.getElem?_append_left (by omega)]
      exact h4
  · have hge : a.length ≤ i := Nat.le_of_not_lt h
    rw [List.getElem?_append_right hge] at hr
    have hlt : i - a.length < b.length := by
      simp only [List.length_append] at hi
      omega
    obtain ⟨h2, h3, h4⟩ := hb _ hlt hr
    refine ⟨by omega, ?_, ?_⟩
    · rw [List.getElem?_append_right (by omega)]
      have : i - 2 - a.length = i - a.length - 2 := by omega
      rw [this]
      exact h3
    · rw [List.getElem?_append_right (by omega)]
      have : i - 1 - a.length = i - a.length - 1 := by omega
      rw [this]
      exact h4

theorem Steps_refl (c : codegen) : Steps c c :=
  ⟨⟨[], by simp, retsCleaned_nil⟩, Nat.le_refl _, fun _ _ => rfl⟩

theorem Steps_trans {a b c : codegen} (h1 : Steps a b) (h2 : Steps b c) : Steps a c := by
  obtain ⟨w1, e1, r1⟩ := h1.written
  obtain ⟨w2, e2, r2⟩ := h2.written
  refine ⟨⟨w1 ++ w2, by rw [e2, e1, List.append_assoc], retsCleaned_append _ _ r1 r2⟩,
    Nat.le_trans h1.grows h2.grows, ?_⟩
  intro i hi
  rw [h2.frame i (Nat.lt_of_lt_of_le hi h1.grows), h1.frame i hi]

/-- A change of the state that leaves the emissions and the label table as they are. -/
theorem Steps_of_eq {c c1 : codegen} (hw : c1.prog.written = c.prog.written)
    (hl : c1.l = c.l) : Steps c c1 :=
  ⟨⟨[], by simp [hw], retsCleaned_nil⟩, by rw [hl], fun _ _ => by rw [hl]⟩

theorem Steps_emit (e : Emitted) (c : codegen) (h : e ≠ .opcode .RET) : Steps c (emit e c) := by
  unfold emit
  split
  · exact Steps_refl c
  · exact ⟨⟨[e], rfl, retsCleaned_single e h⟩, Nat.le_refl _, fun _ _ => rfl⟩

theorem Steps_emitOpcode (op : Opcode) (c : codegen) (h : op ≠ .RET) :
    Steps c (emitOpcode op c) :=
  Steps_emit _ c (by simpa using h)

/-- The three emissions `FROMALTSTACK`, `DROP`, `RET`. -/
theorem Steps_ret (c : codegen) :
    Steps c (emitOpcode .RET (emitOpcode .DROP (emitOpcode .FROMALTSTACK c))) := by
  by_cases h : c.prog.Err.isSome = true
  · simp only [emitOpcode, emit_of_err _ _ h]
    exact Steps_refl c
  · refine ⟨⟨[.opcode .FROMALTSTACK, .opcode .DROP, .opcode .RET], ?_, retsCleaned_triple⟩,
      ?_, ?_⟩
    · simp [emitOpcode, emit, h]
    · simp [emitOpcode, emit, h]
    · intro i _
      simp [emitOpcode, emit, h]

theorem Steps_setErr (e : String) (c : codegen) : Steps c (setErr e c) :=
  Steps_of_eq rfl rfl

theorem Steps_newLabel (c : codegen) : Steps c (newLabel c).2 := by
  refine ⟨⟨[], by simp [newLabel], retsCleaned_nil⟩, ?_, ?_⟩
  · simp [newLabel]
  · intro i hi
    simp [newLabel, List.getElem?_append_left hi]

/-- Resolving a label that was created after the state `c`. -/
theorem Steps_setLabel {env : Env} {c c1 c2 : codegen} {l : Int} (h : Steps c c1)
    (hl : (c.l.length : Int) ≤ l) (hs : setLabel env l c1 = some c2) : Steps c c2 := by
  unfold setLabel at hs
  split at hs
  · cases hs
    refine ⟨h.written, by simpa using h.grows, ?_⟩
    intro i hi
    have hne : l.toNat ≠ i := by omega
    simp only [List.getElem?_set_ne hne]
    exact h.frame i hi
  · cases hs

theorem Steps_emitAll (es : List Emitted) (c : codegen)
    (h : ∀ e ∈ es, e ≠ .opcode .RET) : Steps c (emitAll es c) := by
  induction es generalizing c with
  | nil => exact Steps_refl c
  | cons e es ih =>
    exact Steps_trans (Steps_emit e c (h e (List.mem_cons_self _ _)))
      (ih (emit e c) fun e1 h1 => h e1 (List.mem_cons_of_mem _ h1))

theorem emitLoadConst_ok (t : TypeAndValue) : WalkerOk (emitLoadConst t) := by
  intro c c1 h
  unfold emitLoadConst at h
  split at h
  · cases h
    exact Steps_refl c
  · split at h
    · split at h
      all_goals first
        | (simp only [Option.map_eq_some'] at h
           obtain ⟨v, _, rfl⟩ := h
           exact Steps_emit _ c (by simp))
        | (cases h
           exact Steps_setErr _ c)
    · cases h
      exact Steps_setErr _ c

theorem Steps_emitLoadLocalPos (pos : Int) (c : codegen) : Steps c (emitLoadLocalPos pos c) :=
  Steps_emitAll [.opcode .DUPFROMALTSTACK, .int pos, .opcode .PICKITEM] c (by simp)

theorem emitLoadLocal_ok (name : String) : WalkerOk (emitLoadLocal name) := by
  intro c c1 h
  simp only [emitLoadLocal, Option.map_eq_some'] at h
  obtain ⟨pos, _, rfl⟩ := h
  split
  · exact Steps_setErr _ c
  · exact Steps_emitLoadLocalPos pos c

theorem Steps_emitStoreLocal (pos : Int) (c : codegen) : Steps c (emitStoreLocal pos c) := by
  unfold emitStoreLocal
  dsimp only
  split
  · exact Steps_trans (Steps_emit _ c (by simp)) (Steps_setErr _ _)
  · exact Steps_emitAll [.opcode .DUPFROMALTSTACK, .int pos, .int 2, .opcode .ROLL,
      .opcode .SETITEM] c (by simp)

theorem Steps_emitLoadField (i : Int) (c : codegen) : Steps c (emitLoadField i c) :=
  Steps_emitAll [.int i, .opcode .PICKITEM] c (by simp)

theorem Steps_emitStoreStructField (i : Int) (c : codegen) :
    Steps c (emitStoreStructField i c) :=
  Steps_emitAll [.int i, .opcode .ROT, .opcode .SETITEM] c (by simp)

theorem Steps_convertToken (tok : Token) (c : codegen) : Steps c (convertToken tok c) := by
  cases tok <;> first
    | exact Steps_emit _ c (by simp)
    | exact Steps_setErr _ c

theorem Steps_convertSyscall (env : Env) (api name : String) (c : codegen) :
    Steps c (convertSyscall env api name c) := by
  unfold convertSyscall
  split
  · exact Steps_setErr _ c
  · exact Steps_emitAll [.syscall _, .opcode .NOP] c (by simp)

theorem convertBuiltin_ok (env : Env) (fn : Node) (args : List Node) (a0 : GoType) :
    WalkerOk (convertBuiltin env fn args a0) := by
  intro c c1 h
  unfold convertBuiltin at h
  dsimp only at h
  repeat' split at h
  all_goals first
    | (cases h
       first
        | exact Steps_refl c
        | exact Steps_setErr _ c
        | exact Steps_emit _ c (by simp)
        | exact Steps_emitAll [.opcode .SWAP, .opcode .DUP, .opcode .PUSH2, .opcode .XSWAP,
            .opcode .APPEND] c (by simp))
    | cases h

theorem newLocal_ok (name : String) (c c1 : codegen) (l : Int)
    (h : newLocal name c = some (l, c1)) : Steps c c1 := by
  unfold newLocal at h
  split at h
  · cases h
    exact Steps_of_eq rfl rfl
  · cases h

theorem Steps_setSelector (name sel : String) (c : codegen) :
    Steps c (setSelector name sel c) := by
  unfold setSelector
  split
  · exact Steps_refl c
  · exact Steps_of_eq rfl rfl

theorem Steps_emitReorder (n : Nat) (c : codegen) : Steps c (emitReorder n c) := by
  rw [emitReorder_eq]
  apply Steps_emitAll
  intro e he
  unfold reorderByArity at he
  simp only [Bool.false_eq_true, if_false] at he
  split at he
  · simp at he
  · simp at he
  · simp at he
    simp [he]
  · simp at he
    rcases he with rfl | rfl <;> simp
  · simp only [List.mem_flatMap] at he
    obtain ⟨i, _, hi⟩ := he
    simp at hi
    rcases hi with rfl | rfl <;> simp

theorem walkAll_ok (ws : List Walker) (h : ∀ w ∈ ws, WalkerOk w) : WalkerOk (walkAll ws) := by
  induction ws with
  | nil =>
    intro c c1 hc
    simp [walkAll] at hc
    subst hc
    exact Steps_refl c
  | cons w ws ih =>
    intro c c1 hc
    simp only [walkAll, List.foldlM_cons, Option.bind_eq_bind, Option.bind_eq_some] at hc
    obtain ⟨c2, h2, h3⟩ := hc
    exact Steps_trans (h w (List.mem_cons_self _ _) c c2 h2)
      (ih (fun w1 h1 => h w1 (List.mem_cons_of_mem _ h1)) c2 c1 h3)

theorem guardErr_ok (k : Walker) (h : WalkerOk k) : WalkerOk (guardErr k) := by
  intro c c1 hc
  unfold guardErr at hc
  split at hc
  · cases hc
    exact Steps_refl c
  · exact h c c1 hc

theorem get?_ok (ws : List Walker) (h : ∀ w ∈ ws, WalkerOk w) (j : Nat) (w : Walker)
    (hj : ws.get? j = some w) : WalkerOk w :=
  h w (List.get?_mem hj)

theorem genDeclValues_ok (names : List String) (ws : List Walker)
    (h : ∀ w ∈ ws, WalkerOk w) : ∀ i, WalkerOk (genDeclValues names i ws) := by
  induction ws with
  | nil =>
    intro i c c1 hc
    simp only [genDeclValues, Option.some.injEq] at hc
    subst hc
    exact Steps_refl c
  | cons w ws ih =>
    intro i c c1 hc
    unfold genDeclValues at hc
    cases hw : w c with
    | none => simp [hw] at hc
    | some c2 =>
      simp only [hw] at hc
      cases hn : names.get? i with
      | none =>
        rw [hn] at hc
        cases hc
      | some name =>
        simp only [hn] at hc
        cases hl : newLocal name c2 with
        | none => simp [hl] at hc
        | some r =>
          obtain ⟨l, c3⟩ := r
          simp only [hl] at hc
          exact Steps_trans (h w (List.mem_cons_self _ _) c c2 hw)
            (Steps_trans (newLocal_ok _ _ _ _ hl)
              (Steps_trans (Steps_emitStoreLocal l c3)
                (ih (fun w1 h1 => h w1 (List.mem_cons_of_mem _ h1)) (i + 1) _ c1 hc)))

theorem visitGenDecl_ok (specs : List (List String × List Walker))
    (h : ∀ sp ∈ specs, ∀ w ∈ sp.2, WalkerOk w) : WalkerOk (visitGenDecl specs) := by
  induction specs with
  | nil =>
    intro c c1 hc
    simp [visitGenDecl] at hc
    subst hc
    exact Steps_refl c
  | cons sp specs ih =>
    intro c c1 hc
    simp only [visitGenDecl, List.foldlM_cons, Option.bind_eq_bind, Option.bind_eq_some] at hc
    obtain ⟨c2, h2, h3⟩ := hc
    exact Steps_trans (genDeclValues_ok sp.1 sp.2 (h sp (List.mem_cons_self _ _)) 0 c c2 h2)
      (ih (fun sp1 h1 => h sp1 (List.mem_cons_of_mem _ h1)) c2 c1 h3)

theorem assignLoop_ok (tok : Token) (multiRet : Bool) (rhs : List Walker)
    (h : ∀ w ∈ rhs, WalkerOk w) (lhs : List Node) :
    ∀ i, WalkerOk (assignLoop tok multiRet rhs lhs i) := by
  induction lhs with
  | nil =>
    intro i c c1 hc
    simp only [assignLoop, Option.some.injEq] at hc
    subst hc
    exact Steps_refl c
  | cons t rest ih =>
    intro i c c1 hc
    cases t
    case Ident name typ =>
      simp only [assignLoop] at hc
      split at hc
      · simp only [Option.bind_eq_bind, Option.bind_eq_some, Option.pure_def] at hc
        obtain ⟨c2, h2, w, hw, c3, h3, l, _, hrest⟩ := hc
        exact Steps_trans (emitLoadLocal_ok _ _ _ h2)
          (Steps_trans (get?_ok rhs h _ _ hw _ _ h3)
            (Steps_trans (Steps_convertToken _ _)
              (Steps_trans (Steps_emitStoreLocal _ _) (ih _ _ _ hrest))))
      · by_cases hcond : (i == 0 || !multiRet) = true
        · simp only [hcond, if_true, Option.bind_eq_bind, Option.bind_eq_some,
            Option.pure_def] at hc
          obtain ⟨c2, ⟨w, hw, h3⟩, l, _, hrest⟩ := hc
          exact Steps_trans (get?_ok rhs h _ _ hw _ _ h3)
            (Steps_trans (Steps_emitStoreLocal _ _) (ih _ _ _ hrest))
        · simp only [hcond, Bool.false_eq_true, if_false, Option.bind_eq_bind,
            Option.bind_eq_some, Option.pure_def] at hc
          obtain ⟨c2, h2, l, _, hrest⟩ := hc
          cases h2
          exact Steps_trans (Steps_emitStoreLocal _ _) (ih _ _ _ hrest)
    case SelectorExpr x sel selection =>
      simp only [assignLoop] at hc
      split at hc
      · simp only [Option.bind_eq_bind, Option.bind_eq_some, Option.pure_def] at hc
        obtain ⟨w, hw, c2, h2, hrest⟩ := hc
        have hs := get?_ok rhs h _ _ hw _ _ h2
        split at hrest
        · simp only [Option.bind_eq_bind, Option.bind_eq_some] at hrest
          obtain ⟨c3, h3, hrest⟩ := hrest
          exact Steps_trans hs (Steps_trans (emitLoadLocal_ok _ _ _ h3)
            (Steps_trans (Steps_emitStoreStructField _ _) (ih _ _ _ hrest)))
        · exact Steps_trans hs (ih _ _ _ hrest)
      · cases hc
        exact Steps_setErr _ c
    case IndexExpr x index =>
      simp only [assignLoop, Option.bind_eq_bind, Option.bind_eq_some, Option.pure_def] at hc
      obtain ⟨w, hw, c2, h2, hrest⟩ := hc
      have hs := get?_ok rhs h _ _ hw _ _ h2
      split at hrest
      · simp only [Option.bind_eq_bind, Option.bind_eq_some] at hrest
        obtain ⟨c3, h3, hrest⟩ := hrest
        have hs3 := Steps_trans hs (emitLoadLocal_ok _ _ _ h3)
        split at hrest
        · split at hrest
          · cases hrest
            exact Steps_trans hs3 (Steps_setErr _ _)
          · exact Steps_trans hs3 (Steps_trans (Steps_emitStoreStructField _ _) (ih _ _ _ hrest))
        · simp only [Option.bind_eq_bind, Option.bind_eq_some] at hrest
          obtain ⟨c4, h4, hrest⟩ := hrest
          exact Steps_trans hs3 (Steps_trans (emitLoadLocal_ok _ _ _ h4)
            (Steps_trans (Steps_emitAll [.opcode .ROT, .opcode .SETITEM] _ (by simp))
              (ih _ _ _ hrest)))
        · cases hrest
          exact Steps_trans hs3 (Steps_setErr _ _)
      · cases hrest
    all_goals
      simp only [assignLoop] at hc
      exact ih _ _ _ hc

theorem newLabel_fst (c : codegen) : (newLabel c).1 = (c.l.length : Int) := rfl

theorem newLabel_snd_length (c : codegen) : (newLabel c).2.l.length = c.l.length + 1 := by
  simp [newLabel]

theorem visitReturnStmt_ok (env : Env) (results : List Walker)
    (h : ∀ w ∈ results, WalkerOk w) : WalkerOk (visitReturnStmt env results) := by
  intro c c1 hc
  unfold visitReturnStmt at hc
  cases hs : setLabel env (newLabel c).1 (newLabel c).2 with
  | none => simp [hs] at hc
  | some c2 =>
    simp only [hs] at hc
    have h2 : Steps c c2 := Steps_setLabel (Steps_newLabel c) (by simp [newLabel_fst]) hs
    cases hw : walkAll results.reverse c2 with
    | none => simp [hw] at hc
    | some c3 =>
      simp only [hw, Option.some.injEq] at hc
      subst hc
      exact Steps_trans h2 (Steps_trans
        (walkAll_ok _ (fun w hw1 => h w (List.mem_reverse.mp hw1)) _ _ hw) (Steps_ret c3))

theorem visitIfStmt_ok (env : Env) (cond : Option Walker) (body : Walker) (els : Option Walker)
    (hcnd : ∀ w, cond = some w → WalkerOk w) (hb : WalkerOk body)
    (he : ∀ w, els = some w → WalkerOk w) : WalkerOk (visitIfStmt env cond body els) := by
  intro c c1 hc
  unfold visitIfStmt at hc
  dsimp only at hc
  have l1 : (c.l.length : Int) ≤ (newLabel c).1 := by simp [newLabel_fst]
  have l2 : (c.l.length : Int) ≤ (newLabel (newLabel c).2).1 := by
    simp [newLabel_fst, newLabel_snd_length]
  have l3 : (c.l.length : Int) ≤ (newLabel (newLabel (newLabel c).2).2).1 := by
    simp only [newLabel_fst, newLabel_snd_length]
    omega
  have s0 : Steps c (newLabel (newLabel (newLabel c).2).2).2 :=
    Steps_trans (Steps_newLabel c) (Steps_trans (Steps_newLabel _) (Steps_newLabel _))
  have key : ∀ ca, Steps c ca →
      (match setLabel env (newLabel c).1 ca with
        | none => none
        | some c2 =>
          match body c2 with
          | none => none
          | some c3 =>
            match (motive := Option Walker → Option codegen) els with
            | none =>
              (setLabel env (newLabel (newLabel c).2).1 c3).bind fun c4 =>
                setLabel env (newLabel (newLabel (newLabel c).2).2).1 c4
            | some e =>
              match setLabel env (newLabel (newLabel c).2).1
                (emitJmp .JMP (int16 (newLabel (newLabel (newLabel c).2).2).1) c3) with
              | none => none
              | some c4 =>
                (e c4).bind fun c5 =>
                  setLabel env (newLabel (newLabel (newLabel c).2).2).1 c5) = some c1 →
      Steps c c1 := by
    intro ca hca hk
    cases hs : setLabel env (newLabel c).1 ca with
    | none => simp [hs] at hk
    | some c2 =>
      simp only [hs] at hk
      have h2 : Steps c c2 := Steps_setLabel hca l1 hs
      cases hbd : body c2 with
      | none => simp [hbd] at hk
      | some c3 =>
        simp only [hbd] at hk
        have h3 : Steps c c3 := Steps_trans h2 (hb _ _ hbd)
        cases els with
        | none =>
          simp only [Option.bind_eq_some] at hk
          obtain ⟨c4, h4, h5⟩ := hk
          exact Steps_setLabel (Steps_setLabel h3 l2 h4) l3 h5
        | some e =>
          simp only at hk
          cases hs4 : setLabel env (newLabel (newLabel c).2).1
            (emitJmp .JMP (int16 (newLabel (newLabel (newLabel c).2).2).1) c3) with
          | none => simp [hs4] at hk
          | some c4 =>
            simp only [hs4, Option.bind_eq_some] at hk
            obtain ⟨c5, h5, h6⟩ := hk
            have h4 : Steps c c4 :=
              Steps_setLabel (Steps_trans h3 (Steps_emit _ _ (by simp))) l2 hs4
            exact Steps_setLabel (Steps_trans h4 (he e rfl _ _ h5)) l3 h6
  cases cond with
  | none => exact key _ s0 hc
  | some cd =>
    simp only at hc
    cases hcd : cd (newLabel (newLabel (newLabel c).2).2).2 with
    | none => simp [hcd] at hc
    | some c2 =>
      simp only [hcd, Option.map_some'] at hc
      exact key _ (Steps_trans s0 (Steps_trans (hcnd cd rfl _ _ hcd) (Steps_emit _ _ (by simp)))) hc

theorem visitIdent_ok (env : Env) (name : String) (typ : GoType) :
    WalkerOk (visitIdent env name typ) := by
  intro c c1 hc
  unfold visitIdent at hc
  split at hc
  · split at hc
    · cases hc
      exact Steps_setErr _ c
    · exact emitLoadConst_ok _ _ _ hc
  · exact emitLoadLocal_ok _ _ _ hc

theorem convertByteArray_ok (vs : List (Option ConstVal)) : WalkerOk (convertByteArray vs) := by
  intro c c1 hc
  simp only [convertByteArray, Option.map_eq_some'] at hc
  obtain ⟨buf, _, rfl⟩ := hc
  exact Steps_emit _ c (by simp)

theorem convertStructElts_ok (fields : List (String × GoType)) (sName : String)
    (elts : List (Option (String × Walker)))
    (h : ∀ e ∈ elts, ∀ k w, e = some (k, w) → WalkerOk w) (c c1 : codegen) (b : Bool)
    (hc : convertStructElts fields sName elts c = some (b, c1)) : Steps c c1 := by
  induction elts with
  | nil =>
    simp only [convertStructElts, Option.some.injEq, Prod.mk.injEq] at hc
    rw [← hc.2]
    exact Steps_refl c
  | cons e elts ih =>
    cases e with
    | none => simp [convertStructElts] at hc
    | some kw =>
      obtain ⟨k, w⟩ := kw
      simp only [convertStructElts] at hc
      split at hc
      · simp only [Option.map_eq_some', Prod.mk.injEq] at hc
        obtain ⟨c2, h2, _, rfl⟩ := hc
        exact Steps_trans (h _ (List.mem_cons_self _ _) k w rfl _ _ h2)
          (Steps_emitStoreLocal _ _)
      · exact ih (fun e1 h1 => h e1 (List.mem_cons_of_mem _ h1)) hc

theorem convertStructFields_steps (env : Env) (fields : List (String × GoType))
    (elts : List (Option (String × Walker)))
    (h : ∀ e ∈ elts, ∀ k w, e = some (k, w) → WalkerOk w) (rest : List (String × GoType)) :
    ∀ i, WalkerOk (convertStructFields env fields elts rest i) := by
  induction rest with
  | nil =>
    intro i c c1 hc
    simp only [convertStructFields, Option.some.injEq] at hc
    subst hc
    exact Steps_emit _ c (by simp)
  | cons f rest ih =>
    intro i c c1 hc
    obtain ⟨sName, sType⟩ := f
    simp only [convertStructFields] at hc
    cases he : convertStructElts fields sName elts c with
    | none => simp [he] at hc
    | some r =>
      obtain ⟨b, c2⟩ := r
      have h2 := convertStructElts_ok fields sName elts h c c2 b he
      cases b with
      | true =>
        simp only [he] at hc
        exact Steps_trans h2 (ih _ _ _ hc)
      | false =>
        simp only [he] at hc
        split at hc
        · cases hc
          exact Steps_trans h2 (Steps_setErr _ _)
        · rename_i tv _
          cases hl : emitLoadConst tv c2 with
          | none => simp [hl] at hc
          | some c3 =>
            simp only [hl] at hc
            exact Steps_trans h2 (Steps_trans (emitLoadConst_ok _ _ _ hl)
              (Steps_trans (Steps_emitStoreLocal _ _) (ih _ _ _ hc)))

theorem convertStruct_ok (env : Env) (litType : GoType)
    (elts : List (Option (String × Walker)))
    (h : ∀ e ∈ elts, ∀ k w, e = some (k, w) → WalkerOk w) :
    WalkerOk (convertStruct env litType elts) := by
  intro c c1 hc
  unfold convertStruct at hc
  split at hc
  · exact Steps_trans
      (Steps_emitAll [.opcode .NOP, .int _, .opcode .NEWSTRUCT, .opcode .TOALTSTACK] c
        (by simp))
      (convertStructFields_steps env _ elts h _ _ _ _ hc)
  · cases hc
    exact Steps_setErr _ c

theorem visitCompositeLit_ok (env : Env) (objType : Option GoType) (litType : GoType)
    (byteArray : Bool) (eltValues : List (Option ConstVal)) (elts : List Walker)
    (structElts : List (Option (String × Walker)))
    (h1 : ∀ w ∈ elts, WalkerOk w)
    (h2 : ∀ e ∈ structElts, ∀ k w, e = some (k, w) → WalkerOk w) :
    WalkerOk (visitCompositeLit env objType litType byteArray eltValues elts structElts) := by
  intro c c1 hc
  unfold visitCompositeLit at hc
  split at hc
  · split at hc
    · exact convertByteArray_ok _ _ _ hc
    · simp only [Option.map_eq_some'] at hc
      obtain ⟨c2, hw, rfl⟩ := hc
      exact Steps_trans (walkAll_ok _ (fun w hw1 => h1 w (List.mem_reverse.mp hw1)) _ _ hw)
        (Steps_emitAll [.int _, .opcode .PACK] c2 (by simp))
  · exact convertStruct_ok env litType structElts h2 _ _ hc
  · cases hc
    exact Steps_refl c

theorem visitBinaryExpr_ok (env : Env) (op : Token) (tinfo : TypeAndValue) (xType : GoType)
    (x y : Walker) (hx : WalkerOk x) (hy : WalkerOk y) :
    WalkerOk (visitBinaryExpr env op tinfo xType x y) := by
  intro c c1 hc
  unfold visitBinaryExpr at hc
  split at hc
  · cases h1 : x c with
    | none => simp [h1] at hc
    | some c2 =>
      simp only [h1] at hc
      exact Steps_trans (hx _ _ h1) (Steps_trans (Steps_emit _ _ (by simp)) (hy _ _ hc))
  · cases h1 : x c with
    | none => simp [h1] at hc
    | some c2 =>
      simp only [h1] at hc
      exact Steps_trans (hx _ _ h1) (Steps_trans (Steps_emit _ _ (by simp)) (hy _ _ hc))
  · split at hc
    · exact emitLoadConst_ok _ _ _ hc
    · cases h1 : x c with
      | none => simp [h1] at hc
      | some c2 =>
        simp only [h1] at hc
        cases h2 : y c2 with
        | none => simp [h2] at hc
        | some c3 =>
          simp only [h2] at hc
          have h3 : Steps c c3 := Steps_trans (hx _ _ h1) (hy _ _ h2)
          repeat' split at hc
          all_goals
            cases hc
            first
              | exact Steps_trans h3 (Steps_emit _ _ (by simp))
              | exact Steps_trans h3 (Steps_emitAll [.opcode .EQUAL, .opcode .NOT] _ (by simp))
              | exact Steps_trans h3 (Steps_convertToken _ _)

theorem visitSelectorExpr_ok (x : Node) (sel : String) : WalkerOk (visitSelectorExpr x sel) := by
  intro c c1 hc
  unfold visitSelectorExpr at hc
  split at hc
  · simp only [Option.map_eq_some'] at hc
    obtain ⟨c2, h2, rfl⟩ := hc
    exact Steps_trans (emitLoadLocal_ok _ _ _ h2) (Steps_emitLoadField _ _)
  · cases hc
    exact Steps_refl c
  · cases hc
    exact Steps_setErr _ c

theorem visitUnaryExpr_ok (op : Token) (x : Walker) (hx : WalkerOk x) :
    WalkerOk (visitUnaryExpr op x) := by
  intro c c1 hc
  unfold visitUnaryExpr at hc
  cases h1 : x c with
  | none => simp [h1] at hc
  | some c2 =>
    simp only [h1] at hc
    split at hc
    all_goals
      cases hc
      first
        | exact hx _ _ h1
        | exact Steps_trans (hx _ _ h1) (Steps_emit _ _ (by simp))
        | exact Steps_trans (hx _ _ h1) (Steps_setErr _ _)

theorem visitIncDecStmt_ok (x : Node) (tok : Token) (xw : Walker) (hx : WalkerOk xw) :
    WalkerOk (visitIncDecStmt x tok xw) := by
  intro c c1 hc
  unfold visitIncDecStmt at hc
  cases h1 : xw c with
  | none => simp [h1] at hc
  | some c2 =>
    simp only [h1] at hc
    split at hc
    · simp only [Option.map_eq_some'] at hc
      obtain ⟨pos, _, rfl⟩ := hc
      exact Steps_trans (hx _ _ h1) (Steps_trans (Steps_convertToken _ _)
        (Steps_emitStoreLocal _ _))
    · cases hc
      exact Steps_trans (hx _ _ h1) (Steps_convertToken _ _)

theorem visitIndexExpr_ok (index : Node) (xw iw : Walker) (hx : WalkerOk xw)
    (hi : WalkerOk iw) : WalkerOk (visitIndexExpr index xw iw) := by
  intro c c1 hc
  unfold visitIndexExpr at hc
  cases h1 : xw c with
  | none => simp [h1] at hc
  | some c2 =>
    simp only [h1] at hc
    split at hc
    · simp only [Option.map_eq_some'] at hc
      obtain ⟨v, _, rfl⟩ := hc
      exact Steps_trans (hx _ _ h1) (Steps_emitLoadField _ _)
    · simp only [Option.map_eq_some'] at hc
      obtain ⟨c3, h3, rfl⟩ := hc
      exact Steps_trans (hx _ _ h1) (Steps_trans (hi _ _ h3) (Steps_emit _ _ (by simp)))

theorem resolveCallee_ok (env : Env) (fn : Node) (args : List Node) (recv : Walker)
    (hr : WalkerOk recv) (c : codegen) (r : Callee)
    (h : resolveCallee env fn args recv c = some r) :
    (∀ c1, r = .failed c1 → Steps c c1) ∧ (∀ c1, r = .converted c1 → Steps c c1) ∧
    (∀ c1 n f, r = .resolved c1 n f → Steps c c1) := by
  unfold resolveCallee at h
  split at h
  · split at h
    · cases h
      refine ⟨?_, ?_, ?_⟩
      · intro c1 h1
        cases h1
        exact Steps_setErr _ c
      · intro c1 h1
        cases h1
      · intro c1 n f h1
        cases h1
    · cases h
      refine ⟨?_, ?_, ?_⟩
      · intro c1 h1
        cases h1
      · intro c1 h1
        cases h1
      · intro c1 n f h1
        cases h1
        exact Steps_refl c
  · rename_i x sel selection
    cases h1 : (if selection = true then recv c else some c) with
    | none => simp [h1] at h
    | some c2 =>
      simp only [h1] at h
      have h2 : Steps c c2 := by
        split at h1
        · exact hr _ _ h1
        · cases h1
          exact Steps_refl c
      split at h
      · cases h
        refine ⟨?_, ?_, ?_⟩
        · intro c1 h1
          cases h1
        · intro c1 h1
          cases h1
        · intro c1 n f h1
          cases h1
          exact Steps_trans h2 (Steps_setSelector _ _ _)
      · cases h
  · split at h
    · simp only [Option.map_eq_some'] at h
      obtain ⟨c2, h2, rfl⟩ := h
      refine ⟨?_, ?_, ?_⟩
      · intro c1 h1
        cases h1
      · intro c1 h1
        cases h1
        exact emitLoadConst_ok _ _ _ h2
      · intro c1 n f h1
        cases h1
    · cases h
  · cases h
    refine ⟨?_, ?_, ?_⟩
    · intro c1 h1
      cases h1
    · intro c1 h1
      cases h1
    · intro c1 n f h1
      cases h1
      exact Steps_refl c

theorem callTarget_ok (env : Env) (fn : Node) (args : List Node) (a0 : GoType)
    (f : Option String) : WalkerOk (callTarget env fn args a0 f) := by
  intro c c1 hc
  unfold callTarget at hc
  split at hc
  · exact convertBuiltin_ok env fn args a0 _ _ hc
  · repeat' split at hc
    all_goals first
      | (cases hc
         first
          | exact Steps_convertSyscall _ _ _ _
          | exact Steps_emit _ _ (by simp))
      | cases hc

theorem callArgs_ok (env : Env) (fn : Node) (args : List Node) (ws : List Walker)
    (a0 : GoType) (n : Nat) (f : Option String) (h : ∀ w ∈ ws, WalkerOk w) :
    WalkerOk (callArgs env fn args ws a0 n f) := by
  intro c c1 hc
  unfold callArgs at hc
  cases hw : walkAll ws c with
  | none => simp [hw] at hc
  | some c2 =>
    simp only [hw] at hc
    have h2 := walkAll_ok ws h _ _ hw
    have h3 := callTarget_ok env fn args a0 f _ _ hc
    refine Steps_trans h2 (Steps_trans ?_ h3)
    split
    · exact Steps_refl c2
    · exact Steps_emitReorder _ _

theorem visitCallExpr_ok (env : Env) (fn : Node) (args : List Node) (a0 : GoType)
    (recv : Walker) (ws : List Walker) (hr : WalkerOk recv) (h : ∀ w ∈ ws, WalkerOk w) :
    WalkerOk (visitCallExpr env fn args a0 recv ws) := by
  intro c c1 hc
  unfold visitCallExpr at hc
  cases hrc : resolveCallee env fn args recv c with
  | none => simp [hrc] at hc
  | some r =>
    obtain ⟨h1, h2, h3⟩ := resolveCallee_ok env fn args recv hr c r hrc
    cases r with
    | failed c2 =>
      simp only [hrc, Option.some.injEq] at hc
      subst hc
      exact h1 _ rfl
    | converted c2 =>
      simp only [hrc, Option.some.injEq] at hc
      subst hc
      exact h2 _ rfl
    | resolved c2 n f =>
      simp only [hrc] at hc
      exact Steps_trans (h3 _ _ _ rfl) (callArgs_ok env fn args ws a0 n f h _ _ hc)

theorem visitForStmt_ok (env : Env) (init cond post : Option Walker) (body : Walker)
    (hi : ∀ w, init = some w → WalkerOk w) (hcd : ∀ w, cond = some w → WalkerOk w)
    (hp : ∀ w, post = some w → WalkerOk w) (hb : WalkerOk body) :
    WalkerOk (visitForStmt env init cond post body) := by
  intro c c1 hc
  unfold visitForStmt at hc
  dsimp only at hc
  have l1 : (c.l.length : Int) ≤ (newLabel c).1 := by simp [newLabel_fst]
  have l2 : (c.l.length : Int) ≤ (newLabel (newLabel c).2).1 := by
    simp [newLabel_fst, newLabel_snd_length]
  have s0 : Steps c (newLabel (newLabel c).2).2 :=
    Steps_trans (Steps_newLabel c) (Steps_newLabel _)
  cases hai : (match (motive := Option Walker → Option codegen) init with
      | none => some (newLabel (newLabel c).2).2
      | some i => i (newLabel (newLabel c).2).2) with
  | none => simp [hai] at hc
  | some ca =>
    simp only [hai] at hc
    have h1 : Steps c ca := by
      cases init with
      | none =>
        cases hai
        exact s0
      | some i => exact Steps_trans s0 (hi i rfl _ _ hai)
    cases hs : setLabel env (newLabel c).1 ca with
    | none => simp [hs] at hc
    | some c2 =>
      simp only [hs] at hc
      have h2 : Steps c c2 := Steps_setLabel h1 l1 hs
      cases hac : (match (motive := Option Walker → Option codegen) cond with
          | none => if c2.prog.Err.isSome = true then some c2 else none
          | some cd => cd c2) with
      | none => simp [hac] at hc
      | some c3 =>
        simp only [hac] at hc
        have h3 : Steps c c3 := by
          cases cond with
          | none =>
            simp only at hac
            split at hac
            · cases hac
              exact h2
            · cases hac
          | some cd => exact Steps_trans h2 (hcd cd rfl _ _ hac)
        cases hbd : body (emitJmp .JMPIFNOT (int16 (newLabel (newLabel c).2).1) c3) with
        | none => simp [hbd] at hc
        | some c4 =>
          simp only [hbd] at hc
          have h4 : Steps c c4 :=
            Steps_trans h3 (Steps_trans (Steps_emit _ _ (by simp)) (hb _ _ hbd))
          cases hap : (match (motive := Option Walker → Option codegen) post with
              | none => some c4
              | some p => p c4) with
          | none => simp [hap] at hc
          | some c5 =>
            simp only [hap] at hc
            have h5 : Steps c c5 := by
              cases post with
              | none =>
                cases hap
                exact h4
              | some p => exact Steps_trans h4 (hp p rfl _ _ hap)
            exact Steps_setLabel (Steps_trans h5 (Steps_emit _ _ (by simp))) l2 hc

theorem some_ok : WalkerOk fun c => some c := by
  intro c c1 h
  cases h
  exact Steps_refl c

theorem bind_ok (v w : Walker) (hv : WalkerOk v) (hw : WalkerOk w) :
    WalkerOk fun c => (v c).bind fun c1 => w c1 := by
  intro c c1 h
  simp only [Option.bind_eq_some] at h
  obtain ⟨c2, h2, h3⟩ := h
  exact Steps_trans (hv _ _ h2) (hw _ _ h3)

theorem VisitList_eq_map (env : Env) (ns : List Node) :
    VisitList env ns = ns.map (Visit env) := by
  induction ns with
  | nil => rfl
  | cons n ns ih => exact congrArg (List.cons (Visit env n)) ih

theorem VisitSpecs_eq_map (env : Env) (specs : List (List String × List Node)) :
    VisitSpecs env specs = specs.map fun sp => (sp.1, VisitList env sp.2) := by
  induction specs with
  | nil => rfl
  | cons sp specs ih => exact congrArg (List.cons (sp.1, VisitList env sp.2)) ih

theorem VisitElts_eq_map (env : Env) (elts : List Node) :
    VisitElts env elts =
      elts.map fun n => (keyValue n).map fun kv => (kv.1, Visit env kv.2) := by
  induction elts with
  | nil => rfl
  | cons e elts ih =>
    cases e
    case KeyValueExpr key value =>
      cases key <;> exact congrArg (List.cons _) ih
    all_goals exact congrArg (List.cons _) ih

theorem VisitList_ok (env : Env) (ns : List Node) (h : ∀ n ∈ ns, NodeOk env n) :
    ∀ w ∈ VisitList env ns, WalkerOk w := by
  intro w hw
  rw [VisitList_eq_map, List.mem_map] at hw
  obtain ⟨n, hn, rfl⟩ := hw
  exact (h n hn).1

theorem VisitSpecs_ok (env : Env) (specs : List (List String × List Node))
    (h : ∀ sp ∈ specs, ∀ n ∈ sp.2, NodeOk env n) :
    ∀ sp ∈ VisitSpecs env specs, ∀ w ∈ sp.2, WalkerOk w := by
  intro sp hsp
  rw [VisitSpecs_eq_map, List.mem_map] at hsp
  obtain ⟨sp0, h0, rfl⟩ := hsp
  exact VisitList_ok env sp0.2 (h sp0 h0)

theorem VisitElts_ok (env : Env) (elts : List Node) (h : ∀ n ∈ elts, NodeOk env n) :
    ∀ e ∈ VisitElts env elts, ∀ k w, e = some (k, w) → WalkerOk w := by
  intro e he k w hk
  rw [VisitElts_eq_map, List.mem_map] at he
  obtain ⟨n, hn, rfl⟩ := he
  simp only [Option.map_eq_some', Prod.mk.injEq] at hk
  obtain ⟨kv, hkv, _, rfl⟩ := hk
  exact (h n hn).2.2 kv.1 kv.2 hkv

theorem VisitOpt_ok (env : Env) (o : Option Node) (h : ∀ n, o = some n → NodeOk env n) :
    ∀ w, VisitOpt env o = some w → WalkerOk w := by
  intro w hw
  cases o with
  | none => cases hw
  | some n =>
    cases hw
    exact (h n rfl).1

theorem keyValue_none_ok (env : Env) (n : Node) (h : keyValue n = none) :
    ∀ k v, keyValue n = some (k, v) → WalkerOk (Visit env v) := by
  intro k v hk
  rw [h] at hk
  cases hk

mutual

/-- Every walk of a node only emits cleaned returns and leaves the label table entries
of its start state as they are. -/
theorem Visit_steps (env : Env) : ∀ n : Node, NodeOk env n
  | .GenDecl specs =>
    ⟨guardErr_ok _ (visitGenDecl_ok _ (VisitSpecs_ok env specs (VisitSpecs_steps env specs))),
      some_ok, keyValue_none_ok env _ rfl⟩
  | .AssignStmt lhs _ rhs =>
    ⟨guardErr_ok _ (assignLoop_ok _ _ _ (VisitList_ok env rhs (VisitAll_steps env rhs)) lhs 0),
      some_ok, keyValue_none_ok env _ rfl⟩
  | .ReturnStmt results =>
    ⟨guardErr_ok _ (visitReturnStmt_ok env _
      (VisitList_ok env results (VisitAll_steps env results))),
      some_ok, keyValue_none_ok env _ rfl⟩
  | .IfStmt cond body els =>
    ⟨guardErr_ok _ (visitIfStmt_ok env _ _ _ (VisitOpt_ok env cond (VisitOpt_steps env cond))
      (Visit_steps env body).1 (VisitOpt_ok env els (VisitOpt_steps env els))),
      some_ok, keyValue_none_ok env _ rfl⟩
  | .BasicLit _ tinfo =>
    ⟨guardErr_ok _ (emitLoadConst_ok tinfo), some_ok, keyValue_none_ok env _ rfl⟩
  | .Ident name typ =>
    ⟨guardErr_ok _ (visitIdent_ok env name typ), some_ok, keyValue_none_ok env _ rfl⟩
  | .CompositeLit objType litType byteArray eltValues elts =>
    ⟨guardErr_ok _ (visitCompositeLit_ok env objType litType byteArray eltValues _ _
      (VisitList_ok env elts (VisitAll_steps env elts))
      (VisitElts_ok env elts (VisitAll_steps env elts))),
      some_ok, keyValue_none_ok env _ rfl⟩
  | .KeyValueExpr key value =>
    ⟨guardErr_ok _ (bind_ok _ _ (Visit_steps env key).1 (Visit_steps env value).1), some_ok,
      fun k v h => by
        cases key <;> simp only [keyValue, Option.some.injEq, Prod.mk.injEq] at h <;>
          first
            | exact h.2 ▸ (Visit_steps env value).1
            | cases h⟩
  | .BinaryExpr x op y tinfo xType =>
    ⟨guardErr_ok _ (visitBinaryExpr_ok env op tinfo xType _ _ (Visit_steps env x).1
      (Visit_steps env y).1), some_ok, keyValue_none_ok env _ rfl⟩
  | .CallExpr fn args a0 =>
    ⟨fun c c1 h => guardErr_ok _ (visitCallExpr_ok env fn args a0 _ _ (Visit_steps env fn).2.1
      (VisitList_ok env args (VisitAll_steps env args))) c c1
        ((Visit_CallExpr env fn args a0 c).symm.trans h),
      some_ok, keyValue_none_ok env _ rfl⟩
  | .SelectorExpr x sel _ =>
    ⟨guardErr_ok _ (visitSelectorExpr_ok x sel), (Visit_steps env x).1,
      keyValue_none_ok env _ rfl⟩
  | .ArrayType len elt =>
    ⟨guardErr_ok _ (match len with
      | none => (Visit_steps env elt).1
      | some n => bind_ok _ _ (Visit_steps env n).1 (Visit_steps env elt).1),
      some_ok, keyValue_none_ok env _ rfl⟩
  | .UnaryExpr op x =>
    ⟨guardErr_ok _ (visitUnaryExpr_ok op _ (Visit_steps env x).1), some_ok,
      keyValue_none_ok env _ rfl⟩
  | .IncDecStmt x tok =>
    ⟨guardErr_ok _ (visitIncDecStmt_ok x tok _ (Visit_steps env x).1), some_ok,
      keyValue_none_ok env _ rfl⟩
  | .IndexExpr x index =>
    ⟨guardErr_ok _ (visitIndexExpr_ok index _ _ (Visit_steps env x).1
      (Visit_steps env index).1), some_ok, keyValue_none_ok env _ rfl⟩
  | .ForStmt init cond post body =>
    ⟨guardErr_ok _ (visitForStmt_ok env _ _ _ _ (VisitOpt_ok env init (VisitOpt_steps env init))
      (VisitOpt_ok env cond (VisitOpt_steps env cond))
      (VisitOpt_ok env post (VisitOpt_steps env post)) (Visit_steps env body).1),
      some_ok, keyValue_none_ok env _ rfl⟩
  | .TypeAssertExpr x =>
    ⟨guardErr_ok _ (Visit_steps env x).1, some_ok, keyValue_none_ok env _ rfl⟩
  | .other children =>
    ⟨guardErr_ok _ (walkAll_ok _ (VisitList_ok env children (VisitAll_steps env children))),
      some_ok, keyValue_none_ok env _ rfl⟩

theorem VisitOpt_steps (env : Env) : ∀ o : Option Node, ∀ n, o = some n → NodeOk env n
  | none => fun _ h => nomatch h
  | some n => fun _ h => Option.some.inj h ▸ Visit_steps env n

theorem VisitAll_steps (env : Env) : ∀ ns : List Node, ∀ n ∈ ns, NodeOk env n
  | [] => fun _ h => nomatch h
  | n :: ns => fun m h =>
    (List.mem_cons.mp h).elim (fun e => e ▸ Visit_steps env n)
      (fun h1 => VisitAll_steps env ns m h1)

theorem VisitSpecs_steps (env : Env) :
    ∀ specs : List (List String × List Node), ∀ sp ∈ specs, ∀ n ∈ sp.2, NodeOk env n
  | [] => fun _ h => nomatch h
  | (names, values) :: rest => fun sp h =>
    (List.mem_cons.mp h).elim
      (fun (e : sp = (names, values)) => e ▸ VisitAll_steps env values)
      (fun h1 => VisitSpecs_steps env rest sp h1)

end

/-! ## Function declarations: the frame and its cleanup -/

theorem storeReceivers_ok (l : List RecvField) :
    ∀ c c1 b, storeReceivers l c = some (b, c1) → Steps c c1 := by
  induction l with
  | nil =>
    intro c c1 b h
    simp only [storeReceivers, Option.some.injEq, Prod.mk.injEq] at h
    rw [← h.2]
    exact Steps_refl c
  | cons arg rest ih =>
    intro c c1 b h
    unfold storeReceivers at h
    split at h
    · cases h
    · split at h
      · split at h
        · cases h
        · rename_i hl
          exact Steps_trans (newLocal_ok _ _ _ _ hl)
            (Steps_trans (Steps_emitStoreLocal _ _) (ih _ _ _ h))
      · cases h
        exact Steps_setErr _ c

theorem storeParams_ok (ps : List (List String)) : WalkerOk (storeParams ps) := by
  induction ps with
  | nil =>
    intro c c1 h
    simp only [storeParams, Option.some.injEq] at h
    subst h
    exact Steps_refl c
  | cons names rest ih =>
    intro c c1 h
    unfold storeParams at h
    split at h
    · cases h
    · split at h
      · cases h
      · rename_i hl
        exact Steps_trans (newLocal_ok _ _ _ _ hl)
          (Steps_trans (Steps_emitStoreLocal _ _) (ih _ _ h))

theorem convertGlobals_ok (env : Env) (f : File) : WalkerOk (convertGlobals env f) :=
  walkAll_ok _ (VisitList_ok env f.globals (VisitAll_steps env f.globals))

theorem emit_Err (e : Emitted) (c : codegen) : (emit e c).prog.Err = c.prog.Err := by
  unfold emit
  split <;> rfl

theorem convertFuncBody_frame (env : Env) (an : Analysis) (file : File) (decl : FuncDecl)
    (c c1 : codegen) (hok : c.prog.Err = none)
    (h : convertFuncBody env an file decl c = some c1) :
    ∃ rest, c1.prog.written = c.prog.written ++
        ([.int (an.stackSize decl.Name + file.countGlobals), .opcode .NEWARRAY,
          .opcode .TOALTSTACK] ++ rest) ∧
      retsCleaned rest ∧
      (decl.hasReturnStmt = false → c1.prog.Err = none →
        ∃ pre, rest = pre ++ [.opcode .FROMALTSTACK, .opcode .DROP, .opcode .RET]) := by
  unfold convertFuncBody at h
  dsimp only at h
  have hfr : ∀ c2, Steps (emitOpcode .TOALTSTACK (emitOpcode .NEWARRAY
      (emitInt (an.stackSize decl.Name + file.countGlobals)
        { c with scope := some decl.Name }))) c2 →
      ∃ rest, c2.prog.written = c.prog.written ++
        ([.int (an.stackSize decl.Name + file.countGlobals), .opcode .NEWARRAY,
          .opcode .TOALTSTACK] ++ rest) ∧ retsCleaned rest := by
    intro c2 h2
    obtain ⟨ws, e, r⟩ := h2.written
    refine ⟨ws, ?_, r⟩
    rw [e]
    simp [emitOpcode, emitInt, emit, hok]
  cases hr : (match (motive := Option (List RecvField) → Option (Bool × codegen))
      decl.Recv with
    | none => some (false, emitOpcode .TOALTSTACK (emitOpcode .NEWARRAY
        (emitInt (an.stackSize decl.Name + file.countGlobals)
          { c with scope := some decl.Name })))
    | some l => storeReceivers l (emitOpcode .TOALTSTACK (emitOpcode .NEWARRAY
        (emitInt (an.stackSize decl.Name + file.countGlobals)
          { c with scope := some decl.Name })))) with
  | none => simp [hr] at h
  | some r =>
    obtain ⟨b, c3⟩ := r
    have h3 : Steps (emitOpcode .TOALTSTACK (emitOpcode .NEWARRAY
        (emitInt (an.stackSize decl.Name + file.countGlobals)
          { c with scope := some decl.Name }))) c3 := by
      cases hrecv : decl.Recv with
      | none =>
        simp only [hrecv, Option.some.injEq, Prod.mk.injEq] at hr
        rw [← hr.2]
        exact Steps_refl _
      | some l =>
        simp only [hrecv] at hr
        exact storeReceivers_ok l _ _ _ hr
    cases b with
    | true =>
      simp only [hr, Option.some.injEq] at h
      subst h
      obtain ⟨rest, e, r⟩ := hfr _ h3
      refine ⟨rest, e, r, ?_⟩
      intro _ hE
      exfalso
      cases hrecv : decl.Recv with
      | none => simp [hrecv] at hr
      | some l =>
        simp only [hrecv] at hr
        have : ∀ (l : List RecvField) (c0 c3 : codegen),
            storeReceivers l c0 = some (true, c3) → c3.prog.Err.isSome = true := by
          intro l
          induction l with
          | nil =>
            intro c0 c3 h0
            simp [storeReceivers] at h0
          | cons arg rest ih =>
            intro c0 c3 h0
            unfold storeReceivers at h0
            split at h0
            · cases h0
            · split at h0
              · split at h0
                · cases h0
                · exact ih _ _ h0
              · cases h0
                rfl
        have h5 := this l _ _ hr
        rw [hE] at h5
        cases h5
    | false =>
      simp only [hr] at h
      cases hp : storeParams decl.Params c3 with
      | none => simp [hp] at h
      | some c4 =>
        simp only [hp] at h
        have h4 := Steps_trans h3 (storeParams_ok _ _ _ hp)
        cases hsys : isSyscall env (c4.funcs.lookup decl.Name) with
        | none => simp [hsys] at h
        | some sys =>
          simp only [hsys] at h
          cases hg : (if sys = true then some c4 else convertGlobals env file c4) with
          | none => simp [hg] at h
          | some c5 =>
            simp only [hg] at h
            have h5 : Steps c4 c5 := by
              split at hg
              · cases hg
                exact Steps_refl _
              · exact convertGlobals_ok env file _ _ hg
            cases hv : Visit env decl.Body c5 with
            | none => simp [hv] at h
            | some c6 =>
              simp only [hv] at h
              have h6 := Steps_trans h4 (Steps_trans h5 ((Visit_steps env decl.Body).1 _ _ hv))
              obtain ⟨ws, e, r⟩ := hfr _ h6
              split at h
              · rename_i hret
                cases h
                refine ⟨ws, e, r, ?_⟩
                intro hf
                rw [hret] at hf
                cases hf
              · cases h
                by_cases hE : c6.prog.Err.isSome = true
                · refine ⟨ws, ?_, r, ?_⟩
                  · simp only [emitOpcode, emit_of_err _ _ hE]
                    exact e
                  · intro _ hE1
                    simp only [emitOpcode, emit_of_err _ _ hE] at hE1
                    rw [hE1] at hE
                    cases hE
                · refine ⟨ws ++ [.opcode .FROMALTSTACK, .opcode .DROP, .opcode .RET], ?_,
                    retsCleaned_append _ _ r retsCleaned_triple, fun _ _ => ⟨ws, rfl⟩⟩
                  simp [emitOpcode, emit, hE, e]

/-- The extent to which the code meets C16. The code that `convertFuncDecl` emits for a
function, started without error, begins with push(stackSize + number of globals), NEWARRAY, TOALTSTACK, and every RET in
the code after that is immediately preceded by FROMALTSTACK and DROP; a declaration
without return statement that is converted without error ends with FROMALTSTACK, DROP,
RET.  Nothing is emitted only for a function that is registered as a syscall. -/
theorem frame_cleanup (env : Env) (an : Analysis) (file : File) (decl : FuncDecl)
    (c c1 : codegen) (hok : c.prog.Err = none)
    (h : convertFuncDecl env an file decl c = some c1) :
    (c1 = c ∧ isSyscall env (c.funcs.lookup decl.Name) = some true) ∨
    ∃ rest, c1.prog.written = c.prog.written ++
        ([.int (an.stackSize decl.Name + file.countGlobals), .opcode .NEWARRAY,
          .opcode .TOALTSTACK] ++ rest) ∧
      retsCleaned rest ∧
      (decl.hasReturnStmt = false → c1.prog.Err = none →
        ∃ pre, rest = pre ++ [.opcode .FROMALTSTACK, .opcode .DROP, .opcode .RET]) := by
  unfold convertFuncDecl at h
  cases hl : c.funcs.lookup decl.Name with
  | none =>
    simp only [hl] at h
    exact Or.inr (convertFuncBody_frame env an file decl (newFunc decl c) c1 hok h)
  | some f =>
    simp only [hl] at h
    cases hs : isSyscall env (some f) with
    | none => simp [hs] at h
    | some sys =>
      cases sys with
      | true =>
        simp only [hs, Option.some.injEq] at h
        exact Or.inl ⟨h.symm, rfl⟩
      | false =>
        simp only [hs] at h
        cases hsl : setLabel env f.label c with
        | none => simp [hsl] at h
        | some c2 =>
          simp only [hsl] at h
          have hp : c2.prog = c.prog := by
            unfold setLabel at hsl
            split at hsl
            · cases hsl
              rfl
            · cases hsl
          have := convertFuncBody_frame env an file decl c2 c1 (by rw [hp]; exact hok) h
          rw [hp] at this
          exact Or.inr this

theorem frame_cleanup_witness :
    ∃ rest, ((convertFuncDecl sampleEnv (sampleAnalysis [] fun _ => 0) emptyFile sampleReturn
        sampleState).getD sampleState).prog.written =
        sampleState.prog.written ++
          ([.int (0 + 0), .opcode .NEWARRAY, .opcode .TOALTSTACK] ++ rest) ∧
      retsCleaned rest :=
  (frame_cleanup sampleEnv (sampleAnalysis [] fun _ => 0) emptyFile sampleReturn sampleState
    ((convertFuncDecl sampleEnv (sampleAnalysis [] fun _ => 0) emptyFile sampleReturn
      sampleState).getD sampleState) rfl (by decide)).elim
    (fun h => absurd h.2 (by decide))
    (fun ⟨rest, h1, h2, _⟩ => ⟨rest, h1, h2⟩)

set_option maxHeartbeats 2000000 in
/-- C16, the failing input. The function
`func Main() { var x = 1; var y = 2; if x < y { return }; x++ }` contains a return
statement and also falls through, so no cleanup is synthesized: the path that skips the
return statement (the JMPIFNOT at offset 22 leads to offset 28) ends at the SETITEM of
`x++`, the last byte of the output, with the locals array still on the auxiliary stack and
no RET.  The same holds of `func Main() { if x < y { return }; x++ }` converted in the
sample state.  For `func Main() { var x = 1; x++ }`, which has no return statement, the
output ends with FROMALTSTACK, DROP, RET. -/
theorem fallthrough_after_return_no_cleanup :
    CodeGen neoEnv (sampleAnalysis [] fun _ => 2) neoOpByte "a"
      [⟨"a", [⟨[sampleFallThrough], [], 0⟩]⟩] =
      some ([0x52, 0xc5, 0x6b, 0x51, 0x6a, 0x00, 0x52, 0x7a, 0xc4,
        0x52, 0x6a, 0x51, 0x52, 0x7a, 0xc4,
        0x6a, 0x00, 0xc3, 0x6a, 0x51, 0xc3, 0x9f, 0x64, 0x06, 0x00,
        0x6c, 0x75, 0x66,
        0x6a, 0x00, 0xc3, 0x8b, 0x6a, 0x00, 0x52, 0x7a, 0xc4], none) ∧
    (convertFuncDecl sampleEnv (sampleAnalysis [] fun _ => 2) emptyFile sampleEarlyReturn
      sampleState).map (fun c => (c.prog.written.drop 10, c.prog.Err)) =
      some ([.jmp .JMPIFNOT 4, .opcode .FROMALTSTACK, .opcode .DROP, .opcode .RET,
        .opcode .DUPFROMALTSTACK, .int 0, .opcode .PICKITEM, .opcode .INC,
        .opcode .DUPFROMALTSTACK, .int 0, .int 2, .opcode .ROLL, .opcode .SETITEM], none) ∧
    CodeGen neoEnv (sampleAnalysis [] fun _ => 1) neoOpByte "a"
      [⟨"a", [⟨[sampleNoReturn], [], 0⟩]⟩] =
      some ([0x51, 0xc5, 0x6b, 0x51, 0x6a, 0x00, 0x52, 0x7a, 0xc4,
        0x6a, 0x00, 0xc3, 0x8b, 0x6a, 0x00, 0x52, 0x7a, 0xc4, 0x6c, 0x75, 0x66], none) := by
  decide

/-! ## For statements -/

theorem Visit_ForStmt (env : Env) (init cond post : Option Node) (body : Node) (c : codegen) :
    Visit env (.ForStmt init cond post body) c =
      guardErr (visitForStmt env (VisitOpt env init) (VisitOpt env cond) (VisitOpt env post)
        (Visit env body)) c := rfl

/-- C20, the failing input. A for statement without condition, such as `for {}` or
`for ;; x++ {}`, crashes the generator: the nil condition is walked.  The loop
`for ; x < y; x++ {}` is lowered to the condition, JMPIFNOT loop-end, the post statement and
JMP loop-top, with loop-top resolved to the offset 0 of the condition and loop-end to the
offset after the JMP; `writeJumps` then makes the JMP at offset 19 land on offset 0. -/
theorem for_without_condition_panics :
    Visit sampleEnv (.ForStmt none none none (.other [])) sampleState = none ∧
    Visit sampleEnv (.ForStmt none none (some (.IncDecStmt (.Ident "x" (.basic .Int)) .INC))
      (.other [])) sampleState = none ∧
    (Visit sampleEnv sampleLoop sampleState).map (fun c => (c.prog.written, c.l)) =
      some ([.opcode .DUPFROMALTSTACK, .int 0, .opcode .PICKITEM,
        .opcode .DUPFROMALTSTACK, .int 1, .opcode .PICKITEM, .opcode .LT,
        .jmp .JMPIFNOT 4,
        .opcode .DUPFROMALTSTACK, .int 0, .opcode .PICKITEM, .opcode .INC,
        .opcode .DUPFROMALTSTACK, .int 0, .int 2, .opcode .ROLL, .opcode .SETITEM,
        .jmp .JMP 3], [-1, -1, -1, 0, 18]) ∧
    (Visit neoEnv sampleLoop sampleState).bind
      (fun c => writeJumps neoOpByte c.l (c.prog.Bytes neoEnv)) =
      some [0x6a, 0x00, 0xc3, 0x6a, 0x51, 0xc3, 0x9f, 0x64, 0x0f, 0x00, 0x6a, 0x00, 0xc3,
        0x8b, 0x6a, 0x00, 0x52, 0x7a, 0xc4, 0x62, 0xed, 0xff] := by
  decide

theorem walkOpt_VisitOpt_ok (env : Env) (o : Option Node) :
    WalkerOk (walkOpt (VisitOpt env o)) := by
  intro c c1 h
  cases o with
  | none =>
    cases h
    exact Steps_refl c
  | some n => exact (Visit_steps env n).1 c c1 h

theorem setLabel_of_lt (env : Env) (l : Nat) (c : codegen) (h : l < c.l.length) :
    setLabel env (l : Int) c = some { c with l := c.l.set l (c.prog.Len env : Int) } := by
  have h1 : (0 : Int) ≤ (l : Int) ∧ (l : Int) < (c.l.length : Int) := by omega
  simp only [setLabel, h1, and_self, if_true, pc, Int.toNat_ofNat, Int.sub_add_cancel]

/-- The lowering of a for statement with a condition: two labels are created, loop-top
with the index `c.l.length` and loop-end with the next index; the code of the init
statement, of the condition, JMPIFNOT loop-end, the code of the body, of the post
statement and JMP loop-top are emitted in this order; loop-top is resolved to the length of
the buffer after the init code, and loop-end to its length after the final JMP. -/
theorem for_statement_lowering (env : Env) (init post : Option Node) (cond body : Node)
    (c c1 c3 c4 c5 : codegen) (hok : c.prog.Err = none)
    (hinit : walkOpt (VisitOpt env init) (newLabel (newLabel c).2).2 = some c1)
    (hcond : Visit env cond { c1 with l := c1.l.set c.l.length (c1.prog.Len env : Int) } =
      some c3)
    (hbody : Visit env body (emitJmp .JMPIFNOT (int16 ((c.l.length : Int) + 1)) c3) = some c4)
    (hpost : walkOpt (VisitOpt env post) c4 = some c5) :
    ∃ c6, Visit env (.ForStmt init (some cond) post body) c = some c6 ∧
      c6.prog = (emitJmp .JMP (int16 (c.l.length : Int)) c5).prog ∧
      c6.l.length = c5.l.length ∧
      c6.l[c.l.length]? = some (c1.prog.Len env : Int) ∧
      c6.l[c.l.length + 1]? = some (c6.prog.Len env : Int) ∧
      ∀ k, k ≠ c.l.length + 1 → c6.l[k]? = c5.l[k]? := by
  have s1 := walkOpt_VisitOpt_ok env init _ _ hinit
  have len1 : c.l.length + 2 ≤ c1.l.length := by
    have := s1.grows
    simp only [newLabel_snd_length] at this
    exact this
  have hset1 := setLabel_of_lt env c.l.length c1 (by omega)
  have s3 := (Visit_steps env cond).1 _ _ hcond
  have s4 := Steps_trans (Steps_emit (.jmp .JMPIFNOT (int16 ((c.l.length : Int) + 1))) c3
    (by simp)) ((Visit_steps env body).1 _ _ hbody)
  have s5 := Steps_trans (Steps_trans s3 s4) (walkOpt_VisitOpt_ok env post _ _ hpost)
  have s6 := Steps_trans s5 (Steps_emit (.jmp .JMP (int16 (c.l.length : Int))) c5 (by simp))
  have len6 : c.l.length + 2 ≤ (emitJmp .JMP (int16 (c.l.length : Int)) c5).l.length := by
    have := s6.grows
    simp only [List.length_set] at this
    exact Nat.le_trans len1 this
  have hl5 : (emitJmp .JMP (int16 (c.l.length : Int)) c5).l = c5.l := by
    simp only [emitJmp, emit]
    split <;> rfl
  have hset2 := setLabel_of_lt env (c.l.length + 1)
    (emitJmp .JMP (int16 (c.l.length : Int)) c5) (by omega)
  have e3 : ((c.l.length + 1 : Nat) : Int) = (c.l.length : Int) + 1 := by
    push_cast
    rfl
  rw [e3] at hset2
  refine ⟨{ emitJmp .JMP (int16 (c.l.length : Int)) c5 with
    l := (emitJmp .JMP (int16 (c.l.length : Int)) c5).l.set (c.l.length + 1)
      ((emitJmp .JMP (int16 (c.l.length : Int)) c5).prog.Len env : Int) }, ?_, rfl, ?_, ?_, ?_, ?_⟩
  · rw [Visit_ForStmt, guardErr_of_ok _ _ hok]
    unfold visitForStmt
    dsimp only
    have e1 : (VisitOpt env (some cond)) = some (Visit env cond) := rfl
    have hinit1 : (match (motive := Option Walker → Option codegen) VisitOpt env init with
        | none => some (newLabel (newLabel c).2).2
        | some i => i (newLabel (newLabel c).2).2) = some c1 := hinit
    have hpost1 : (match (motive := Option Walker → Option codegen) VisitOpt env post with
        | none => some c4
        | some p => p c4) = some c5 := hpost
    rw [hinit1]
    simp only [newLabel_fst, hset1, e1, hcond]
    have e2 : ((newLabel c).2.l.length : Int) = (c.l.length : Int) + 1 := by
      simp [newLabel_snd_length]
    rw [e2]
    simp only [hbody, hpost1]
    exact hset2
  · simp [hl5]
  · have h6 := s5.frame c.l.length (by simp only [List.length_set]; omega)
    have hne : c.l.length + 1 ≠ c.l.length := by omega
    dsimp only
    rw [hl5, List.getElem?_set_ne hne, h6]
    dsimp only
    rw [List.getElem?_set_self (show c.l.length < c1.l.length by omega)]
  · rw [hl5] at len6
    dsimp only
    rw [hl5, List.getElem?_set_self (show c.l.length + 1 < c5.l.length by omega)]
  · intro k hk
    dsimp only
    rw [hl5, List.getElem?_set_ne (Ne.symm hk)]

theorem for_statement_lowering_witness :
    ∃ c6, Visit sampleEnv sampleLoop sampleState = some c6 ∧
      c6.prog = (emitJmp .JMP 3 sampleAfterPost).prog ∧
      c6.l[sampleState.l.length]? = some 0 ∧
      c6.l[sampleState.l.length + 1]? = some (c6.prog.Len sampleEnv : Int) :=
  let ⟨c6, h1, h2, _, h4, h5, _⟩ := for_statement_lowering sampleEnv none (some samplePost)
    sampleCond (.other []) sampleState sampleLoopStart sampleAfterCond sampleAfterBody
    sampleAfterPost rfl rfl (by decide) (by decide) (by decide)
  ⟨c6, h1, h2, h4, h5⟩

/-! ## Short-circuit jumps -/

/-- The jump of `X && Y` and of `X || Y` carries an index computed from the length of the
label table after the walk of `X`: the length minus 1 for `&&`, minus 3 for `||`. -/
theorem short_circuit_jump_index (env : Env) (x y : Node) (ti : TypeAndValue) (xt : GoType)
    (c cx : codegen) (hok : c.prog.Err = none) (hx : Visit env x c = some cx) :
    Visit env (.BinaryExpr x .LAND y ti xt) c =
      Visit env y (emitJmp .JMPIFNOT (int16 ((cx.l.length : Int) - 1)) cx) ∧
    Visit env (.BinaryExpr x .LOR y ti xt) c =
      Visit env y (emitJmp .JMPIF (int16 ((cx.l.length : Int) - 3)) cx) := by
  constructor
  · rw [Visit_BinaryExpr, guardErr_of_ok _ _ hok]
    simp only [visitBinaryExpr, hx]
  · rw [Visit_BinaryExpr, guardErr_of_ok _ _ hok]
    simp only [visitBinaryExpr, hx]

/-- C24, the failing input. In a state with 3 labels, `for x || y {}` creates the labels 3
and 4, and the JMPIF emitted after `x` carries the label 2, which the statement did not
create.  The jump of `for x && y {}` carries 4 (loop-end), that of `if x || y` carries 3
(the label of the body) and that of `if x && y` carries 5 (the end of the statement), each
among the labels the statement created. -/
theorem for_lor_jump_leaves_statement :
    sampleState.l.length = 3 ∧
    (Visit sampleEnv sampleForOr sampleState).map (fun c => (c.prog.written, c.l.length)) =
      some ([.opcode .DUPFROMALTSTACK, .int 0, .opcode .PICKITEM, .jmp .JMPIF 2,
        .opcode .DUPFROMALTSTACK, .int 1, .opcode .PICKITEM, .jmp .JMPIFNOT 4,
        .jmp .JMP 3], 5) ∧
    (Visit sampleEnv sampleForAnd sampleState).map (fun c => (c.prog.written, c.l.length)) =
      some ([.opcode .DUPFROMALTSTACK, .int 0, .opcode .PICKITEM, .jmp .JMPIFNOT 4,
        .opcode .DUPFROMALTSTACK, .int 1, .opcode .PICKITEM, .jmp .JMPIFNOT 4,
        .jmp .JMP 3], 5) ∧
    (Visit sampleEnv sampleIfOr sampleState).map
      (fun c => (c.prog.written.take 8, c.l.length)) =
      some ([.opcode .DUPFROMALTSTACK, .int 0, .opcode .PICKITEM, .jmp .JMPIF 3,
        .opcode .DUPFROMALTSTACK, .int 1, .opcode .PICKITEM, .jmp .JMPIFNOT 4], 6) ∧
    (Visit sampleEnv sampleIfAnd sampleState).map
      (fun c => (c.prog.written.take 8, c.l.length)) =
      some ([.opcode .DUPFROMALTSTACK, .int 0, .opcode .PICKITEM, .jmp .JMPIFNOT 5,
        .opcode .DUPFROMALTSTACK, .int 1, .opcode .PICKITEM, .jmp .JMPIFNOT 4], 6) := by
  decide

/-- C25, the failing input. For `if x && y {} else { x++ }` in a state with 3 labels, the
JMPIFNOT emitted after `x` carries the label 5, the end of the statement, while the
JMPIFNOT of the if statement carries the label 4, the else label.  After `writeJumps` the
first jump, at offset 3, has the displacement 21 and lands on offset 24, the end of the
code, and the second, at offset 9, has the displacement 6 and lands on offset 15, the
first instruction of the else branch. -/
theorem land_jump_skips_else :
    (Visit sampleEnv sampleIfAnd sampleState).map (fun c => c.prog.written) =
      some [.opcode .DUPFROMALTSTACK, .int 0, .opcode .PICKITEM, .jmp .JMPIFNOT 5,
        .opcode .DUPFROMALTSTACK, .int 1, .opcode .PICKITEM, .jmp .JMPIFNOT 4,
        .jmp .JMP 5,
        .opcode .DUPFROMALTSTACK, .int 0, .opcode .PICKITEM, .opcode .INC,
        .opcode .DUPFROMALTSTACK, .int 0, .int 2, .opcode .ROLL, .opcode .SETITEM] ∧
    (Visit neoEnv sampleIfAnd sampleState).map (fun c => c.l) =
      some [-1, -1, -1, 12, 15, 24] ∧
    (Visit neoEnv sampleIfAnd sampleState).bind
      (fun c => writeJumps neoOpByte c.l (c.prog.Bytes neoEnv)) =
      some [0x6a, 0x00, 0xc3, 0x64, 0x15, 0x00, 0x6a, 0x51, 0xc3, 0x64, 0x06, 0x00,
        0x62, 0x0c, 0x00, 0x6a, 0x00, 0xc3, 0x8b, 0x6a, 0x00, 0x52, 0x7a, 0xc4] := by
  decide

/-! ## The reordering on the evaluation stack -/

theorem stackRun_append {α : Type} (es fs : List Emitted) (s : List (StackItem α)) :
    stackRun (es ++ fs) s = (stackRun es s).bind fun s1 => stackRun fs s1 := by
  simp [stackRun, List.foldlM_append]

theorem roll_append {β : Type} (done : List β) (x : β) (rest : List β) :
    roll done.length (done ++ x :: rest) = some (x :: (done ++ rest)) := by
  have h : (done ++ x :: rest).get? done.length = some x := by
    rw [List.get?_eq_getElem?, List.getElem?_append_right (Nat.le_refl _)]
    simp
  unfold roll
  rw [h]
  simp [List.eraseIdx_append_of_length_le]

theorem stackRun_push_roll {α : Type} (done : List (StackItem α)) (x : StackItem α)
    (rest : List (StackItem α)) :
    stackRun [.int (done.length : Int), .opcode .ROLL] (done ++ x :: rest) =
      some (x :: (done ++ rest)) := by
  simp [stackRun, stackStep, roll_append]

/-- The pairs (push i, ROLL) for i = k, k + 1, ... move the items below the top `k` items
to the top one after the other. -/
theorem stackRun_rolls {α : Type} (r : List (StackItem α)) :
    ∀ done : List (StackItem α),
      stackRun ((List.range' done.length r.length).flatMap
        fun (i : Nat) => [.int (i : Int), .opcode .ROLL]) (done ++ r) =
        some (r.reverse ++ done) := by
  induction r with
  | nil =>
    intro done
    simp [stackRun]
  | cons x r ih =>
    intro done
    have h := ih (x :: done)
    simp only [List.length_cons] at h
    simp only [List.length_cons, List.range'_succ, List.flatMap_cons, stackRun_append,
      stackRun_push_roll, Option.some_bind]
    rw [show x :: (done ++ r) = (x :: done) ++ r from rfl, h]
    simp

theorem emitAll_written (es : List Emitted) (c : codegen) (hok : c.prog.Err = none) :
    (emitAll es c).prog.written = c.prog.written ++ es := by
  induction es generalizing c with
  | nil => simp [emitAll]
  | cons e es ih =>
    have h1 : (emit e c).prog.Err = none := by rw [emit_Err, hok]
    have h2 : (emit e c).prog.written = c.prog.written ++ [e] := by simp [emit, hok]
    have h3 : emitAll (e :: es) c = emitAll es (emit e c) := rfl
    rw [h3, ih _ h1, h2]
    simp

/-- C27. For a call with N arguments, N at least 2, that is not a builtin, the generator
emits the reordering sequence of N, and running it on the stack that holds a1, ..., aN with
aN on top gives, under the stack semantics of SWAP, XSWAP and ROLL that the property
names, the stack that holds aN, ..., a1 with a1 on top. -/
theorem reordering_reverses {α : Type} (as : List α) (h : 2 ≤ as.length) (c : codegen)
    (hok : c.prog.Err = none) :
    (emitReorder as.length c).prog.written =
      c.prog.written ++ reorderByArity false as.length ∧
    stackRun (reorderByArity false as.length) (as.map StackItem.arg).reverse =
      some (as.map StackItem.arg) := by
  constructor
  · rw [emitReorder_eq, emitAll_written _ _ hok]
  · match as, h with
    | [a1, a2], _ => rfl
    | [a1, a2, a3], _ => rfl
    | a1 :: a2 :: a3 :: a4 :: rest, _ =>
      have hs : ∀ l : List (StackItem α), l ≠ [] →
          ∃ t r, l.reverse = t :: r ∧ r.reverse ++ [t] = l := by
        intro l hl
        cases hr : l.reverse with
        | nil => simp at hr; exact absurd hr hl
        | cons t r =>
          refine ⟨t, r, rfl, ?_⟩
          have := congrArg List.reverse hr
          simpa using this.symm
      obtain ⟨t, r, h1, h2⟩ := hs ((a1 :: a2 :: a3 :: a4 :: rest).map StackItem.arg) (by simp)
      have hlen : r.length = rest.length + 3 := by
        have := congrArg List.length h1
        simp at this
        omega
      have key := stackRun_rolls r [t]
      rw [hlen] at key
      rw [h1]
      simp only [List.length_cons, reorderByArity, Bool.false_eq_true, if_false]
      rw [← h2]
      exact key

theorem reordering_reverses_witness :
    stackRun (reorderByArity false 5)
      [StackItem.arg 'e', .arg 'd', .arg 'c', .arg 'b', .arg 'a'] =
      some [StackItem.arg 'a', .arg 'b', .arg 'c', .arg 'd', .arg 'e'] ∧
    (emitReorder 5 sampleState).prog.written =
      [.int 1, .opcode .ROLL, .int 2, .opcode .ROLL, .int 3, .opcode .ROLL,
        .int 4, .opcode .ROLL] :=
  ⟨(reordering_reverses ['a', 'b', 'c', 'd', 'e'] (by decide) sampleState rfl).2,
    ((reordering_reverses ['a', 'b', 'c', 'd', 'e'] (by decide) sampleState rfl).1).trans
      (by decide)⟩

/-! ## Moves to and from the auxiliary stack -/

theorem AltQuiet_append (a b : List Emitted) (ha : AltQuiet a) (hb : AltQuiet b) :
    AltQuiet (a ++ b) := by
  induction ha with
  | nil => exact hb
  | emit e ws h1 h2 _ ih => exact AltQuiet.emit e _ h1 h2 ih
  | ret ws _ ih =>
    rw [List.append_assoc]
    exact AltQuiet.ret _ ih

theorem AltQuiet_count (ws : List Emitted) (h : AltQuiet ws) :
    ws.count (.opcode .TOALTSTACK) = 0 := by
  induction h with
  | nil => rfl
  | emit e ws h1 _ _ ih =>
    rw [List.count_cons_of_ne h1.symm]
    exact ih
  | ret ws _ ih =>
    simp only [returnSeq, List.cons_append, List.nil_append]
    rw [List.count_cons_of_ne (by simp), List.count_cons_of_ne (by simp),
      List.count_cons_of_ne (by simp)]
    exact ih

theorem Quiet_refl (c : codegen) : Quiet c c :=
  ⟨[], by simp, AltQuiet.nil⟩

theorem Quiet_trans {a b c : codegen} (h1 : Quiet a b) (h2 : Quiet b c) : Quiet a c := by
  obtain ⟨w1, e1, r1⟩ := h1
  obtain ⟨w2, e2, r2⟩ := h2
  exact ⟨w1 ++ w2, by rw [e2, e1, List.append_assoc], AltQuiet_append _ _ r1 r2⟩

theorem Quiet_of_eq {c c1 : codegen} (hw : c1.prog.written = c.prog.written)
    (_ : c1.l = c.l) : Quiet c c1 :=
  ⟨[], by simp [hw], AltQuiet.nil⟩

theorem Quiet_emit (e : Emitted) (c : codegen)
    (h : e ≠ .opcode .TOALTSTACK ∧ e ≠ .opcode .FROMALTSTACK) : Quiet c (emit e c) := by
  unfold emit
  split
  · exact Quiet_refl c
  · exact ⟨[e], rfl, AltQuiet.emit e [] h.1 h.2 AltQuiet.nil⟩

theorem Quiet_ret (c : codegen) :
    Quiet c (emitOpcode .RET (emitOpcode .DROP (emitOpcode .FROMALTSTACK c))) := by
  by_cases h : c.prog.Err.isSome = true
  · simp only [emitOpcode, emit_of_err _ _ h]
    exact Quiet_refl c
  · refine ⟨returnSeq, ?_, ?_⟩
    · simp [emitOpcode, emit, h, returnSeq]
    · have := AltQuiet.ret [] AltQuiet.nil
      simpa using this

theorem Quiet_setErr (e : String) (c : codegen) : Quiet c (setErr e c) :=
  Quiet_of_eq rfl rfl

theorem Quiet_newLabel (c : codegen) : Quiet c (newLabel c).2 :=
  ⟨[], by simp [newLabel], AltQuiet.nil⟩

theorem Quiet_setLabel {env : Env} {c c1 c2 : codegen} {l : Int} (h : Quiet c c1)
    (_ : (c.l.length : Int) ≤ l) (hs : setLabel env l c1 = some c2) : Quiet c c2 := by
  unfold setLabel at hs
  split at hs
  · cases hs
    exact h
  · cases hs

theorem Quiet_emitAll (es : List Emitted) (c : codegen)
    (h : ∀ e ∈ es, e ≠ .opcode .TOALTSTACK ∧ e ≠ .opcode .FROMALTSTACK) :
    Quiet c (emitAll es c) := by
  induction es generalizing c with
  | nil => exact Quiet_refl c
  | cons e es ih =>
    exact Quiet_trans (Quiet_emit e c (h e (List.mem_cons_self _ _)))
      (ih (emit e c) fun e1 h1 => h e1 (List.mem_cons_of_mem _ h1))

theorem emitLoadConst_quiet (t : TypeAndValue) : QuietOk (emitLoadConst t) := by
  intro c c1 h
  unfold emitLoadConst at h
  split at h
  · cases h
    exact Quiet_refl c
  · split at h
    · split at h
      all_goals first
        | (simp only [Option.map_eq_some'] at h
           obtain ⟨v, _, rfl⟩ := h
           exact Quiet_emit _ c (by simp))
        | (cases h
           exact Quiet_setErr _ c)
    · cases h
      exact Quiet_setErr _ c

theorem Quiet_emitLoadLocalPos (pos : Int) (c : codegen) : Quiet c (emitLoadLocalPos pos c) :=
  Quiet_emitAll [.opcode .DUPFROMALTSTACK, .int pos, .opcode .PICKITEM] c (by simp)

theorem emitLoadLocal_quiet (name : String) : QuietOk (emitLoadLocal name) := by
  intro c c1 h
  simp only [emitLoadLocal, Option.map_eq_some'] at h
  obtain ⟨pos, _, rfl⟩ := h
  split
  · exact Quiet_setErr _ c
  · exact Quiet_emitLoadLocalPos pos c

theorem Quiet_emitStoreLocal (pos : Int) (c : codegen) : Quiet c (emitStoreLocal pos c) := by
  unfold emitStoreLocal
  dsimp only
  split
  · exact Quiet_trans (Quiet_emit _ c (by simp)) (Quiet_setErr _ _)
  · exact Quiet_emitAll [.opcode .DUPFROMALTSTACK, .int pos, .int 2, .opcode .ROLL,
      .opcode .SETITEM] c (by simp)

theorem Quiet_emitLoadField (i : Int) (c : codegen) : Quiet c (emitLoadField i c) :=
  Quiet_emitAll [.int i, .opcode .PICKITEM] c (by simp)

theorem Quiet_emitStoreStructField (i : Int) (c : codegen) :
    Quiet c (emitStoreStructField i c) :=
  Quiet_emitAll [.int i, .opcode .ROT, .opcode .SETITEM] c (by simp)

theorem Quiet_convertToken (tok : Token) (c : codegen) : Quiet c (convertToken tok c) := by
  cases tok <;> first
    | exact Quiet_emit _ c (by simp)
    | exact Quiet_setErr _ c

theorem Quiet_convertSyscall (env : Env) (api name : String) (c : codegen) :
    Quiet c (convertSyscall env api name c) := by
  unfold convertSyscall
  split
  · exact Quiet_setErr _ c
  · exact Quiet_emitAll [.syscall _, .opcode .NOP] c (by simp)

theorem convertBuiltin_quiet (env : Env) (fn : Node) (args : List Node) (a0 : GoType) :
    QuietOk (convertBuiltin env fn args a0) := by
  intro c c1 h
  unfold convertBuiltin at h
  dsimp only at h
  repeat' split at h
  all_goals first
    | (cases h
       first
        | exact Quiet_refl c
        | exact Quiet_setErr _ c
        | exact Quiet_emit _ c (by simp)
        | exact Quiet_emitAll [.opcode .SWAP, .opcode .DUP, .opcode .PUSH2, .opcode .XSWAP,
            .opcode .APPEND] c (by simp))
    | cases h

theorem newLocal_quiet (name : String) (c c1 : codegen) (l : Int)
    (h : newLocal name c = some (l, c1)) : Quiet c c1 := by
  unfold newLocal at h
  split at h
  · cases h
    exact Quiet_of_eq rfl rfl
  · cases h

theorem Quiet_setSelector (name sel : String) (c : codegen) :
    Quiet c (setSelector name sel c) := by
  unfold setSelector
  split
  · exact Quiet_refl c
  · exact Quiet_of_eq rfl rfl

theorem Quiet_emitReorder (n : Nat) (c : codegen) : Quiet c (emitReorder n c) := by
  rw [emitReorder_eq]
  apply Quiet_emitAll
  intro e he
  unfold reorderByArity at he
  simp only [Bool.false_eq_true, if_false] at he
  split at he
  · simp at he
  · simp at he
  · simp at he
    simp [he]
  · simp at he
    rcases he with rfl | rfl <;> simp
  · simp only [List.mem_flatMap] at he
    obtain ⟨i, _, hi⟩ := he
    simp at hi
    rcases hi with rfl | rfl <;> simp

theorem walkAll_quiet (ws : List Walker) (h : ∀ w ∈ ws, QuietOk w) : QuietOk (walkAll ws) := by
  induction ws with
  | nil =>
    intro c c1 hc
    simp [walkAll] at hc
    subst hc
    exact Quiet_refl c
  | cons w ws ih =>
    intro c c1 hc
    simp only [walkAll, List.foldlM_cons, Option.bind_eq_bind, Option.bind_eq_some] at hc
    obtain ⟨c2, h2, h3⟩ := hc
    exact Quiet_trans (h w (List.mem_cons_self _ _) c c2 h2)
      (ih (fun w1 h1 => h w1 (List.mem_cons_of_mem _ h1)) c2 c1 h3)

theorem guardErr_quiet (k : Walker) (h : QuietOk k) : QuietOk (guardErr k) := by
  intro c c1 hc
  unfold guardErr at hc
  split at hc
  · cases hc
    exact Quiet_refl c
  · exact h c c1 hc

theorem get?_quiet (ws : List Walker) (h : ∀ w ∈ ws, QuietOk w) (j : Nat) (w : Walker)
    (hj : ws.get? j = some w) : QuietOk w :=
  h w (List.get?_mem hj)

theorem genDeclValues_quiet (names : List String) (ws : List Walker)
    (h : ∀ w ∈ ws, QuietOk w) : ∀ i, QuietOk (genDeclValues names i ws) := by
  induction ws with
  | nil =>
    intro i c c1 hc
    simp only [genDeclValues, Option.some.injEq] at hc
    subst hc
    exact Quiet_refl c
  | cons w ws ih =>
    intro i c c1 hc
    unfold genDeclValues at hc
    cases hw : w c with
    | none => simp [hw] at hc
    | some c2 =>
      simp only [hw] at hc
      cases hn : names.get? i with
      | none =>
        rw [hn] at hc
        cases hc
      | some name =>
        simp only [hn] at hc
        cases hl : newLocal name c2 with
        | none => simp [hl] at hc
        | some r =>
          obtain ⟨l, c3⟩ := r
          simp only [hl] at hc
          exact Quiet_trans (h w (List.mem_cons_self _ _) c c2 hw)
            (Quiet_trans (newLocal_quiet _ _ _ _ hl)
              (Quiet_trans (Quiet_emitStoreLocal l c3)
                (ih (fun w1 h1 => h w1 (List.mem_cons_of_mem _ h1)) (i + 1) _ c1 hc)))

theorem visitGenDecl_quiet (specs : List (List String × List Walker))
    (h : ∀ sp ∈ specs, ∀ w ∈ sp.2, QuietOk w) : QuietOk (visitGenDecl specs) := by
  induction specs with
  | nil =>
    intro c c1 hc
    simp [visitGenDecl] at hc
    subst hc
    exact Quiet_refl c
  | cons sp specs ih =>
    intro c c1 hc
    simp only [visitGenDecl, List.foldlM_cons, Option.bind_eq_bind, Option.bind_eq_some] at hc
    obtain ⟨c2, h2, h3⟩ := hc
    exact Quiet_trans (genDeclValues_quiet sp.1 sp.2 (h sp (List.mem_cons_self _ _)) 0 c c2 h2)
      (ih (fun sp1 h1 => h sp1 (List.mem_cons_of_mem _ h1)) c2 c1 h3)

theorem assignLoop_quiet (tok : Token) (multiRet : Bool) (rhs : List Walker)
    (h : ∀ w ∈ rhs, QuietOk w) (lhs : List Node) :
    ∀ i, QuietOk (assignLoop tok multiRet rhs lhs i) := by
  induction lhs with
  | nil =>
    intro i c c1 hc
    simp only [assignLoop, Option.some.injEq] at hc
    subst hc
    exact Quiet_refl c
  | cons t rest ih =>
    intro i c c1 hc
    cases t
    case Ident name typ =>
      simp only [assignLoop] at hc
      split at hc
      · simp only [Option.bind_eq_bind, Option.bind_eq_some, Option.pure_def] at hc
        obtain ⟨c2, h2, w, hw, c3, h3, l, _, hrest⟩ := hc
        exact Quiet_trans (emitLoadLocal_quiet _ _ _ h2)
          (Quiet_trans (get?_quiet rhs h _ _ hw _ _ h3)
            (Quiet_trans (Quiet_convertToken _ _)
              (Quiet_trans (Quiet_emitStoreLocal _ _) (ih _ _ _ hrest))))
      · by_cases hcond : (i == 0 || !multiRet) = true
        · simp only [hcond, if_true, Option.bind_eq_bind, Option.bind_eq_some,
            Option.pure_def] at hc
          obtain ⟨c2, ⟨w, hw, h3⟩, l, _, hrest⟩ := hc
          exact Quiet_trans (get?_quiet rhs h _ _ hw _ _ h3)
            (Quiet_trans (Quiet_emitStoreLocal _ _) (ih _ _ _ hrest))
        · simp only [hcond, Bool.false_eq_true, if_false, Option.bind_eq_bind,
            Option.bind_eq_some, Option.pure_def] at hc
          obtain ⟨c2, h2, l, _, hrest⟩ := hc
          cases h2
          exact Quiet_trans (Quiet_emitStoreLocal _ _) (ih _ _ _ hrest)
    case SelectorExpr x sel selection =>
      simp only [assignLoop] at hc
      split at hc
      · simp only [Option.bind_eq_bind, Option.bind_eq_some, Option.pure_def] at hc
        obtain ⟨w, hw, c2, h2, hrest⟩ := hc
        have hs := get?_quiet rhs h _ _ hw _ _ h2
        split at hrest
        · simp only [Option.bind_eq_bind, Option.bind_eq_some] at hrest
          obtain ⟨c3, h3, hrest⟩ := hrest
          exact Quiet_trans hs (Quiet_trans (emitLoadLocal_quiet _ _ _ h3)
            (Quiet_trans (Quiet_emitStoreStructField _ _) (ih _ _ _ hrest)))
        · exact Quiet_trans hs (ih _ _ _ hrest)
      · cases hc
        exact Quiet_setErr _ c
    case IndexExpr x index =>
      simp only [assignLoop, Option.bind_eq_bind, Option.bind_eq_some, Option.pure_def] at hc
      obtain ⟨w, hw, c2, h2, hrest⟩ := hc
      have hs := get?_quiet rhs h _ _ hw _ _ h2
      split at hrest
      · simp only [Option.bind_eq_bind, Option.bind_eq_some] at hrest
        obtain ⟨c3, h3, hrest⟩ := hrest
        have hs3 := Quiet_trans hs (emitLoadLocal_quiet _ _ _ h3)
        split at hrest
        · split at hrest
          · cases hrest
            exact Quiet_trans hs3 (Quiet_setErr _ _)
          · exact Quiet_trans hs3 (Quiet_trans (Quiet_emitStoreStructField _ _) (ih _ _ _ hrest))
        · simp only [Option.bind_eq_bind, Option.bind_eq_some] at hrest
          obtain ⟨c4, h4, hrest⟩ := hrest
          exact Quiet_trans hs3 (Quiet_trans (emitLoadLocal_quiet _ _ _ h4)
            (Quiet_trans (Quiet_emitAll [.opcode .ROT, .opcode .SETITEM] _ (by simp))
              (ih _ _ _ hrest)))
        · cases hrest
          exact Quiet_trans hs3 (Quiet_setErr _ _)
      · cases hrest
    all_goals
      simp only [assignLoop] at hc
      exact ih _ _ _ hc

theorem visitReturnStmt_quiet (env : Env) (results : List Walker)
    (h : ∀ w ∈ results, QuietOk w) : QuietOk (visitReturnStmt env results) := by
  intro c c1 hc
  unfold visitReturnStmt at hc
  cases hs : setLabel env (newLabel c).1 (newLabel c).2 with
  | none => simp [hs] at hc
  | some c2 =>
    simp only [hs] at hc
    have h2 : Quiet c c2 := Quiet_setLabel (Quiet_newLabel c) (by simp [newLabel_fst]) hs
    cases hw : walkAll results.reverse c2 with
    | none => simp [hw] at hc
    | some c3 =>
      simp only [hw, Option.some.injEq] at hc
      subst hc
      exact Quiet_trans h2 (Quiet_trans
        (walkAll_quiet _ (fun w hw1 => h w (List.mem_reverse.mp hw1)) _ _ hw) (Quiet_ret c3))

theorem visitIfStmt_quiet (env : Env) (cond : Option Walker) (body : Walker) (els : Option Walker)
    (hcnd : ∀ w, cond = some w → QuietOk w) (hb : QuietOk body)
    (he : ∀ w, els = some w → QuietOk w) : QuietOk (visitIfStmt env cond body els) := by
  intro c c1 hc
  unfold visitIfStmt at hc
  dsimp only at hc
  have l1 : (c.l.length : Int) ≤ (newLabel c).1 := by simp [newLabel_fst]
  have l2 : (c.l.length : Int) ≤ (newLabel (newLabel c).2).1 := by
    simp [newLabel_fst, newLabel_snd_length]
  have l3 : (c.l.length : Int) ≤ (newLabel (newLabel (newLabel c).2).2).1 := by
    simp only [newLabel_fst, newLabel_snd_length]
    omega
  have s0 : Quiet c (newLabel (newLabel (newLabel c).2).2).2 :=
    Quiet_trans (Quiet_newLabel c) (Quiet_trans (Quiet_newLabel _) (Quiet_newLabel _))
  have key : ∀ ca, Quiet c ca →
      (match setLabel env (newLabel c).1 ca with
        | none => none
        | some c2 =>
          match body c2 with
          | none => none
          | some c3 =>
            match (motive := Option Walker → Option codegen) els with
            | none =>
              (setLabel env (newLabel (newLabel c).2).1 c3).bind fun c4 =>
                setLabel env (newLabel (newLabel (newLabel c).2).2).1 c4
            | some e =>
              match setLabel env (newLabel (newLabel c).2).1
                (emitJmp .JMP (int16 (newLabel (newLabel (newLabel c).2).2).1) c3) with
              | none => none
              | some c4 =>
                (e c4).bind fun c5 =>
                  setLabel env (newLabel (newLabel (newLabel c).2).2).1 c5) = some c1 →
      Quiet c c1 := by
    intro ca hca hk
    cases hs : setLabel env (newLabel c).1 ca with
    | none => simp [hs] at hk
    | some c2 =>
      simp only [hs] at hk
      have h2 : Quiet c c2 := Quiet_setLabel hca l1 hs
      cases hbd : body c2 with
      | none => simp [hbd] at hk
      | some c3 =>
        simp only [hbd] at hk
        have h3 : Quiet c c3 := Quiet_trans h2 (hb _ _ hbd)
        cases els with
        | none =>
          simp only [Option.bind_eq_some] at hk
          obtain ⟨c4, h4, h5⟩ := hk
          exact Quiet_setLabel (Quiet_setLabel h3 l2 h4) l3 h5
        | some e =>
          simp only at hk
          cases hs4 : setLabel env (newLabel (newLabel c).2).1
            (emitJmp .JMP (int16 (newLabel (newLabel (newLabel c).2).2).1) c3) with
          | none => simp [hs4] at hk
          | some c4 =>
            simp only [hs4, Option.bind_eq_some] at hk
            obtain ⟨c5, h5, h6⟩ := hk
            have h4 : Quiet c c4 :=
              Quiet_setLabel (Quiet_trans h3 (Quiet_emit _ _ (by simp))) l2 hs4
            exact Quiet_setLabel (Quiet_trans h4 (he e rfl _ _ h5)) l3 h6
  cases cond with
  | none => exact key _ s0 hc
  | some cd =>
    simp only at hc
    cases hcd : cd (newLabel (newLabel (newLabel c).2).2).2 with
    | none => simp [hcd] at hc
    | some c2 =>
      simp only [hcd, Option.map_some'] at hc
      exact key _ (Quiet_trans s0 (Quiet_trans (hcnd cd rfl _ _ hcd) (Quiet_emit _ _ (by simp)))) hc

theorem visitIdent_quiet (env : Env) (name : String) (typ : GoType) :
    QuietOk (visitIdent env name typ) := by
  intro c c1 hc
  unfold visitIdent at hc
  split at hc
  · split at hc
    · cases hc
      exact Quiet_setErr _ c
    · exact emitLoadConst_quiet _ _ _ hc
  · exact emitLoadLocal_quiet _ _ _ hc

theorem convertByteArray_quiet (vs : List (Option ConstVal)) : QuietOk (convertByteArray vs) := by
  intro c c1 hc
  simp only [convertByteArray, Option.map_eq_some'] at hc
  obtain ⟨buf, _, rfl⟩ := hc
  exact Quiet_emit _ c (by simp)

theorem visitBinaryExpr_quiet (env : Env) (op : Token) (tinfo : TypeAndValue) (xType : GoType)
    (x y : Walker) (hx : QuietOk x) (hy : QuietOk y) :
    QuietOk (visitBinaryExpr env op tinfo xType x y) := by
  intro c c1 hc
  unfold visitBinaryExpr at hc
  split at hc
  · cases h1 : x c with
    | none => simp [h1] at hc
    | some c2 =>
      simp only [h1] at hc
      exact Quiet_trans (hx _ _ h1) (Quiet_trans (Quiet_emit _ _ (by simp)) (hy _ _ hc))
  · cases h1 : x c with
    | none => simp [h1] at hc
    | some c2 =>
      simp only [h1] at hc
      exact Quiet_trans (hx _ _ h1) (Quiet_trans (Quiet_emit _ _ (by simp)) (hy _ _ hc))
  · split at hc
    · exact emitLoadConst_quiet _ _ _ hc
    · cases h1 : x c with
      | none => simp [h1] at hc
      | some c2 =>
        simp only [h1] at hc
        cases h2 : y c2 with
        | none => simp [h2] at hc
        | some c3 =>
          simp only [h2] at hc
          have h3 : Quiet c c3 := Quiet_trans (hx _ _ h1) (hy _ _ h2)
          repeat' split at hc
          all_goals
            cases hc
            first
              | exact Quiet_trans h3 (Quiet_emit _ _ (by simp))
              | exact Quiet_trans h3 (Quiet_emitAll [.opcode .EQUAL, .opcode .NOT] _ (by simp))
              | exact Quiet_trans h3 (Quiet_convertToken _ _)

theorem visitSelectorExpr_quiet (x : Node) (sel : String) : QuietOk (visitSelectorExpr x sel) := by
  intro c c1 hc
  unfold visitSelectorExpr at hc
  split at hc
  · simp only [Option.map_eq_some'] at hc
    obtain ⟨c2, h2, rfl⟩ := hc
    exact Quiet_trans (emitLoadLocal_quiet _ _ _ h2) (Quiet_emitLoadField _ _)
  · cases hc
    exact Quiet_refl c
  · cases hc
    exact Quiet_setErr _ c

theorem visitUnaryExpr_quiet (op : Token) (x : Walker) (hx : QuietOk x) :
    QuietOk (visitUnaryExpr op x) := by
  intro c c1 hc
  unfold visitUnaryExpr at hc
  cases h1 : x c with
  | none => simp [h1] at hc
  | some c2 =>
    simp only [h1] at hc
    split at hc
    all_goals
      cases hc
      first
        | exact hx _ _ h1
        | exact Quiet_trans (hx _ _ h1) (Quiet_emit _ _ (by simp))
        | exact Quiet_trans (hx _ _ h1) (Quiet_setErr _ _)

theorem visitIncDecStmt_quiet (x : Node) (tok : Token) (xw : Walker) (hx : QuietOk xw) :
    QuietOk (visitIncDecStmt x tok xw) := by
  intro c c1 hc
  unfold visitIncDecStmt at hc
  cases h1 : xw c with
  | none => simp [h1] at hc
  | some c2 =>
    simp only [h1] at hc
    split at hc
    · simp only [Option.map_eq_some'] at hc
      obtain ⟨pos, _, rfl⟩ := hc
      exact Quiet_trans (hx _ _ h1) (Quiet_trans (Quiet_convertToken _ _)
        (Quiet_emitStoreLocal _ _))
    · cases hc
      exact Quiet_trans (hx _ _ h1) (Quiet_convertToken _ _)

theorem visitIndexExpr_quiet (index : Node) (xw iw : Walker) (hx : QuietOk xw)
    (hi : QuietOk iw) : QuietOk (visitIndexExpr index xw iw) := by
  intro c c1 hc
  unfold visitIndexExpr at hc
  cases h1 : xw c with
  | none => simp [h1] at hc
  | some c2 =>
    simp only [h1] at hc
    split at hc
    · simp only [Option.map_eq_some'] at hc
      obtain ⟨v, _, rfl⟩ := hc
      exact Quiet_trans (hx _ _ h1) (Quiet_emitLoadField _ _)
    · simp only [Option.map_eq_some'] at hc
      obtain ⟨c3, h3, rfl⟩ := hc
      exact Quiet_trans (hx _ _ h1) (Quiet_trans (hi _ _ h3) (Quiet_emit _ _ (by simp)))

theorem resolveCallee_quiet (env : Env) (fn : Node) (args : List Node) (recv : Walker)
    (hr : QuietOk recv) (c : codegen) (r : Callee)
    (h : resolveCallee env fn args recv c = some r) :
    (∀ c1, r = .failed c1 → Quiet c c1) ∧ (∀ c1, r = .converted c1 → Quiet c c1) ∧
    (∀ c1 n f, r = .resolved c1 n f → Quiet c c1) := by
  unfold resolveCallee at h
  split at h
  · split at h
    · cases h
      refine ⟨?_, ?_, ?_⟩
      · intro c1 h1
        cases h1
        exact Quiet_setErr _ c
      · intro c1 h1
        cases h1
      · intro c1 n f h1
        cases h1
    · cases h
      refine ⟨?_, ?_, ?_⟩
      · intro c1 h1
        cases h1
      · intro c1 h1
        cases h1
      · intro c1 n f h1
        cases h1
        exact Quiet_refl c
  · rename_i x sel selection
    cases h1 : (if selection = true then recv c else some c) with
    | none => simp [h1] at h
    | some c2 =>
      simp only [h1] at h
      have h2 : Quiet c c2 := by
        split at h1
        · exact hr _ _ h1
        · cases h1
          exact Quiet_refl c
      split at h
      · cases h
        refine ⟨?_, ?_, ?_⟩
        · intro c1 h1
          cases h1
        · intro c1 h1
          cases h1
        · intro c1 n f h1
          cases h1
          exact Quiet_trans h2 (Quiet_setSelector _ _ _)
      · cases h
  · split at h
    · simp only [Option.map_eq_some'] at h
      obtain ⟨c2, h2, rfl⟩ := h
      refine ⟨?_, ?_, ?_⟩
      · intro c1 h1
        cases h1
      · intro c1 h1
        cases h1
        exact emitLoadConst_quiet _ _ _ h2
      · intro c1 n f h1
        cases h1
    · cases h
  · cases h
    refine ⟨?_, ?_, ?_⟩
    · intro c1 h1
      cases h1
    · intro c1 h1
      cases h1
    · intro c1 n f h1
      cases h1
      exact Quiet_refl c

theorem callTarget_quiet (env : Env) (fn : Node) (args : List Node) (a0 : GoType)
    (f : Option String) : QuietOk (callTarget env fn args a0 f) := by
  intro c c1 hc
  unfold callTarget at hc
  split at hc
  · exact convertBuiltin_quiet env fn args a0 _ _ hc
  · repeat' split at hc
    all_goals first
      | (cases hc
         first
          | exact Quiet_convertSyscall _ _ _ _
          | exact Quiet_emit _ _ (by simp))
      | cases hc

theorem callArgs_quiet (env : Env) (fn : Node) (args : List Node) (ws : List Walker)
    (a0 : GoType) (n : Nat) (f : Option String) (h : ∀ w ∈ ws, QuietOk w) :
    QuietOk (callArgs env fn args ws a0 n f) := by
  intro c c1 hc
  unfold callArgs at hc
  cases hw : walkAll ws c with
  | none => simp [hw] at hc
  | some c2 =>
    simp only [hw] at hc
    have h2 := walkAll_quiet ws h _ _ hw
    have h3 := callTarget_quiet env fn args a0 f _ _ hc
    refine Quiet_trans h2 (Quiet_trans ?_ h3)
    split
    · exact Quiet_refl c2
    · exact Quiet_emitReorder _ _

theorem visitCallExpr_quiet (env : Env) (fn : Node) (args : List Node) (a0 : GoType)
    (recv : Walker) (ws : List Walker) (hr : QuietOk recv) (h : ∀ w ∈ ws, QuietOk w) :
    QuietOk (visitCallExpr env fn args a0 recv ws) := by
  intro c c1 hc
  unfold visitCallExpr at hc
  cases hrc : resolveCallee env fn args recv c with
  | none => simp [hrc] at hc
  | some r =>
    obtain ⟨h1, h2, h3⟩ := resolveCallee_quiet env fn args recv hr c r hrc
    cases r with
    | failed c2 =>
      simp only [hrc, Option.some.injEq] at hc
      subst hc
      exact h1 _ rfl
    | converted c2 =>
      simp only [hrc, Option.some.injEq] at hc
      subst hc
      exact h2 _ rfl
    | resolved c2 n f =>
      simp only [hrc] at hc
      exact Quiet_trans (h3 _ _ _ rfl) (callArgs_quiet env fn args ws a0 n f h _ _ hc)

theorem visitForStmt_quiet (env : Env) (init cond post : Option Walker) (body : Walker)
    (hi : ∀ w, init = some w → QuietOk w) (hcd : ∀ w, cond = some w → QuietOk w)
    (hp : ∀ w, post = some w → QuietOk w) (hb : QuietOk body) :
    QuietOk (visitForStmt env init cond post body) := by
  intro c c1 hc
  unfold visitForStmt at hc
  dsimp only at hc
  have l1 : (c.l.length : Int) ≤ (newLabel c).1 := by simp [newLabel_fst]
  have l2 : (c.l.length : Int) ≤ (newLabel (newLabel c).2).1 := by
    simp [newLabel_fst, newLabel_snd_length]
  have s0 : Quiet c (newLabel (newLabel c).2).2 :=
    Quiet_trans (Quiet_newLabel c) (Quiet_newLabel _)
  cases hai : (match (motive := Option Walker → Option codegen) init with
      | none => some (newLabel (newLabel c).2).2
      | some i => i (newLabel (newLabel c).2).2) with
  | none => simp [hai] at hc
  | some ca =>
    simp only [hai] at hc
    have h1 : Quiet c ca := by
      cases init with
      | none =>
        cases hai
        exact s0
      | some i => exact Quiet_trans s0 (hi i rfl _ _ hai)
    cases hs : setLabel env (newLabel c).1 ca with
    | none => simp [hs] at hc
    | some c2 =>
      simp only [hs] at hc
      have h2 : Quiet c c2 := Quiet_setLabel h1 l1 hs
      cases hac : (match (motive := Option Walker → Option codegen) cond with
          | none => if c2.prog.Err.isSome = true then some c2 else none
          | some cd => cd c2) with
      | none => simp [hac] at hc
      | some c3 =>
        simp only [hac] at hc
        have h3 : Quiet c c3 := by
          cases cond with
          | none =>
            simp only at hac
            split at hac
            · cases hac
              exact h2
            · cases hac
          | some cd => exact Quiet_trans h2 (hcd cd rfl _ _ hac)
        cases hbd : body (emitJmp .JMPIFNOT (int16 (newLabel (newLabel c).2).1) c3) with
        | none => simp [hbd] at hc
        | some c4 =>
          simp only [hbd] at hc
          have h4 : Quiet c c4 :=
            Quiet_trans h3 (Quiet_trans (Quiet_emit _ _ (by simp)) (hb _ _ hbd))
          cases hap : (match (motive := Option Walker → Option codegen) post with
              | none => some c4
              | some p => p c4) with
          | none => simp [hap] at hc
          | some c5 =>
            simp only [hap] at hc
            have h5 : Quiet c c5 := by
              cases post with
              | none =>
                cases hap
                exact h4
              | some p => exact Quiet_trans h4 (hp p rfl _ _ hap)
            exact Quiet_setLabel (Quiet_trans h5 (Quiet_emit _ _ (by simp))) l2 hc


theorem visitCompositeLit_quiet (env : Env) (objType : Option GoType) (litType : GoType)
    (byteArray : Bool) (eltValues : List (Option ConstVal)) (elts : List Walker)
    (structElts : List (Option (String × Walker)))
    (h1 : ∀ w ∈ elts, QuietOk w) (hobj : ∀ fs, objType ≠ some (.struct fs)) :
    QuietOk (visitCompositeLit env objType litType byteArray eltValues elts structElts) := by
  intro c c1 hc
  unfold visitCompositeLit at hc
  split at hc
  · split at hc
    · exact convertByteArray_quiet _ _ _ hc
    · simp only [Option.map_eq_some'] at hc
      obtain ⟨c2, hw, rfl⟩ := hc
      exact Quiet_trans (walkAll_quiet _ (fun w hw1 => h1 w (List.mem_reverse.mp hw1)) _ _ hw)
        (Quiet_emitAll [.int _, .opcode .PACK] c2 (by simp))
  · rename_i fs
    exact absurd rfl (hobj fs)
  · cases hc
    exact Quiet_refl c

theorem some_quiet : QuietOk fun c => some c := by
  intro c c1 h
  cases h
  exact Quiet_refl c

theorem bind_quiet (v w : Walker) (hv : QuietOk v) (hw : QuietOk w) :
    QuietOk fun c => (v c).bind fun c1 => w c1 := by
  intro c c1 h
  simp only [Option.bind_eq_some] at h
  obtain ⟨c2, h2, h3⟩ := h
  exact Quiet_trans (hv _ _ h2) (hw _ _ h3)

theorem VisitList_quiet (env : Env) (ns : List Node) (h : ∀ n ∈ ns, NodeQuiet env n) :
    ∀ w ∈ VisitList env ns, QuietOk w := by
  intro w hw
  rw [VisitList_eq_map, List.mem_map] at hw
  obtain ⟨n, hn, rfl⟩ := hw
  exact (h n hn).1

theorem VisitSpecs_quiet (env : Env) (specs : List (List String × List Node))
    (h : ∀ sp ∈ specs, ∀ n ∈ sp.2, NodeQuiet env n) :
    ∀ sp ∈ VisitSpecs env specs, ∀ w ∈ sp.2, QuietOk w := by
  intro sp hsp
  rw [VisitSpecs_eq_map, List.mem_map] at hsp
  obtain ⟨sp0, h0, rfl⟩ := hsp
  exact VisitList_quiet env sp0.2 (h sp0 h0)

theorem VisitOpt_quiet (env : Env) (o : Option Node) (h : ∀ n, o = some n → NodeQuiet env n) :
    ∀ w, VisitOpt env o = some w → QuietOk w := by
  intro w hw
  cases o with
  | none => cases hw
  | some n =>
    cases hw
    exact (h n rfl).1

mutual

/-- Every walk of a node without struct literal emits no TOALTSTACK, and emits
FROMALTSTACK only at the head of a return sequence. -/
theorem Visit_quiet (env : Env) : ∀ n : Node, noStructLit n = true → NodeQuiet env n
  | .GenDecl specs, h =>
    ⟨guardErr_quiet _ (visitGenDecl_quiet _
      (VisitSpecs_quiet env specs (VisitSpecs_quietAll env specs h))), some_quiet⟩
  | .AssignStmt lhs _ rhs, h => by
    have h1 : (noStructLitList lhs && noStructLitList rhs) = true := h
    simp only [Bool.and_eq_true] at h1
    exact ⟨guardErr_quiet _ (assignLoop_quiet _ _ _
      (VisitList_quiet env rhs (VisitAll_quiet env rhs h1.2)) lhs 0), some_quiet⟩
  | .ReturnStmt results, h =>
    ⟨guardErr_quiet _ (visitReturnStmt_quiet env _
      (VisitList_quiet env results (VisitAll_quiet env results h))), some_quiet⟩
  | .IfStmt cond body els, h => by
    have h1 : (noStructLitOpt cond && noStructLit body && noStructLitOpt els) = true := h
    simp only [Bool.and_eq_true] at h1
    exact ⟨guardErr_quiet _ (visitIfStmt_quiet env _ _ _
      (VisitOpt_quiet env cond (VisitOpt_quietAll env cond h1.1.1))
      (Visit_quiet env body h1.1.2).1
      (VisitOpt_quiet env els (VisitOpt_quietAll env els h1.2))), some_quiet⟩
  | .BasicLit _ tinfo, _ => ⟨guardErr_quiet _ (emitLoadConst_quiet tinfo), some_quiet⟩
  | .Ident name typ, _ => ⟨guardErr_quiet _ (visitIdent_quiet env name typ), some_quiet⟩
  | .CompositeLit objType litType byteArray eltValues elts, h => by
    have h0 : ((match (motive := Option GoType → Bool) objType with
      | some (.struct _) => false
      | _ => true) && noStructLitList elts) = true := h
    have h1 := (Bool.and_eq_true _ _).mp h0
    have hobj : ∀ fs, objType ≠ some (.struct fs) := by
      intro fs hfs
      have h2 := h1.1
      rw [hfs] at h2
      simp at h2
    exact ⟨guardErr_quiet _ (visitCompositeLit_quiet env objType litType byteArray eltValues
      _ _ (VisitList_quiet env elts (VisitAll_quiet env elts h1.2)) hobj), some_quiet⟩
  | .KeyValueExpr key value, h => by
    have h1 : (noStructLit key && noStructLit value) = true := h
    simp only [Bool.and_eq_true] at h1
    exact ⟨guardErr_quiet _ (bind_quiet _ _ (Visit_quiet env key h1.1).1
      (Visit_quiet env value h1.2).1), some_quiet⟩
  | .BinaryExpr x op y tinfo xType, h => by
    have h1 : (noStructLit x && noStructLit y) = true := h
    simp only [Bool.and_eq_true] at h1
    exact ⟨guardErr_quiet _ (visitBinaryExpr_quiet env op tinfo xType _ _
      (Visit_quiet env x h1.1).1 (Visit_quiet env y h1.2).1), some_quiet⟩
  | .CallExpr fn args a0, h => by
    have h1 : (noStructLit fn && noStructLitList args) = true := h
    simp only [Bool.and_eq_true] at h1
    exact ⟨fun c c1 hc => guardErr_quiet _ (visitCallExpr_quiet env fn args a0 _ _
      (Visit_quiet env fn h1.1).2 (VisitList_quiet env args (VisitAll_quiet env args h1.2)))
      c c1 ((Visit_CallExpr env fn args a0 c).symm.trans hc), some_quiet⟩
  | .SelectorExpr x sel _, h =>
    ⟨guardErr_quiet _ (visitSelectorExpr_quiet x sel), (Visit_quiet env x h).1⟩
  | .ArrayType len elt, h => by
    have h1 : (noStructLitOpt len && noStructLit elt) = true := h
    simp only [Bool.and_eq_true] at h1
    exact ⟨guardErr_quiet _ (match len, h1.1 with
      | none, _ => (Visit_quiet env elt h1.2).1
      | some n, hn => bind_quiet _ _ (Visit_quiet env n hn).1 (Visit_quiet env elt h1.2).1),
      some_quiet⟩
  | .UnaryExpr op x, h =>
    ⟨guardErr_quiet _ (visitUnaryExpr_quiet op _ (Visit_quiet env x h).1), some_quiet⟩
  | .IncDecStmt x tok, h =>
    ⟨guardErr_quiet _ (visitIncDecStmt_quiet x tok _ (Visit_quiet env x h).1), some_quiet⟩
  | .IndexExpr x index, h => by
    have h1 : (noStructLit x && noStructLit index) = true := h
    simp only [Bool.and_eq_true] at h1
    exact ⟨guardErr_quiet _ (visitIndexExpr_quiet index _ _ (Visit_quiet env x h1.1).1
      (Visit_quiet env index h1.2).1), some_quiet⟩
  | .ForStmt init cond post body, h => by
    have h1 : (noStructLitOpt init && noStructLitOpt cond && noStructLitOpt post &&
      noStructLit body) = true := h
    simp only [Bool.and_eq_true] at h1
    exact ⟨guardErr_quiet _ (visitForStmt_quiet env _ _ _ _
      (VisitOpt_quiet env init (VisitOpt_quietAll env init h1.1.1.1))
      (VisitOpt_quiet env cond (VisitOpt_quietAll env cond h1.1.1.2))
      (VisitOpt_quiet env post (VisitOpt_quietAll env post h1.1.2))
      (Visit_quiet env body h1.2).1), some_quiet⟩
  | .TypeAssertExpr x, h => ⟨guardErr_quiet _ (Visit_quiet env x h).1, some_quiet⟩
  | .other children, h =>
    ⟨guardErr_quiet _ (walkAll_quiet _
      (VisitList_quiet env children (VisitAll_quiet env children h))), some_quiet⟩

theorem VisitOpt_quietAll (env : Env) :
    ∀ o : Option Node, noStructLitOpt o = true → ∀ n, o = some n → NodeQuiet env n
  | none, _ => fun _ h => nomatch h
  | some n, hn => fun _ h => Option.some.inj h ▸ Visit_quiet env n hn

theorem VisitAll_quiet (env : Env) :
    ∀ ns : List Node, noStructLitList ns = true → ∀ n ∈ ns, NodeQuiet env n
  | [], _ => fun _ h => nomatch h
  | n :: ns, hns => fun m h =>
    have h1 : (noStructLit n && noStructLitList ns) = true := hns
    (List.mem_cons.mp h).elim
      (fun e => e ▸ Visit_quiet env n ((Bool.and_eq_true _ _).mp h1).1)
      (fun h2 => VisitAll_quiet env ns ((Bool.and_eq_true _ _).mp h1).2 m h2)

theorem VisitSpecs_quietAll (env : Env) :
    ∀ specs : List (List String × List Node), noStructLitSpecs specs = true →
      ∀ sp ∈ specs, ∀ n ∈ sp.2, NodeQuiet env n
  | [], _ => fun _ h => nomatch h
  | (names, values) :: rest, hs => fun sp h =>
    have h1 : (noStructLitList values && noStructLitSpecs rest) = true := hs
    (List.mem_cons.mp h).elim
      (fun (e : sp = (names, values)) =>
        e ▸ VisitAll_quiet env values ((Bool.and_eq_true _ _).mp h1).1)
      (fun h2 => VisitSpecs_quietAll env rest ((Bool.and_eq_true _ _).mp h1).2 sp h2)

end

theorem storeReceivers_quiet (l : List RecvField) :
    ∀ c c1 b, storeReceivers l c = some (b, c1) → Quiet c c1 := by
  induction l with
  | nil =>
    intro c c1 b h
    simp only [storeReceivers, Option.some.injEq, Prod.mk.injEq] at h
    rw [← h.2]
    exact Quiet_refl c
  | cons arg rest ih =>
    intro c c1 b h
    unfold storeReceivers at h
    split at h
    · cases h
    · split at h
      · split at h
        · cases h
        · rename_i hl
          exact Quiet_trans (newLocal_quiet _ _ _ _ hl)
            (Quiet_trans (Quiet_emitStoreLocal _ _) (ih _ _ _ h))
      · cases h
        exact Quiet_setErr _ c

theorem storeParams_quiet (ps : List (List String)) : QuietOk (storeParams ps) := by
  induction ps with
  | nil =>
    intro c c1 h
    simp only [storeParams, Option.some.injEq] at h
    subst h
    exact Quiet_refl c
  | cons names rest ih =>
    intro c c1 h
    unfold storeParams at h
    split at h
    · cases h
    · split at h
      · cases h
      · rename_i hl
        exact Quiet_trans (newLocal_quiet _ _ _ _ hl)
          (Quiet_trans (Quiet_emitStoreLocal _ _) (ih _ _ h))

theorem convertGlobals_quiet (env : Env) (f : File) (h : noStructLitList f.globals = true) :
    QuietOk (convertGlobals env f) :=
  walkAll_quiet _ (VisitList_quiet env f.globals (VisitAll_quiet env f.globals h))

theorem convertFuncBody_quiet (env : Env) (an : Analysis) (file : File) (decl : FuncDecl)
    (c c1 : codegen) (hok : c.prog.Err = none) (hbody : noStructLit decl.Body = true)
    (hglob : noStructLitList file.globals = true)
    (h : convertFuncBody env an file decl c = some c1) :
    ∃ rest, c1.prog.written = c.prog.written ++
        (frameCode (an.stackSize decl.Name + file.countGlobals) ++ rest) ∧
      AltQuiet rest := by
  unfold convertFuncBody at h
  dsimp only at h
  have hfr : ∀ c2, Quiet (emitOpcode .TOALTSTACK (emitOpcode .NEWARRAY
      (emitInt (an.stackSize decl.Name + file.countGlobals)
        { c with scope := some decl.Name }))) c2 →
      ∃ rest, c2.prog.written = c.prog.written ++
        (frameCode (an.stackSize decl.Name + file.countGlobals) ++ rest) ∧
      AltQuiet rest := by
    intro c2 h2
    obtain ⟨ws, e, r⟩ := h2
    refine ⟨ws, ?_, r⟩
    rw [e]
    simp [emitOpcode, emitInt, emit, hok, frameCode]
  apply hfr
  cases hr : (match (motive := Option (List RecvField) → Option (Bool × codegen))
      decl.Recv with
    | none => some (false, emitOpcode .TOALTSTACK (emitOpcode .NEWARRAY
        (emitInt (an.stackSize decl.Name + file.countGlobals)
          { c with scope := some decl.Name })))
    | some l => storeReceivers l (emitOpcode .TOALTSTACK (emitOpcode .NEWARRAY
        (emitInt (an.stackSize decl.Name + file.countGlobals)
          { c with scope := some decl.Name })))) with
  | none => simp [hr] at h
  | some r =>
    obtain ⟨b, c3⟩ := r
    have h3 : Quiet (emitOpcode .TOALTSTACK (emitOpcode .NEWARRAY
        (emitInt (an.stackSize decl.Name + file.countGlobals)
          { c with scope := some decl.Name }))) c3 := by
      cases hrecv : decl.Recv with
      | none =>
        simp only [hrecv, Option.some.injEq, Prod.mk.injEq] at hr
        rw [← hr.2]
        exact Quiet_refl _
      | some l =>
        simp only [hrecv] at hr
        exact storeReceivers_quiet l _ _ _ hr
    cases b with
    | true =>
      simp only [hr, Option.some.injEq] at h
      subst h
      exact h3
    | false =>
      simp only [hr] at h
      cases hp : storeParams decl.Params c3 with
      | none => simp [hp] at h
      | some c4 =>
        simp only [hp] at h
        have h4 := Quiet_trans h3 (storeParams_quiet _ _ _ hp)
        cases hsys : isSyscall env (c4.funcs.lookup decl.Name) with
        | none => simp [hsys] at h
        | some sys =>
          simp only [hsys] at h
          cases hg : (if sys = true then some c4 else convertGlobals env file c4) with
          | none => simp [hg] at h
          | some c5 =>
            simp only [hg] at h
            have h5 : Quiet c4 c5 := by
              split at hg
              · cases hg
                exact Quiet_refl _
              · exact convertGlobals_quiet env file hglob _ _ hg
            cases hv : Visit env decl.Body c5 with
            | none => simp [hv] at h
            | some c6 =>
              simp only [hv] at h
              have h6 := Quiet_trans h4
                (Quiet_trans h5 ((Visit_quiet env decl.Body hbody).1 _ _ hv))
              split at h
              · cases h
                exact h6
              · cases h
                exact Quiet_trans h6 (Quiet_ret c6)

/-- C26, as stated, fails: in the code of `func Main() { if x < y { return }; x++ }` the
load of `x` in `x++`, at index 14, follows the FROMALTSTACK of the return statement, so
the TOALTSTACK emitted before it (one) do not exceed the FROMALTSTACK emitted before it
(one). -/
theorem load_after_return_balance_zero :
    (convertFuncDecl sampleEnv (sampleAnalysis [] fun _ => 2) emptyFile sampleEarlyReturn
      sampleState).map (fun c => c.prog.written) =
      some [.int 2, .opcode .NEWARRAY, .opcode .TOALTSTACK,
        .opcode .DUPFROMALTSTACK, .int 0, .opcode .PICKITEM,
        .opcode .DUPFROMALTSTACK, .int 1, .opcode .PICKITEM, .opcode .LT,
        .jmp .JMPIFNOT 4,
        .opcode .FROMALTSTACK, .opcode .DROP, .opcode .RET,
        .opcode .DUPFROMALTSTACK, .int 0, .opcode .PICKITEM, .opcode .INC,
        .opcode .DUPFROMALTSTACK, .int 0, .int 2, .opcode .ROLL, .opcode .SETITEM] ∧
    (convertFuncDecl sampleEnv (sampleAnalysis [] fun _ => 2) emptyFile sampleEarlyReturn
      sampleState).map (fun c => (isLoadAt c.prog.written 14,
        altBalance (c.prog.written.take 14))) = some (true, 0) := by
  decide

/-- C26, the struct literal. In the code of `func Main() { var z = T{B: x} }` the load of `x`,
at index 13, follows the TOALTSTACK of the frame and the TOALTSTACK of the new struct: two
arrays are on the auxiliary stack, and the struct is the one on top. -/
theorem struct_literal_value_loads_from_struct :
    (convertFuncDecl sampleEnv (sampleAnalysis [] fun _ => 3) emptyFile sampleStructDecl
      sampleState).map (fun c => c.prog.written.take 18) =
      some [.int 3, .opcode .NEWARRAY, .opcode .TOALTSTACK,
        .opcode .NOP, .int 2, .opcode .NEWSTRUCT, .opcode .TOALTSTACK,
        .int 0,
        .opcode .DUPFROMALTSTACK, .int 0, .int 2, .opcode .ROLL, .opcode .SETITEM,
        .opcode .DUPFROMALTSTACK, .int 0, .opcode .PICKITEM,
        .opcode .DUPFROMALTSTACK, .int 1] ∧
    (convertFuncDecl sampleEnv (sampleAnalysis [] fun _ => 3) emptyFile sampleStructDecl
      sampleState).map (fun c => (isLoadAt c.prog.written 13,
        altBalance (c.prog.written.take 13))) = some (true, 2) := by
  decide

/-- C26, amended. In the code that `convertFuncDecl` emits for a function whose body and
global declarations hold no struct literal, started without error, the frame
push(stackSize + number of globals), NEWARRAY, TOALTSTACK is followed by code without
TOALTSTACK in which every FROMALTSTACK is the head of a return sequence FROMALTSTACK, DROP,
RET: at every place after the frame, and so at every load of a local variable, exactly
one TOALTSTACK has been emitted since function entry.  Nothing is emitted only for a
function that is registered as a syscall. -/
theorem locals_array_on_top (env : Env) (an : Analysis) (file : File) (decl : FuncDecl)
    (c c1 : codegen) (hok : c.prog.Err = none) (hbody : noStructLit decl.Body = true)
    (hglob : noStructLitList file.globals = true)
    (h : convertFuncDecl env an file decl c = some c1) :
    (c1 = c ∧ isSyscall env (c.funcs.lookup decl.Name) = some true) ∨
    ∃ rest, c1.prog.written = c.prog.written ++
        (frameCode (an.stackSize decl.Name + file.countGlobals) ++ rest) ∧
      AltQuiet rest ∧
      ∀ i, 3 ≤ i →
        ((frameCode (an.stackSize decl.Name + file.countGlobals) ++ rest).take i).count
          (.opcode .TOALTSTACK) = 1 := by
  have hcount : ∀ rest, AltQuiet rest → ∀ i, 3 ≤ i →
      ((frameCode (an.stackSize decl.Name + file.countGlobals) ++ rest).take i).count
        (.opcode .TOALTSTACK) = 1 := by
    intro rest hq i hi
    obtain ⟨j, rfl⟩ : ∃ j, i = (frameCode (an.stackSize decl.Name +
        file.countGlobals)).length + j := ⟨i - 3, by simp [frameCode]; omega⟩
    have h0 : (rest.take j).count (.opcode .TOALTSTACK) = 0 :=
      Nat.le_zero.mp (by
        rw [← AltQuiet_count rest hq]
        exact (List.take_sublist j rest).count_le _)
    rw [List.take_append, List.count_append, h0]
    simp [frameCode, List.count_cons]
  have hdone : ∀ c2, c2.prog = c.prog → convertFuncBody env an file decl c2 = some c1 →
      ∃ rest, c1.prog.written = c.prog.written ++
        (frameCode (an.stackSize decl.Name + file.countGlobals) ++ rest) ∧
      AltQuiet rest ∧
      ∀ i, 3 ≤ i →
        ((frameCode (an.stackSize decl.Name + file.countGlobals) ++ rest).take i).count
          (.opcode .TOALTSTACK) = 1 := by
    intro c2 hp h2
    obtain ⟨rest, e, q⟩ := convertFuncBody_quiet env an file decl c2 c1
      (by rw [hp]; exact hok) hbody hglob h2
    rw [hp] at e
    exact ⟨rest, e, q, hcount rest q⟩
  unfold convertFuncDecl at h
  cases hl : c.funcs.lookup decl.Name with
  | none =>
    simp only [hl] at h
    exact Or.inr (hdone (newFunc decl c) rfl h)
  | some f =>
    simp only [hl] at h
    cases hs : isSyscall env (some f) with
    | none => simp [hs] at h
    | some sys =>
      cases sys with
      | true =>
        simp only [hs, Option.some.injEq] at h
        exact Or.inl ⟨h.symm, rfl⟩
      | false =>
        simp only [hs] at h
        cases hsl : setLabel env f.label c with
        | none => simp [hsl] at h
        | some c2 =>
          simp only [hsl] at h
          have hp : c2.prog = c.prog := by
            unfold setLabel at hsl
            split at hsl
            · cases hsl
              rfl
            · cases hsl
          exact Or.inr (hdone c2 hp h)

theorem locals_array_on_top_witness :
    ∃ rest, ((convertFuncDecl sampleEnv (sampleAnalysis [] fun _ => 2) emptyFile
        sampleEarlyReturn sampleState).getD sampleState).prog.written =
        sampleState.prog.written ++ (frameCode (2 + 0) ++ rest) ∧
      AltQuiet rest ∧
      ((frameCode (2 + 0) ++ rest).take 14).count (.opcode .TOALTSTACK) = 1 :=
  (locals_array_on_top sampleEnv (sampleAnalysis [] fun _ => 2) emptyFile sampleEarlyReturn
    sampleState
    ((convertFuncDecl sampleEnv (sampleAnalysis [] fun _ => 2) emptyFile sampleEarlyReturn
      sampleState).getD sampleState) rfl (by decide) (by decide) (by decide)).elim
    (fun h => absurd h.2 (by decide))
    (fun ⟨rest, h1, h2, h3⟩ => ⟨rest, h1, h2, h3 14 (by decide)⟩)

end Compiler

/-! ## The binary reader -/

namespace BinIo

theorem binaryRead_of_le (n : Nat) (s : List Byte) (h : n ≤ s.length) :
    binaryRead n s = (some (littleEndian (s.take n)), s.drop n, none) := by
  simp [binaryRead, h]

theorem binaryRead_of_lt (n : Nat) (s : List Byte) (h : s.length < n) :
    (binaryRead n s).1 = none ∧ (binaryRead n s).2.1 = [] ∧
      (binaryRead n s).2.2.isSome = true := by
  have h1 : ¬ n ≤ s.length := by omega
  unfold binaryRead
  rw [if_neg h1]
  split <;> simp

/-- C21. For a reader with no error set over a byte stream: when the first byte `b` is
below 0xfd `ReadVarUint` returns `b` and consumes 1 byte; when it is 0xfd, 0xfe or 0xff and
2, 4 or 8 bytes follow, it returns them read as a little-endian unsigned integer and
consumes 3, 5 or 9 bytes; when the stream is empty, or ends before those bytes, it sets the
error of the reader; and with the error already set it returns 0 and leaves the reader as
it is. -/
theorem ReadVarUint_decoding (s : List Byte) (b : Byte) (e : String) :
    (b.val < 0xfd → BinReader.ReadVarUint ⟨b :: s, none⟩ = (b.val, ⟨s, none⟩)) ∧
    (∀ n, (b.val = 0xfd ∧ n = 2) ∨ (b.val = 0xfe ∧ n = 4) ∨ (b.val = 0xff ∧ n = 8) →
      (n ≤ s.length →
        BinReader.ReadVarUint ⟨b :: s, none⟩ =
          (littleEndian (s.take n), ⟨s.drop n, none⟩)) ∧
      (s.length < n → (BinReader.ReadVarUint ⟨b :: s, none⟩).2.Err.isSome = true)) ∧
    (BinReader.ReadVarUint ⟨[], none⟩).2.Err.isSome = true ∧
    BinReader.ReadVarUint ⟨s, some e⟩ = (0, ⟨s, some e⟩) := by
  have hfirst : binaryRead 1 (b :: s) = (some b.val, s, none) := by
    simp [binaryRead, littleEndian]
  refine ⟨?_, ?_, by decide, rfl⟩
  · intro hb
    have h1 : b.val ≠ 0xfd := by omega
    have h2 : b.val ≠ 0xfe := by omega
    have h3 : b.val ≠ 0xff := by omega
    simp [BinReader.ReadVarUint, hfirst, h1, h2, h3]
  · intro n hn
    rcases hn with ⟨hb, rfl⟩ | ⟨hb, rfl⟩ | ⟨hb, rfl⟩
    · constructor
      · intro hlen
        simp [BinReader.ReadVarUint, hfirst, hb, binaryRead_of_le 2 s hlen]
      · intro hlen
        simp [BinReader.ReadVarUint, hfirst, hb, (binaryRead_of_lt 2 s hlen).2.2]
    · constructor
      · intro hlen
        simp [BinReader.ReadVarUint, hfirst, hb, binaryRead_of_le 4 s hlen]
      · intro hlen
        simp [BinReader.ReadVarUint, hfirst, hb, (binaryRead_of_lt 4 s hlen).2.2]
    · constructor
      · intro hlen
        simp [BinReader.ReadVarUint, hfirst, hb, binaryRead_of_le 8 s hlen]
      · intro hlen
        simp [BinReader.ReadVarUint, hfirst, hb, (binaryRead_of_lt 8 s hlen).2.2]

theorem ReadVarUint_decoding_witness :
    BinReader.ReadVarUint ⟨[0x2a, 0x01], none⟩ = (0x2a, ⟨[0x01], none⟩) ∧
    BinReader.ReadVarUint ⟨[0xfd, 0x34, 0x12, 0x07], none⟩ =
      (littleEndian [0x34, 0x12], ⟨[0x07], none⟩) ∧
    littleEndian [0x34, 0x12] = 0x1234 ∧
    (BinReader.ReadVarUint ⟨[0xfe, 0x01, 0x02], none⟩).2.Err.isSome = true :=
  ⟨(ReadVarUint_decoding [0x01] 0x2a "").1 (by decide),
    ((ReadVarUint_decoding [0x34, 0x12, 0x07] 0xfd "").2.1 2 (Or.inl ⟨rfl, rfl⟩)).1 (by decide),
    by decide,
    ((ReadVarUint_decoding [0x01, 0x02] 0xfe "").2.1 4
      (Or.inr (Or.inl ⟨rfl, rfl⟩))).2 (by decide)⟩

end BinIo

/-! ## The execution context -/

namespace Stack

theorem wrapInt_of_range (w : Nat) (x : Int) (h1 : -2 ^ (w - 1) ≤ x) (h2 : x < 2 ^ (w - 1)) :
    wrapInt w x = x := by
  unfold wrapInt
  generalize (2 : Int) ^ (w - 1) = M at h1 h2
  rw [Int.emod_eq_of_lt (by omega) (by omega)]
  omega

theorem wrapInt_top (w : Nat) : wrapInt w (2 ^ (w - 1)) = -2 ^ (w - 1) := by
  unfold wrapInt
  have hM : (0 : Int) < 2 ^ (w - 1) := by positivity
  generalize (2 : Int) ^ (w - 1) = M at hM
  have h : M + M = 2 * M := by ring
  rw [h, Int.emod_self]
  omega

theorem nextN_succ {R : Type} (w : Nat) (RET : Nat) (k : Nat) (c : Context R) :
    Context.nextN w RET (k + 1) c =
      (Context.nextN w RET k c).bind fun c1 => (c1.Next w RET).map fun r => r.2 := by
  induction k generalizing c with
  | zero =>
    cases h : c.Next w RET <;> simp [Context.nextN, h]
  | succ k ih =>
    rw [Context.nextN]
    cases h : c.Next w RET with
    | none => simp [Context.nextN, h]
    | some r =>
      simp only [Option.some_bind]
      rw [ih r.2]
      conv_rhs => rw [Context.nextN, h]
      rfl

theorem Next_at {R : Type} (w : Nat) (RET : Nat) (c : Context R) (k : Nat)
    (h : c.ip = (k : Int) - 1) (hk : (k : Int) < 2 ^ (w - 1)) :
    c.Next w RET =
      some (if k < c.prog.length then c.prog.getD k RET else RET, { c with ip := (k : Int) }) := by
  have h1 : wrapInt w (c.ip + 1) = (k : Int) := by
    have h0 : c.ip + 1 = (k : Int) := by omega
    rw [h0]
    have hM : (0 : Int) < 2 ^ (w - 1) := by positivity
    exact wrapInt_of_range w _ (by omega) hk
  unfold Context.Next
  simp only [h1]
  by_cases hk : k < c.prog.length
  · have h2 : ¬ ((k : Int) ≥ (c.prog.length : Int)) := by omega
    have h3 : ¬ ((k : Int) < 0) := by omega
    simp [h2, h3, hk, List.getD_eq_getElem?_getD, List.getElem?_eq_getElem hk]
  · have h2 : (k : Int) ≥ (c.prog.length : Int) := by omega
    simp [h2, hk]

theorem nextN_NewContext {R : Type} (w : Nat) (RET : Nat) (zero : R) (b : List Nat) (k : Nat)
    (hk : (k : Int) ≤ 2 ^ (w - 1)) :
    Context.nextN w RET k (NewContext zero b) =
      some { NewContext zero b with ip := (k : Int) - 1 } := by
  induction k with
  | zero => rfl
  | succ k ih =>
    have hk1 : (k : Int) < 2 ^ (w - 1) := by push_cast at hk; omega
    rw [nextN_succ, ih (by omega)]
    simp only [Option.some_bind]
    rw [Next_at w RET _ k rfl hk1]
    simp

/-- C22, the counterexample. On a 64-bit platform, starting from `NewContext(b)` for the
one-byte program `b`, the first 2^63 calls of `Next` succeed, and after the call number
2^63 the instruction pointer is the largest `int`, so that `IP()` is -2^63 and not 2^63: the
sum `c.ip + 1` wraps.  The call after it increments the pointer to -2^63 and indexes the
program there, which panics. -/
theorem Next_IP_wraps :
    ∃ c2 : Context (List Nat),
      Context.nextN 64 0x66 9223372036854775808 (NewContext [] [0x51]) = some c2 ∧
      c2.ip = 9223372036854775807 ∧
      c2.IP 64 = -9223372036854775808 ∧ c2.IP 64 ≠ 9223372036854775808 ∧
      c2.Next 64 0x66 = none := by
  refine ⟨_, nextN_NewContext 64 0x66 [] [0x51] 9223372036854775808 (by norm_num), ?_, ?_, ?_, ?_⟩
  · norm_num
  · norm_num [Context.IP, wrapInt]
  · norm_num [Context.IP, wrapInt]
  · norm_num [Context.Next, wrapInt, NewContext]

/-- C22, amended. Let `int` have `w` bits and let `k + 1 < 2^(w-1)`. Starting from
`NewContext(b)`, whose `IP()` is 0, the first `k` calls of `Next` succeed and the call after
them (the call number `k + 1`) returns the instruction `b[k]` when `k + 1 <= len(b)` and
`RET` when `k + 1 > len(b)`; after that call `IP()` is `k + 1`.  `IP()` is the instruction
pointer plus one whenever that sum is an `int`. -/
theorem Next_instruction_fetch {R : Type} (w : Nat) (RET : Nat) (zero : R) (b : List Nat)
    (k : Nat) (hk : (k : Int) + 1 < 2 ^ (w - 1)) :
    (NewContext zero b).IP w = 0 ∧
    (∀ c : Context R, -2 ^ (w - 1) ≤ c.ip + 1 → c.ip + 1 < 2 ^ (w - 1) → c.IP w = c.ip + 1) ∧
    ∃ c1 c2, Context.nextN w RET k (NewContext zero b) = some c1 ∧
      c1.Next w RET = some (if k + 1 ≤ b.length then b.getD k RET else RET, c2) ∧
      Context.nextN w RET (k + 1) (NewContext zero b) = some c2 ∧
      c2.IP w = (k : Int) + 1 ∧ c2.prog = b := by
  have hM : (0 : Int) < 2 ^ (w - 1) := by positivity
  refine ⟨?_, fun c h1 h2 => wrapInt_of_range w _ h1 h2,
    { NewContext zero b with ip := (k : Int) - 1 },
    { NewContext zero b with ip := ((k + 1 : Nat) : Int) - 1 },
    nextN_NewContext w RET zero b k (by omega), ?_,
    nextN_NewContext w RET zero b (k + 1) (by push_cast; omega), ?_, rfl⟩
  · exact wrapInt_of_range w _ (by simp [NewContext]) (by simp [NewContext])
  · rw [Next_at w RET _ k rfl (by omega)]
    simp [NewContext, Nat.lt_iff_add_one_le]
  · have h0 : (((k + 1 : Nat) : Int) - 1 + 1) = (k : Int) + 1 := by push_cast; omega
    show wrapInt w (((k + 1 : Nat) : Int) - 1 + 1) = (k : Int) + 1
    rw [h0]
    exact wrapInt_of_range w _ (by omega) hk

theorem Next_instruction_fetch_witness :
    ((1 : Nat) : Int) + 1 < 2 ^ (64 - 1) ∧
    ∃ c1 c2 : Context (List Nat),
      Context.nextN 64 0x66 1 (NewContext [] [0x51, 0x52, 0x66]) = some c1 ∧
      c1.Next 64 0x66 = some (0x52, c2) ∧
      Context.nextN 64 0x66 (1 + 1) (NewContext [] [0x51, 0x52, 0x66]) = some c2 ∧
      c2.IP 64 = ((1 : Nat) : Int) + 1 ∧ c2.prog = [0x51, 0x52, 0x66] :=
  ⟨by norm_num, (Next_instruction_fetch 64 0x66 [] [0x51, 0x52, 0x66] 1 (by norm_num)).2.2⟩

/-- C23, the failing input. `Copy` of a context whose evaluation stack holds an item
returns a context with the empty evaluation stack (the zero value): the field `Estack`,
and the embedded `abstractItem`, are not copied.  The instruction pointer, the program and
the breakpoints are. -/
theorem Copy_drops_Estack :
    (Context.Copy [] (⟨true, 0, [0x51, 0x66], [1], [7]⟩ : Context (List Nat))).Estack = [] ∧
    (Context.Copy [] (⟨true, 0, [0x51, 0x66], [1], [7]⟩ : Context (List Nat))) ≠
      ⟨true, 0, [0x51, 0x66], [1], [7]⟩ ∧
    (Context.Copy [] (NewContext [] [0x51, 0x66] : Context (List Nat))).abstractItem = false ∧
    ∀ (zero : List Nat) (c : Context (List Nat)),
      (c.Copy zero).ip = c.ip ∧ (c.Copy zero).prog = c.prog ∧
        (c.Copy zero).breakPoints = c.breakPoints := by
  refine ⟨rfl, by decide, rfl, fun _ _ => ⟨rfl, rfl, rfl⟩⟩

end Stack
